import Mathlib

/-!
# Shallow embedding of the I2C character-LCD driver (`lcd.go`)

Go `byte` values are natural numbers in `0..255`; every place where the Go code can
overflow a byte is reduced `% 256` explicitly.  Go `int` fields are `Int`.  Go strings are
lists of bytes.  The driver object and the I2C device behind it form a `Machine`; every
method is a function from a machine to a `Res`, which is either a normal return (value and
successor machine) or a Go panic (with the machine as it stood when the panic was raised).
The `time.Sleep` calls are not represented.  The mutex has no effect on a single caller and
is absent from the sequential embedding; for concurrent callers every operation is also given
as the list of its atomic steps, mutex calls included, and threads are interleaved by a
schedule (section "Concurrent callers").
-/

namespace LcdDriver

/-! ## Constants (lcd.go, lines 23-55) -/

def _CMD_Clear_Display : Nat := 0x01
def _CMD_Return_Home : Nat := 0x02
def _CMD_Entry_Mode : Nat := 0x04
def _CMD_Display_Control : Nat := 0x08
def _CMD_Cursor_Display_Shift : Nat := 0x10
def _CMD_Function_Set : Nat := 0x20
def _CMD_DDRAM_Set : Nat := 0x80

def _OPT_Increment : Nat := 0x02
def _OPT_Enable_Display : Nat := 0x04
def _OPT_Enable_Cursor : Nat := 0x02
def _OPT_Enable_Blink : Nat := 0x01
def _OPT_Display_Shift : Nat := 0x08
def _OPT_Shift_Right : Nat := 0x04
def _OPT_2_Lines : Nat := 0x08
def _OPT_5x10_Dots : Nat := 0x04

def _OFFSET_RS : Nat := 0
def _OFFSET_EN : Nat := 2
def _OFFSET_BACKLIGHT : Nat := 3
def _OFFSET_D4 : Nat := 4
def _OFFSET_D5 : Nat := 5
def _OFFSET_D6 : Nat := 6
def _OFFSET_D7 : Nat := 7

/-! ## Data model -/

/-- Go `error` values the driver can see: the two `fmt.Errorf` validation messages of
`getLCDaddress` (with their format arguments), a failed `Write` on the device file (tagged
with the index of the failing call), and the failures of `os.OpenFile` and `ioctl`. -/
inductive GoError where
  | invalidLine (line : Nat) (max : Int)
  | invalidColumn (pos : Nat) (max : Int)
  | transport (call : Nat)
  | openFailed
  | ioctlFailed
  deriving DecidableEq, Repr

/-- Go run-time panics the driver can raise: the explicit `panic` of `writeI2C` and the
slice-bounds panic of `s[:l]` with a negative `l`. -/
inductive Panic where
  | writeBeforeEnable
  | sliceBounds
  deriving DecidableEq, Repr

/-- The `Lcd` struct (lcd.go, lines 57-63) without its mutex.  The field `on` is written `on_`
(`on` is reserved in Lean); `i2c` is `none` for a nil
`*os.File` and `some fd` for an open one. -/
structure Lcd where
  on_ : Bool
  i2c : Option Nat
  backlight_state : Bool
  cols : Int
  rows : Int
  deriving DecidableEq, Repr

/-- The I2C device as the driver sees it.  `writes` is every byte handed to `Write` on the
device file, oldest first, whether or not the call reported an error; `failAt` lists the
indices (0-based, in call order) of the `Write` calls that return a transport error;
`openFails` and `ioctlFails` say whether `os.OpenFile` and the address-binding `ioctl`
fail; `fd` is the descriptor a successful open yields. -/
structure Bus where
  writes : List Nat
  failAt : List Nat
  openFails : Bool
  ioctlFails : Bool
  fd : Nat
  deriving DecidableEq, Repr

/-- Driver object together with the device it talks to. -/
structure Machine where
  lcd : Lcd
  bus : Bus
  deriving DecidableEq, Repr

/-- Outcome of running a method: a normal return with a value and the successor machine, or
a panic together with the machine as it stood when the panic was raised. -/
inductive Res (α : Type) where
  | ret (val : α) (m : Machine)
  | panic (p : Panic) (m : Machine)
  deriving DecidableEq, Repr

/-- Sequencing of two steps; a panic in the first step ends the run. -/
def Res.bind {α β : Type} (r : Res α) (f : α → Machine → Res β) : Res β :=
  match r with
  | .ret a m => f a m
  | .panic p m => .panic p m

/-- Go conversion `byte(i)` of an `int`: the low eight bits. -/
def byteOfInt (i : Int) : Nat := (i % 256).toNat

/-! ## Bit-packer (lcd.go, lines 73-148) -/

/-- Embedding of `writeI2C`: panics on a nil handle, otherwise hands one byte to the device
and returns the `(count, error)` pair of `Write`. -/
def writeI2C (m : Machine) (b : Nat) : Res (Int × Option GoError) :=
  match m.lcd.i2c with
  | none => .panic .writeBeforeEnable m
  | some _ =>
    let call := m.bus.writes.length
    let m1 : Machine := { m with bus := { m.bus with writes := m.bus.writes ++ [b] } }
    if call ∈ m.bus.failAt then .ret (0, some (.transport call)) m1
    else .ret (1, none) m1

/-- Embedding of `pinInterpret`: set or clear bit `pin` of `data`. -/
def pinInterpret (pin data : Nat) (value : Bool) : Nat :=
  if value then
    let mask := (0x01 <<< pin) % 256
    data ||| mask
  else
    let mask := ((0x01 <<< pin) % 256) ^^^ 0xFF
    data &&& mask

/-- Embedding of `enable`: fold the backlight flag into the byte and pulse the enable line
(three bus writes whose results are discarded). -/
def enable (m : Machine) (data : Nat) : Res Unit :=
  let data := pinInterpret _OFFSET_BACKLIGHT data m.lcd.backlight_state
  (writeI2C m data).bind fun _ m =>
  (writeI2C m (pinInterpret _OFFSET_EN data true)).bind fun _ m =>
  (writeI2C m data).bind fun _ m =>
  .ret () m

/-- Embedding of `write`: send the high nibble, then the low nibble, each through `enable`. -/
def write (m : Machine) (data : Nat) (command : Bool) : Res Unit :=
  let i2c_data := 0
  let hi_nibble := data >>> 4
  let i2c_data := pinInterpret _OFFSET_D4 i2c_data (hi_nibble &&& 0x01 == 0x01)
  let i2c_data := pinInterpret _OFFSET_D5 i2c_data ((hi_nibble >>> 1) &&& 0x01 == 0x01)
  let i2c_data := pinInterpret _OFFSET_D6 i2c_data ((hi_nibble >>> 2) &&& 0x01 == 0x01)
  let i2c_data := pinInterpret _OFFSET_D7 i2c_data ((hi_nibble >>> 3) &&& 0x01 == 0x01)
  let i2c_data := if !command then pinInterpret _OFFSET_RS i2c_data true else i2c_data
  (enable m i2c_data).bind fun _ m =>
  let i2c_data := 0x00
  let low_nibble := data &&& 0x0F
  let i2c_data := pinInterpret _OFFSET_D4 i2c_data (low_nibble &&& 0x01 == 0x01)
  let i2c_data := pinInterpret _OFFSET_D5 i2c_data ((low_nibble >>> 1) &&& 0x01 == 0x01)
  let i2c_data := pinInterpret _OFFSET_D6 i2c_data ((low_nibble >>> 2) &&& 0x01 == 0x01)
  let i2c_data := pinInterpret _OFFSET_D7 i2c_data ((low_nibble >>> 3) &&& 0x01 == 0x01)
  let i2c_data := if !command then pinInterpret _OFFSET_RS i2c_data true else i2c_data
  enable m i2c_data

/-- Embedding of `command`. -/
def command (m : Machine) (data : Nat) : Res Unit :=
  write m data true

/-- Embedding of `writeBuf`: write every byte as data; the result is always
`(len(buf), nil)`.  The second argument is the part of the buffer still to be sent and the
third the length of the whole buffer. -/
def writeBufLoop (m : Machine) (rest : List Nat) (len : Nat) : Res (Int × Option GoError) :=
  match rest with
  | [] => .ret ((len : Int), none) m
  | c :: cs => (write m c false).bind fun _ m => writeBufLoop m cs len

/-- Embedding of `writeBuf`. -/
def writeBuf (m : Machine) (buf : List Nat) : Res (Int × Option GoError) :=
  writeBufLoop m buf buf.length

/-! ## Address resolver (lcd.go, lines 150-171) -/

/-- Embedding of `getLCDaddress`; the result is Go's `(byte, error)` pair. -/
def getLCDaddress (lcd : Lcd) (line pos : Nat) : Nat × Option GoError :=
  if line > byteOfInt lcd.rows then (0, some (.invalidLine line lcd.rows))
  else if pos > byteOfInt lcd.cols then (0, some (.invalidColumn pos lcd.cols))
  else
    let address :=
      match line with
      | 1 => pos
      | 2 => (0x40 + pos) % 256
      | 3 => (0x14 + pos) % 256
      | 4 => (0x54 + pos) % 256
      | _ => 0
    (address, none)

/-! ## Text helpers (lcd.go, lines 173-200) -/

/-- Embedding of `capstring`; `s[:l]` with a negative `l` is a run-time panic. -/
def capstring (s : List Nat) (l : Int) : Except Panic (List Nat) :=
  if (s.length : Int) > l then
    if l < 0 then .error .sliceBounds else .ok (s.take l.toNat)
  else .ok s

/-- Loop of `pad`: `n` iterations of `s += " "`. -/
def padLoop (s : List Nat) (n : Nat) : List Nat :=
  match n with
  | 0 => s
  | n + 1 => padLoop (s ++ [0x20]) n

/-- Embedding of `pad`: the loop runs from `len(s)` up to `l`. -/
def pad (s : List Nat) (l : Int) : List Nat :=
  if (s.length : Int) < l then padLoop s (l - s.length).toNat else s

/-- Embedding of `shift`: `l` iterations of `s = " " + s` (none when `l <= 0`). -/
def shiftLoop (s : List Nat) (n : Nat) : List Nat :=
  match n with
  | 0 => s
  | n + 1 => shiftLoop (0x20 :: s) n

/-- Embedding of `shift`. -/
def shift (s : List Nat) (l : Int) : List Nat :=
  shiftLoop s l.toNat

/-- Embedding of `sfmt` applied to the result of `fmt.Sprintf(format, a...)`: every newline
byte is removed. -/
def sfmt (formatted : List Nat) : List Nat :=
  formatted.filter (fun c => c != 0x0A)

/-- Embedding of `print` (lcd.go, lines 202-214). -/
def print (m : Machine) (line : Nat) (out : List Nat) : Res (Int × Option GoError) :=
  match capstring out m.lcd.cols with
  | .error p => .panic p m
  | .ok out =>
    match getLCDaddress m.lcd line 0 with
    | (_, some err) => .ret (0, some err) m
    | (address, none) =>
      (command m ((_CMD_DDRAM_Set + address) % 256)).bind fun _ m =>
      writeBuf m out

/-! ## Public operations (lcd.go, lines 218-378) -/

/-- Embedding of `NewLcd`. -/
def NewLcd (rows cols : Int) : Lcd :=
  { on_ := false, i2c := none, backlight_state := false, cols := cols, rows := rows }

/-- Embedding of `EnableHW`. -/
def EnableHW (m : Machine) : Res (Option GoError) :=
  if m.bus.openFails then .ret none m
  else if m.bus.ioctlFails then .ret none m
  else
    let m : Machine := { m with lcd := { m.lcd with i2c := some m.bus.fd } }
    let data := 0
    let data := pinInterpret _OFFSET_D4 data true
    let data := pinInterpret _OFFSET_D5 data true
    (enable m data).bind fun _ m =>
    (enable m data).bind fun _ m =>
    (enable m data).bind fun _ m =>
    let data := pinInterpret _OFFSET_D4 data false
    (enable m data).bind fun _ m =>
    (command m (_CMD_Function_Set ||| _OPT_2_Lines)).bind fun _ m =>
    (command m (_CMD_Display_Control ||| _OPT_Enable_Display ||| _OPT_Enable_Cursor)).bind fun _ m =>
    (command m _CMD_Clear_Display).bind fun _ m =>
    (command m (_CMD_Entry_Mode ||| _OPT_Increment ||| _OPT_Display_Shift)).bind fun _ m =>
    .ret none m

/-- Embedding of `On`. -/
def On (m : Machine) : Res Unit :=
  .ret () { m with lcd := { m.lcd with on_ := true } }

/-- Embedding of `Off`. -/
def Off (m : Machine) : Res Unit :=
  .ret () { m with lcd := { m.lcd with on_ := false } }

/-- Embedding of `BacklightOn`. -/
def BacklightOn (m : Machine) : Res Unit :=
  if !m.lcd.on_ then .ret () m
  else
    (writeI2C m (pinInterpret _OFFSET_BACKLIGHT 0x00 true)).bind fun _ m =>
    .ret () { m with lcd := { m.lcd with backlight_state := true } }

/-- Embedding of `BacklightOff`. -/
def BacklightOff (m : Machine) : Res Unit :=
  if !m.lcd.on_ then .ret () m
  else
    (writeI2C m (pinInterpret _OFFSET_BACKLIGHT 0x00 false)).bind fun _ m =>
    .ret () { m with lcd := { m.lcd with backlight_state := false } }

/-- Embedding of `Clear`. -/
def Clear (m : Machine) : Res Unit :=
  if !m.lcd.on_ then .ret () m
  else command m _CMD_Clear_Display

/-- Embedding of `Home`. -/
def Home (m : Machine) : Res Unit :=
  if !m.lcd.on_ then .ret () m
  else command m _CMD_Return_Home

/-- Embedding of `SetPosition`; the result is the returned `error`. -/
def SetPosition (m : Machine) (line col : Nat) : Res (Option GoError) :=
  if !m.lcd.on_ then .ret none m
  else
    match getLCDaddress m.lcd line col with
    | (_, some err) => .ret (some err) m
    | (address, none) =>
      (command m ((_CMD_DDRAM_Set + address) % 256)).bind fun _ m =>
      .ret none m

/-- Embedding of `ClearLine`; the result of `print` is discarded. -/
def ClearLine (m : Machine) (line : Nat) : Res Unit :=
  if !m.lcd.on_ then .ret () m
  else
    let s := pad [] m.lcd.cols
    (print m line s).bind fun _ m => .ret () m

/-- Embedding of `Centerf`; `formatted` is the result of `fmt.Sprintf(format, a...)`. -/
def Centerf (m : Machine) (line : Nat) (formatted : List Nat) : Res (Int × Option GoError) :=
  if !m.lcd.on_ then .ret (0, none) m
  else
    let out := sfmt formatted
    let out := shift out (Int.tdiv (m.lcd.cols - out.length) 2)
    let out := pad out m.lcd.cols
    print m line out

/-- Embedding of `RightJustifyf`; `formatted` is the result of `fmt.Sprintf(format, a...)`. -/
def RightJustifyf (m : Machine) (line : Nat) (formatted : List Nat) :
    Res (Int × Option GoError) :=
  if !m.lcd.on_ then .ret (0, none) m
  else
    let out := sfmt formatted
    let out := shift out (m.lcd.cols - out.length)
    print m line out

/-- Embedding of `Printf`; `formatted` is the result of `fmt.Sprintf(format, a...)`. -/
def Printf (m : Machine) (line : Nat) (formatted : List Nat) : Res (Int × Option GoError) :=
  if !m.lcd.on_ then .ret (0, none) m
  else
    let out := sfmt formatted
    let out := pad out m.lcd.cols
    print m line out

/-! ## Vocabulary for stating results

These definitions are not part of the driver.  They name the machine reached by handing
more bytes to the bus and the bytes each nibble transaction is expected to carry. -/

/-- The machine `m` after the bytes `bs` have been handed to the bus, nothing else changed. -/
def Machine.emit (m : Machine) (bs : List Nat) : Machine :=
  { m with bus := { m.bus with writes := m.bus.writes ++ bs } }

/-- The byte that `write` builds for one nibble before `enable` folds in the backlight: the
chain of `pinInterpret` calls of lcd.go lines 109-117 (and again 126-134). -/
def packNibble (nibble : Nat) (command : Bool) : Nat :=
  let i2c_data := 0
  let i2c_data := pinInterpret _OFFSET_D4 i2c_data (nibble &&& 0x01 == 0x01)
  let i2c_data := pinInterpret _OFFSET_D5 i2c_data ((nibble >>> 1) &&& 0x01 == 0x01)
  let i2c_data := pinInterpret _OFFSET_D6 i2c_data ((nibble >>> 2) &&& 0x01 == 0x01)
  let i2c_data := pinInterpret _OFFSET_D7 i2c_data ((nibble >>> 3) &&& 0x01 == 0x01)
  if !command then pinInterpret _OFFSET_RS i2c_data true else i2c_data

/-- Expected enable-low byte of a nibble transaction: the nibble on D4..D7, register select
on bit 0 for data, backlight on bit 3. -/
def nibbleByte (nibble : Nat) (command bl : Bool) : Nat :=
  ((nibble % 16) <<< 4) ||| (if command then 0 else 1) ||| (if bl then 0x08 else 0)

/-- Expected three bus bytes of one nibble transaction: enable low, high, low. -/
def pulse (b : Nat) : List Nat := [b, b ||| 0x04, b]

/-- Expected six bus bytes of one `write`: high-nibble transaction, then low-nibble. -/
def writeTrace (bl : Bool) (v : Nat) (command : Bool) : List Nat :=
  pulse (nibbleByte (v >>> 4) command bl) ++ pulse (nibbleByte v command bl)

/-- Line base addresses as the specification tabulates them:
`{1: 0x00, 2: 0x40, 3: 0x14, 4: 0x54}`. -/
def lineBase (line : Nat) : Nat :=
  match line with
  | 1 => 0x00
  | 2 => 0x40
  | 3 => 0x14
  | 4 => 0x54
  | _ => 0

/-- The machine `m` after `EnableHW` has stored the opened and bound handle. -/
def Machine.withHandle (m : Machine) : Machine :=
  { m with lcd := { m.lcd with i2c := some m.bus.fd } }

/-- The public operations of the driver, with their arguments; the text arguments are the
results of `fmt.Sprintf(format, a...)`. -/
inductive Op where
  | enableHW
  | on
  | off
  | backlightOn
  | backlightOff
  | clear
  | home
  | setPosition (line col : Nat)
  | clearLine (line : Nat)
  | printf (line : Nat) (formatted : List Nat)
  | centerf (line : Nat) (formatted : List Nat)
  | rightJustifyf (line : Nat) (formatted : List Nat)
  deriving DecidableEq, Repr

/-- Forget the returned value of a run. -/
def Res.void {α : Type} (r : Res α) : Res Unit :=
  match r with
  | .ret _ m => .ret () m
  | .panic p m => .panic p m

/-- The machine a run ends in: after the return, or as it stood at the panic. -/
def Res.machine {α : Type} (r : Res α) : Machine :=
  match r with
  | .ret _ m => m
  | .panic _ m => m

/-- Run one public operation, as a caller that ignores the returned value does. -/
def Op.run (op : Op) (m : Machine) : Res Unit :=
  match op with
  | .enableHW => (EnableHW m).void
  | .on => On m
  | .off => Off m
  | .backlightOn => BacklightOn m
  | .backlightOff => BacklightOff m
  | .clear => Clear m
  | .home => Home m
  | .setPosition line col => (SetPosition m line col).void
  | .clearLine line => ClearLine m line
  | .printf line formatted => (Printf m line formatted).void
  | .centerf line formatted => (Centerf m line formatted).void
  | .rightJustifyf line formatted => (RightJustifyf m line formatted).void

/-- Run a sequence of public operations in order; a panic ends the program. -/
def runOps (m : Machine) (ops : List Op) : Res Unit :=
  match ops with
  | [] => .ret () m
  | op :: rest => (op.run m).bind fun _ m => runOps m rest

/-! ## Sample machines used by the concrete instances -/

/-- A 2x16 display as in `examples/hello.go`, after `EnableHW`, `On` and `BacklightOn`. -/
def demo2x16 : Machine :=
  { lcd := { on_ := true, i2c := some 3, backlight_state := true, cols := 16, rows := 2 },
    bus := { writes := [], failAt := [], openFails := false, ioctlFails := false, fd := 3 } }

/-- A freshly constructed 2x16 driver on which neither `EnableHW` nor `On` was called. -/
def fresh2x16 : Machine :=
  { lcd := NewLcd 2 16,
    bus := { writes := [], failAt := [], openFails := false, ioctlFails := false, fd := 3 } }

/-- The 2x16 demo display on a bus whose very next `Write` call fails. -/
def flaky2x16 : Machine :=
  { demo2x16 with bus := { demo2x16.bus with failAt := [0] } }

/-- A fresh 2x16 driver on a system where opening `/dev/i2c-1` fails. -/
def noDevice2x16 : Machine :=
  { fresh2x16 with bus := { fresh2x16.bus with openFails := true } }

/-- A fresh 2x16 driver on a system where the device opens but binding the address fails. -/
def noBind2x16 : Machine :=
  { fresh2x16 with bus := { fresh2x16.bus with ioctlFails := true } }

/-- The fresh 2x16 driver after `On` alone, as in `src/hello/hello.go`: powered on, handle
never set. -/
def poweredOnly2x16 : Machine :=
  { fresh2x16 with lcd := { fresh2x16.lcd with on_ := true } }

/-- The demo display declared with zero rows. -/
def demo0x16 : Machine :=
  { demo2x16 with lcd := { demo2x16.lcd with rows := 0 } }

/-- The demo display declared with four columns. -/
def demo2x4 : Machine :=
  { demo2x16 with lcd := { demo2x16.lcd with cols := 4 } }

/-- The bytes of "Hello". -/
def hello : List Nat := [0x48, 0x65, 0x6C, 0x6C, 0x6F]

/-- The bytes of "There". -/
def there : List Nat := [0x54, 0x68, 0x65, 0x72, 0x65]

/-- The bytes of "LCD". -/
def lcdText : List Nat := [0x4C, 0x43, 0x44]

/-! ## Concurrent callers

The sequential embedding above runs one operation at a time.  For the locking discipline each
public operation is also given as the list of its atomic steps, in source order: the mutex
calls and every access to the shared driver state or to the bus.  Several threads, each
running one operation, are interleaved by a schedule. -/

/-- One atomic step of a thread. -/
inductive Instr where
  /-- The check `if !lcd.on return`: reads the power flag, ends the operation when it is false. -/
  | guardOn
  /-- The call `lcd.m.Lock()`; the thread waits while another thread holds the mutex. -/
  | lock
  /-- The deferred `lcd.m.Unlock()`. -/
  | unlock
  /-- The assignment `lcd.on = b`. -/
  | setOn (b : Bool)
  /-- The assignment `lcd.backlight_state = b`. -/
  | setBacklight (b : Bool)
  /-- The assignment `lcd.i2c = i2c` of `EnableHW`. -/
  | storeHandle
  /-- First statement of `enable`: read the backlight flag and fold it into the local `data`. -/
  | load (data : Nat)
  /-- One `writeI2C` of `enable`: the local `data`, with the enable bit set when `en`. -/
  | send (en : Bool)
  /-- The `writeI2C` of a constant byte in `BacklightOn` and `BacklightOff`. -/
  | raw (b : Nat)
  /-- The slice-bounds panic of `capstring`. -/
  | fail (p : Panic)
  deriving DecidableEq, Repr

/-- Steps of `enable(data)` (lcd.go, lines 96-102). -/
def enableProg (data : Nat) : List Instr :=
  [.load data, .send false, .send true, .send false]

/-- Steps of `write(data, command)`: one `enable` per nibble. -/
def writeProg (data : Nat) (command : Bool) : List Instr :=
  enableProg (packNibble (data >>> 4) command) ++ enableProg (packNibble (data &&& 0x0F) command)

/-- Steps of `command(data)`. -/
def commandProg (data : Nat) : List Instr :=
  writeProg data true

/-- Steps of `writeBuf(buf)`. -/
def writeBufProg (buf : List Nat) : List Instr :=
  buf.flatMap fun c => writeProg c false

/-- Steps of `print(line, out)`: the text is cut and the address resolved before the mutex is
taken (lcd.go, lines 203-210); the geometry fields are never assigned after `NewLcd`. -/
def printProg (lcd : Lcd) (line : Nat) (out : List Nat) : List Instr :=
  match capstring out lcd.cols with
  | .error p => [.fail p]
  | .ok out =>
    match getLCDaddress lcd line 0 with
    | (_, some _) => []
    | (address, none) =>
      [.lock] ++ commandProg ((_CMD_DDRAM_Set + address) % 256) ++ writeBufProg out ++ [.unlock]

/-- Steps of each public operation on a driver with the geometry and the device of `m`. -/
def Op.prog (m : Machine) (op : Op) : List Instr :=
  match op with
  | .enableHW =>
    if m.bus.openFails then []
    else if m.bus.ioctlFails then []
    else
      let data := pinInterpret _OFFSET_D5 (pinInterpret _OFFSET_D4 0 true) true
      [.storeHandle] ++ enableProg data ++ enableProg data ++ enableProg data
        ++ enableProg (pinInterpret _OFFSET_D4 data false)
        ++ commandProg (_CMD_Function_Set ||| _OPT_2_Lines)
        ++ commandProg (_CMD_Display_Control ||| _OPT_Enable_Display ||| _OPT_Enable_Cursor)
        ++ commandProg _CMD_Clear_Display
        ++ commandProg (_CMD_Entry_Mode ||| _OPT_Increment ||| _OPT_Display_Shift)
  | .on => [.setOn true]
  | .off => [.setOn false]
  | .backlightOn =>
    [.guardOn, .lock, .raw (pinInterpret _OFFSET_BACKLIGHT 0x00 true), .setBacklight true, .unlock]
  | .backlightOff =>
    [.guardOn, .lock, .raw (pinInterpret _OFFSET_BACKLIGHT 0x00 false), .setBacklight false,
      .unlock]
  | .clear => [.guardOn, .lock] ++ commandProg _CMD_Clear_Display ++ [.unlock]
  | .home => [.guardOn, .lock] ++ commandProg _CMD_Return_Home ++ [.unlock]
  | .setPosition line col =>
    .guardOn ::
      (match getLCDaddress m.lcd line col with
       | (_, some _) => []
       | (address, none) =>
         [.lock] ++ commandProg ((_CMD_DDRAM_Set + address) % 256) ++ [.unlock])
  | .clearLine line => .guardOn :: printProg m.lcd line (pad [] m.lcd.cols)
  | .printf line formatted => .guardOn :: printProg m.lcd line (pad (sfmt formatted) m.lcd.cols)
  | .centerf line formatted =>
    .guardOn :: printProg m.lcd line
      (pad (shift (sfmt formatted) (Int.tdiv (m.lcd.cols - (sfmt formatted).length) 2))
        m.lcd.cols)
  | .rightJustifyf line formatted =>
    .guardOn :: printProg m.lcd line
      (shift (sfmt formatted) (m.lcd.cols - (sfmt formatted).length))

/-- A thread: the steps it still has to run and the local variable `data` of `enable`. -/
structure Thread where
  prog : List Instr
  data : Nat
  deriving DecidableEq, Repr

/-- What a logged step touched. -/
inductive Access where
  /-- A bus write of `byte`; `viaEnable` tells the writes of `enable` from the constant
  writes of `BacklightOn` and `BacklightOff`. -/
  | bus (byte : Nat) (viaEnable : Bool)
  /-- A write of the power flag. -/
  | power
  /-- A write of the backlight flag. -/
  | backlight
  /-- A write of the device handle. -/
  | handle
  deriving DecidableEq, Repr

/-- A logged step: which thread made it, what it touched, and whether that thread held the
mutex at that moment. -/
structure Event where
  tid : Nat
  access : Access
  held : Bool
  deriving DecidableEq, Repr

/-- Several threads on one driver: the shared machine, the thread that holds the mutex, the
threads by number, the log of writes to shared state in the order they happened, and the
panic that ended the program, if any. -/
structure Conc where
  m : Machine
  owner : Option Nat
  threads : Nat → Thread
  log : List Event
  crashed : Option Panic

/-- Thread `tid` moves on to `th`. -/
def Conc.advance (s : Conc) (tid : Nat) (th : Thread) : Conc :=
  { s with threads := Function.update s.threads tid th }

/-- Thread `tid` runs its next step, if it has one and the program has not panicked.  A thread
at `lock` does not move while another thread holds the mutex. -/
def Conc.step (s : Conc) (tid : Nat) : Conc :=
  match s.crashed with
  | some _ => s
  | none =>
    match (s.threads tid).prog with
    | [] => s
    | i :: rest =>
      let th := s.threads tid
      let held := decide (s.owner = some tid)
      let next : Thread := { th with prog := rest }
      match i with
      | .guardOn =>
        if s.m.lcd.on_ then s.advance tid next else s.advance tid { th with prog := [] }
      | .lock =>
        match s.owner with
        | none => { s.advance tid next with owner := some tid }
        | some _ => s
      | .unlock => { s.advance tid next with owner := none }
      | .setOn b =>
        { s.advance tid next with
          m := { s.m with lcd := { s.m.lcd with on_ := b } },
          log := s.log ++ [⟨tid, .power, held⟩] }
      | .setBacklight b =>
        { s.advance tid next with
          m := { s.m with lcd := { s.m.lcd with backlight_state := b } },
          log := s.log ++ [⟨tid, .backlight, held⟩] }
      | .storeHandle =>
        { s.advance tid next with
          m := s.m.withHandle,
          log := s.log ++ [⟨tid, .handle, held⟩] }
      | .load data =>
        s.advance tid
          { next with data := pinInterpret _OFFSET_BACKLIGHT data s.m.lcd.backlight_state }
      | .send en =>
        let byte := if en then pinInterpret _OFFSET_EN th.data true else th.data
        match writeI2C s.m byte with
        | .ret _ m1 =>
          { s.advance tid next with m := m1, log := s.log ++ [⟨tid, .bus byte true, held⟩] }
        | .panic p _ => { s with crashed := some p }
      | .raw b =>
        match writeI2C s.m b with
        | .ret _ m1 =>
          { s.advance tid next with m := m1, log := s.log ++ [⟨tid, .bus b false, held⟩] }
        | .panic p _ => { s with crashed := some p }
      | .fail p => { s with crashed := some p }

/-- Run a schedule: the listed threads take one step each, in order. -/
def Conc.run (s : Conc) (sched : List Nat) : Conc :=
  sched.foldl Conc.step s

/-- Threads `0, 1, ...` are about to call the operations `ops`, one each, on the machine `m`. -/
def Conc.init (m : Machine) (ops : List Op) : Conc :=
  { m := m, owner := none,
    threads := fun t =>
      match ops[t]? with
      | some op => { prog := op.prog m, data := 0 }
      | none => { prog := [], data := 0 },
    log := [], crashed := none }

/-- Whether the event is a bus write. -/
def Event.isBus (e : Event) : Bool :=
  match e.access with
  | .bus _ _ => true
  | _ => false

/-- The byte of a bus write (0 for other events). -/
def Event.byte (e : Event) : Nat :=
  match e.access with
  | .bus b _ => b
  | _ => 0

/-- The bus writes of a log, in order. -/
def busEvents (log : List Event) : List Event :=
  log.filter Event.isBus

/-- Remaining steps of a critical section made of `enable` calls. -/
def enableBody : List Instr → Bool
  | [.unlock] => true
  | .load _ :: r => enableBody r
  | .send _ :: r => enableBody r
  | _ => false

/-- Remaining steps of the critical section of `BacklightOn` and `BacklightOff`. -/
def toggleBody : List Instr → Bool
  | [.raw _, .setBacklight _, .unlock] => true
  | [.setBacklight _, .unlock] => true
  | [.unlock] => true
  | _ => false

/-- Whether the next step is a bus write of `enable`. -/
def startsWithSend : List Instr → Bool
  | .send _ :: _ => true
  | _ => false

/-- Whether the next step belongs to `enable`. -/
def startsWithEnable : List Instr → Bool
  | .load _ :: _ => true
  | .send _ :: _ => true
  | _ => false

/-- Remaining steps of an operation that has not taken the mutex: checks and power-flag
writes, then at most one critical section, which ends the operation. -/
def outsideShape : List Instr → Bool
  | [] => true
  | .fail _ :: _ => true
  | .setOn _ :: r => outsideShape r
  | .guardOn :: r => outsideShape r
  | .lock :: r => (enableBody r && !startsWithSend r) || toggleBody r
  | _ => false

/-- What holds of thread `t` in every state reached when every thread runs an operation that
takes the mutex around its bus writes. -/
structure ThreadInv (s : Conc) (t : Nat) : Prop where
  shape : if s.owner = some t
    then (enableBody (s.threads t).prog || toggleBody (s.threads t).prog) = true
    else outsideShape (s.threads t).prog = true
  fresh : s.owner ≠ some t → (s.threads t).prog ≠ [] →
    ∀ e ∈ s.log, e.isBus = true → e.tid ≠ t
  register : s.owner = some t → startsWithSend (s.threads t).prog = true →
    (s.threads t).data.testBit 3 = s.m.lcd.backlight_state
  bits : ∃ bl : Bool,
    (∀ e ∈ s.log, e.tid = t → ∀ b, e.access = .bus b true → b.testBit 3 = bl) ∧
    (s.owner = some t → startsWithEnable (s.threads t).prog = true →
      bl = s.m.lcd.backlight_state)
  block : ∃ A F B : List Event,
    busEvents s.log = A ++ F ++ B ∧ (∀ e ∈ F, e.tid = t) ∧ (∀ e ∈ A, e.tid ≠ t) ∧
    (∀ e ∈ B, e.tid ≠ t) ∧ (s.owner = some t → B = [])

/-- What holds of every state reached from the machine `m0` when every thread runs an
operation that takes the mutex around its bus writes. -/
structure LockInv (m0 : Machine) (s : Conc) : Prop where
  held : ∀ e ∈ s.log, e.access ≠ .power → e.held = true
  trace : s.m.bus.writes = m0.bus.writes ++ (busEvents s.log).map Event.byte
  thread : ∀ t, ThreadInv s t

/-- What one thread sees of the state: the machine, the panic if any, the holder of the mutex
and its own remaining steps. -/
def Conc.view (s : Conc) (tid : Nat) : Machine × Option Panic × Option Nat × List Instr :=
  (s.m, s.crashed, s.owner, (s.threads tid).prog)

/-- The panic a run ended in, if any. -/
def Res.panicked {α : Type} (r : Res α) : Option Panic :=
  match r with
  | .ret _ _ => none
  | .panic p _ => some p

/-! ## Sample schedules -/

/-- Schedule in which thread 1 runs all its five steps after the first 21 steps of thread 0 and
before the next four. -/
def midWriteSchedule : List Nat :=
  List.replicate 21 0 ++ List.replicate 5 1 ++ List.replicate 4 0

/-- Schedule in which thread 0 runs one step, thread 1 ten, thread 0 four and thread 1 eight. -/
def midPrintSchedule : List Nat :=
  [0] ++ List.replicate 10 1 ++ List.replicate 4 0 ++ List.replicate 8 1

/-- Schedule for three threads: each takes its first step, thread 0 takes the mutex, thread 1
asks for it and has to wait, thread 0 finishes, then thread 1 finishes. -/
def mixedSchedule : List Nat :=
  [0, 1, 2, 0, 1] ++ List.replicate 137 0 ++ List.replicate 4 1

/-! ## Bit-packer lemmas -/

theorem emit_emit (m : Machine) (as bs : List Nat) :
    (m.emit as).emit bs = m.emit (as ++ bs) := by
  simp [Machine.emit, List.append_assoc]

theorem emit_nil (m : Machine) : m.emit [] = m := by
  simp [Machine.emit]

theorem emit_lcd (m : Machine) (bs : List Nat) : (m.emit bs).lcd = m.lcd := rfl

theorem emit_writes (m : Machine) (bs : List Nat) :
    (m.emit bs).bus.writes = m.bus.writes ++ bs := rfl

/-- With an open handle `writeI2C` returns the result of the device `Write` and hands exactly
its byte to the bus. -/
theorem writeI2C_open (m : Machine) (fd : Nat) (h : m.lcd.i2c = some fd) (b : Nat) :
    writeI2C m b =
      .ret (if m.bus.writes.length ∈ m.bus.failAt
              then (0, some (.transport m.bus.writes.length)) else (1, none))
        (m.emit [b]) := by
  unfold writeI2C
  rw [h]
  by_cases hc : m.bus.writes.length ∈ m.bus.failAt
  · simp [hc, Machine.emit]
  · simp [hc, Machine.emit]

theorem pinInterpret_EN (x : Nat) : pinInterpret _OFFSET_EN x true = x ||| 0x04 := by
  simp [pinInterpret, _OFFSET_EN]

/-- With an open handle `enable` returns after the three bytes of one pulse. -/
theorem enable_open (m : Machine) (fd : Nat) (h : m.lcd.i2c = some fd) (data : Nat) :
    enable m data =
      .ret () (m.emit (pulse (pinInterpret _OFFSET_BACKLIGHT data m.lcd.backlight_state))) := by
  have h1 : ∀ bs, (m.emit bs).lcd.i2c = some fd := fun _ => h
  simp only [enable, writeI2C_open m fd h, Res.bind, writeI2C_open _ fd (h1 _), emit_emit,
    pinInterpret_EN, pulse, List.cons_append, List.nil_append, emit_lcd]

theorem write_eq_packNibble (m : Machine) (v : Nat) (c : Bool) :
    write m v c =
      (enable m (packNibble (v >>> 4) c)).bind fun _ m => enable m (packNibble (v &&& 0x0F) c) :=
  rfl

theorem bit_mod16 (n k : Nat) (hk : k < 4) :
    ((n >>> k) &&& 1 == 1) = (((n % 16) >>> k) &&& 1 == 1) := by
  have e : (n >>> k) &&& 1 = ((n % 16) >>> k) &&& 1 := by
    simp only [Nat.shiftRight_eq_div_pow, Nat.and_one_is_mod]
    interval_cases k <;> omega
  rw [e]

theorem packNibble_mod16 (n : Nat) (c : Bool) : packNibble n c = packNibble (n % 16) c := by
  have h0 := bit_mod16 n 0 (by omega)
  simp only [Nat.shiftRight_zero] at h0
  unfold packNibble
  simp only [h0, bit_mod16 n 1 (by omega), bit_mod16 n 2 (by omega), bit_mod16 n 3 (by omega)]

theorem packNibble_small :
    ∀ n, n < 16 → ∀ c bl : Bool,
      pinInterpret _OFFSET_BACKLIGHT (packNibble n c) bl = nibbleByte n c bl := by
  decide

theorem nibble_out (n : Nat) (c bl : Bool) :
    pinInterpret _OFFSET_BACKLIGHT (packNibble n c) bl = nibbleByte n c bl := by
  rw [packNibble_mod16, packNibble_small (n % 16) (Nat.mod_lt _ (by decide)) c bl]
  simp [nibbleByte]

theorem low_nibble_eq (v : Nat) : v &&& 0x0F = v % 16 :=
  Nat.and_pow_two_sub_one_eq_mod v 4

/-- With an open handle `write` returns after exactly the six expected bus bytes; nothing
else in the machine changes. -/
theorem write_open (m : Machine) (fd : Nat) (h : m.lcd.i2c = some fd) (v : Nat) (c : Bool) :
    write m v c = .ret () (m.emit (writeTrace m.lcd.backlight_state v c)) := by
  have h1 : ∀ bs, (m.emit bs).lcd.i2c = some fd := fun _ => h
  rw [write_eq_packNibble, enable_open m fd h]
  simp only [Res.bind]
  rw [enable_open _ fd (h1 _), emit_emit, emit_lcd, nibble_out, nibble_out, low_nibble_eq]
  simp [writeTrace, nibbleByte]

theorem nibbleByte_EN_clear (n : Nat) (c bl : Bool) : nibbleByte n c bl &&& 0x04 = 0 := by
  have key : ∀ k, k < 16 → ∀ c bl : Bool,
      ((k <<< 4) ||| (if c then 0 else 1) ||| (if bl then 0x08 else 0)) &&& 0x04 = 0 := by
    decide
  exact key (n % 16) (Nat.mod_lt _ (by decide)) c bl

set_option maxRecDepth 100000 in
theorem nibble_layout_facts :
    ∀ v, v < 256 → ∀ c bl : Bool,
      nibbleByte (v >>> 4) c bl
          = ((v &&& 0xF0) ||| (if c then 0 else 1) ||| (if bl then 0x08 else 0)) ∧
      nibbleByte v c bl
          = (((v &&& 0x0F) <<< 4) ||| (if c then 0 else 1) ||| (if bl then 0x08 else 0)) ∧
      (∀ i, i < 4 →
        (nibbleByte (v >>> 4) c bl).testBit (4 + i) = v.testBit (4 + i) ∧
        (nibbleByte v c bl).testBit (4 + i) = v.testBit i) ∧
      (nibbleByte (v >>> 4) c bl).testBit 0 = !c ∧
      (nibbleByte v c bl).testBit 0 = !c ∧
      (nibbleByte (v >>> 4) c bl).testBit 1 = false ∧
      (nibbleByte v c bl).testBit 1 = false ∧
      ((nibbleByte (v >>> 4) c bl &&& 0xF0) ||| (nibbleByte v c bl >>> 4)) = v := by
  decide

/-! ## C1 and C2: the six bus writes of `write` -/

/-- C1: for every machine with an open bus, every byte `v` and every flag `isCommand`,
`write v isCommand` returns after handing exactly six bytes `b0..b5` to the bus, in this
order: `b0` with the enable bit (bit 2) clear, `b1 = b0` with the enable bit set, `b2 = b0`,
then `b3` with the enable bit clear, `b4 = b3` with the enable bit set, `b5 = b3`; nothing
else in the machine changes. -/
theorem write_six_bus_writes (m : Machine) (fd : Nat) (h : m.lcd.i2c = some fd)
    (v : Nat) (hv : v < 256) (isCommand : Bool) :
    ∃ b0 b1 b2 b3 b4 b5 : Nat,
      write m v isCommand = .ret () (m.emit [b0, b1, b2, b3, b4, b5]) ∧
      (m.emit [b0, b1, b2, b3, b4, b5]).bus.writes.length = m.bus.writes.length + 6 ∧
      b0 &&& 0x04 = 0 ∧ b1 = b0 ||| 0x04 ∧ b1 = b0 + 0x04 ∧ b2 = b0 ∧
      b3 &&& 0x04 = 0 ∧ b4 = b3 ||| 0x04 ∧ b4 = b3 + 0x04 ∧ b5 = b3 := by
  have add_of_clear : ∀ n (c bl : Bool), nibbleByte n c bl ||| 0x04 = nibbleByte n c bl + 0x04 := by
    intro n c bl
    have key : ∀ k, k < 16 → ∀ c bl : Bool,
        ((k <<< 4) ||| (if c then 0 else 1) ||| (if bl then 0x08 else 0)) ||| 0x04
          = ((k <<< 4) ||| (if c then 0 else 1) ||| (if bl then 0x08 else 0)) + 0x04 := by
      decide
    exact key (n % 16) (Nat.mod_lt _ (by decide)) c bl
  have _ := hv
  refine ⟨nibbleByte (v >>> 4) isCommand m.lcd.backlight_state, _, _,
    nibbleByte v isCommand m.lcd.backlight_state, _, _,
    write_open m fd h v isCommand, ?_, nibbleByte_EN_clear _ _ _, rfl, add_of_clear _ _ _, rfl,
    nibbleByte_EN_clear _ _ _, rfl, add_of_clear _ _ _, rfl⟩
  simp [emit_writes]

/-- C1, concrete instance: the data byte 0x48 on the 2x16 demo display. -/
theorem write_six_bus_writes_witness :
    demo2x16.lcd.i2c = some 3 ∧ 0x48 < 256 ∧
    ∃ b0 b1 b2 b3 b4 b5 : Nat,
      write demo2x16 0x48 false = .ret () (demo2x16.emit [b0, b1, b2, b3, b4, b5]) ∧
      (demo2x16.emit [b0, b1, b2, b3, b4, b5]).bus.writes.length
        = demo2x16.bus.writes.length + 6 ∧
      b0 &&& 0x04 = 0 ∧ b1 = b0 ||| 0x04 ∧ b1 = b0 + 0x04 ∧ b2 = b0 ∧
      b3 &&& 0x04 = 0 ∧ b4 = b3 ||| 0x04 ∧ b4 = b3 + 0x04 ∧ b5 = b3 :=
  ⟨rfl, by decide, write_six_bus_writes demo2x16 3 rfl 0x48 (by decide) false⟩

/-- C2: for every byte `v`, flag `isCommand` and backlight flag, the enable-low byte of the
first transaction of `write` is `(v AND 0xF0) OR rs OR bl` and that of the second is
`((v AND 0x0F) << 4) OR rs OR bl`, where `rs` is 1 exactly for data and `bl` is 0x08 exactly
when the backlight flag is set: high nibble first, nibble bit `i` on bit `4+i`, bit 0 set
exactly for data, bit 1 clear; and `v` is recovered as `(b0 AND 0xF0) OR (b3 >> 4)`. -/
theorem write_nibble_layout (m : Machine) (fd : Nat) (h : m.lcd.i2c = some fd)
    (v : Nat) (hv : v < 256) (isCommand : Bool) :
    ∃ b0 b3 : Nat,
      b0 = ((v &&& 0xF0) ||| (if isCommand then 0 else 1)
              ||| (if m.lcd.backlight_state then 0x08 else 0)) ∧
      b3 = (((v &&& 0x0F) <<< 4) ||| (if isCommand then 0 else 1)
              ||| (if m.lcd.backlight_state then 0x08 else 0)) ∧
      write m v isCommand = .ret () (m.emit [b0, b0 ||| 0x04, b0, b3, b3 ||| 0x04, b3]) ∧
      (∀ i, i < 4 → b0.testBit (4 + i) = v.testBit (4 + i) ∧ b3.testBit (4 + i) = v.testBit i) ∧
      b0.testBit 0 = !isCommand ∧ b3.testBit 0 = !isCommand ∧
      b0.testBit 1 = false ∧ b3.testBit 1 = false ∧
      ((b0 &&& 0xF0) ||| (b3 >>> 4)) = v := by
  obtain ⟨e0, e3, hbits, r0, r3, z0, z3, hrec⟩ :=
    nibble_layout_facts v hv isCommand m.lcd.backlight_state
  exact ⟨nibbleByte (v >>> 4) isCommand m.lcd.backlight_state,
    nibbleByte v isCommand m.lcd.backlight_state, e0, e3,
    write_open m fd h v isCommand, hbits, r0, r3, z0, z3, hrec⟩

/-- C2, concrete instance: the data byte 0x48 on the 2x16 demo display (backlight on) is
sent as 0x49 and 0x89. -/
theorem write_nibble_layout_witness :
    demo2x16.lcd.i2c = some 3 ∧ 0x48 < 256 ∧
    ∃ b0 b3 : Nat,
      b0 = ((0x48 &&& 0xF0) ||| (if false then 0 else 1)
              ||| (if demo2x16.lcd.backlight_state then 0x08 else 0)) ∧
      b3 = (((0x48 &&& 0x0F) <<< 4) ||| (if false then 0 else 1)
              ||| (if demo2x16.lcd.backlight_state then 0x08 else 0)) ∧
      write demo2x16 0x48 false
        = .ret () (demo2x16.emit [b0, b0 ||| 0x04, b0, b3, b3 ||| 0x04, b3]) ∧
      (∀ i, i < 4 →
        b0.testBit (4 + i) = Nat.testBit 0x48 (4 + i) ∧ b3.testBit (4 + i) = Nat.testBit 0x48 i) ∧
      b0.testBit 0 = !false ∧ b3.testBit 0 = !false ∧
      b0.testBit 1 = false ∧ b3.testBit 1 = false ∧
      ((b0 &&& 0xF0) ||| (b3 >>> 4)) = 0x48 :=
  ⟨rfl, by decide, write_nibble_layout demo2x16 3 rfl 0x48 (by decide) false⟩

/-! ## C3 and C4: the address resolver -/

theorem byteOfInt_of_byte (i : Int) (h0 : 0 ≤ i) (h1 : i ≤ 255) : byteOfInt i = i.toNat := by
  unfold byteOfInt
  omega

/-- C3 as stated fails: on the 2x16 display of the example program `getLCDaddress 1 1`
returns address 1, not `base[1] + (1 - 1) = 0`; and on a geometry outside the byte range
(256 rows) the in-range position `(1, 1)` is rejected. -/
theorem getLCDaddress_column_not_decremented :
    (1 ≤ 1 ∧ 1 ≤ 4 ∧ ((1 : Nat) : Int) ≤ demo2x16.lcd.rows ∧ ((1 : Nat) : Int) ≤ demo2x16.lcd.cols ∧
      getLCDaddress demo2x16.lcd 1 1 = (1, none) ∧
      getLCDaddress demo2x16.lcd 1 1 ≠ (lineBase 1 + (1 - 1), none)) ∧
    (((1 : Nat) : Int) ≤ (NewLcd 256 16).rows ∧ ((1 : Nat) : Int) ≤ (NewLcd 256 16).cols ∧
      getLCDaddress (NewLcd 256 16) 1 1 = (0, some (.invalidLine 1 256))) := by
  decide

/-- C3, amended: for every geometry with `0 <= rows, cols <= 255` and every position with
`1 <= line <= 4`, `line <= rows` and `column <= cols`, `getLCDaddress` returns no error and
the address `base[line] + column` reduced to a byte, the column being added as passed. -/
theorem getLCDaddress_valid (lcd : Lcd) (line col : Nat)
    (hrows : 0 ≤ lcd.rows ∧ lcd.rows ≤ 255) (hcols : 0 ≤ lcd.cols ∧ lcd.cols ≤ 255)
    (hline : 1 ≤ line ∧ line ≤ 4) (hlr : (line : Int) ≤ lcd.rows) (hcc : (col : Int) ≤ lcd.cols) :
    getLCDaddress lcd line col = ((lineBase line + col) % 256, none) := by
  unfold getLCDaddress
  rw [byteOfInt_of_byte _ hrows.1 hrows.2, byteOfInt_of_byte _ hcols.1 hcols.2]
  have h1 : ¬ line > lcd.rows.toNat := by omega
  have h2 : ¬ col > lcd.cols.toNat := by omega
  have h3 : col < 256 := by omega
  simp only [h1, h2, if_false]
  obtain ⟨hl1, hl4⟩ := hline
  interval_cases line <;> simp [lineBase, Nat.mod_eq_of_lt h3]

/-- C3, concrete instance: `SetPosition(1, 1)` of the example program resolves to address 1. -/
theorem getLCDaddress_valid_witness :
    (0 ≤ demo2x16.lcd.rows ∧ demo2x16.lcd.rows ≤ 255) ∧
    (0 ≤ demo2x16.lcd.cols ∧ demo2x16.lcd.cols ≤ 255) ∧
    (1 ≤ 1 ∧ 1 ≤ 4) ∧ ((1 : Nat) : Int) ≤ demo2x16.lcd.rows ∧
    ((1 : Nat) : Int) ≤ demo2x16.lcd.cols ∧
    getLCDaddress demo2x16.lcd 1 1 = ((lineBase 1 + 1) % 256, none) :=
  ⟨by decide, by decide, by decide, by decide, by decide,
    getLCDaddress_valid demo2x16.lcd 1 1 (by decide) (by decide) (by decide) (by decide)
      (by decide)⟩

/-- C4: for every geometry with `0 <= rows, cols <= 255` and every byte-valued line and
column, `getLCDaddress` returns an error exactly when `line > rows` or `column > cols`, and
that error is the validation error of the violated bound; the maximum itself
(`line = rows`, `column = cols`) is accepted and one above it is rejected. -/
theorem getLCDaddress_error_iff (lcd : Lcd) (line col : Nat)
    (hrows : 0 ≤ lcd.rows ∧ lcd.rows ≤ 255) (hcols : 0 ≤ lcd.cols ∧ lcd.cols ≤ 255)
    (hline : line < 256) (hcol : col < 256) :
    ((∃ e, (getLCDaddress lcd line col).2 = some e) ↔
        (line : Int) > lcd.rows ∨ (col : Int) > lcd.cols) ∧
    ((line : Int) > lcd.rows →
        getLCDaddress lcd line col = (0, some (.invalidLine line lcd.rows))) ∧
    ((line : Int) ≤ lcd.rows → (col : Int) > lcd.cols →
        getLCDaddress lcd line col = (0, some (.invalidColumn col lcd.cols))) ∧
    (getLCDaddress lcd lcd.rows.toNat lcd.cols.toNat).2 = none ∧
    (lcd.rows < 255 →
        getLCDaddress lcd (lcd.rows.toNat + 1) col
          = (0, some (.invalidLine (lcd.rows.toNat + 1) lcd.rows))) ∧
    (lcd.cols < 255 →
        getLCDaddress lcd lcd.rows.toNat (lcd.cols.toNat + 1)
          = (0, some (.invalidColumn (lcd.cols.toNat + 1) lcd.cols))) := by
  have _ := hline
  have _ := hcol
  unfold getLCDaddress
  rw [byteOfInt_of_byte _ hrows.1 hrows.2, byteOfInt_of_byte _ hcols.1 hcols.2]
  refine ⟨?_, ?_, ?_, ?_, ?_, ?_⟩
  · by_cases h1 : line > lcd.rows.toNat
    · simp only [h1, if_true]
      exact ⟨fun _ => Or.inl (by omega), fun _ => ⟨_, rfl⟩⟩
    · by_cases h2 : col > lcd.cols.toNat
      · simp only [h1, h2, if_true, if_false]
        exact ⟨fun _ => Or.inr (by omega), fun _ => ⟨_, rfl⟩⟩
      · simp only [h1, h2, if_false]
        constructor
        · rintro ⟨e, he⟩
          exact absurd he (by simp)
        · intro h
          omega
  · intro h
    have h1 : line > lcd.rows.toNat := by omega
    simp only [h1, if_true]
  · intro h h'
    have h1 : ¬ line > lcd.rows.toNat := by omega
    have h2 : col > lcd.cols.toNat := by omega
    simp only [h1, h2, if_true, if_false]
  · simp
  · intro _
    simp
  · intro _
    simp

/-- C4, concrete instance on the 2x16 display: `(2, 16)` is accepted, `(3, 0)` and `(2, 17)`
are rejected. -/
theorem getLCDaddress_error_iff_witness :
    (0 ≤ demo2x16.lcd.rows ∧ demo2x16.lcd.rows ≤ 255) ∧
    (0 ≤ demo2x16.lcd.cols ∧ demo2x16.lcd.cols ≤ 255) ∧ 2 < 256 ∧ 16 < 256 ∧
    (getLCDaddress demo2x16.lcd demo2x16.lcd.rows.toNat demo2x16.lcd.cols.toNat).2 = none ∧
    getLCDaddress demo2x16.lcd 2 16 = (0x50, none) ∧
    getLCDaddress demo2x16.lcd 3 0 = (0, some (.invalidLine 3 2)) ∧
    getLCDaddress demo2x16.lcd 2 17 = (0, some (.invalidColumn 17 16)) :=
  ⟨by decide, by decide, by decide, by decide,
    (getLCDaddress_error_iff demo2x16.lcd 2 16 (by decide) (by decide) (by decide)
      (by decide)).2.2.2.1,
    by decide, by decide, by decide⟩

/-! ## C5: operations on a powered-off driver -/

/-- C5: for every machine whose power-on flag is false and every argument list, each of
`BacklightOn`, `BacklightOff`, `Clear`, `Home`, `SetPosition`, `ClearLine`, `Printf`,
`Centerf` and `RightJustifyf` returns normally (no panic), with the machine unchanged (no
bus write, same driver state) and with no error (`nil`, respectively `(0, nil)`). -/
theorem powered_off_noop (m : Machine) (hoff : m.lcd.on_ = false) (line col : Nat)
    (formatted : List Nat) :
    BacklightOn m = .ret () m ∧ BacklightOff m = .ret () m ∧
    Clear m = .ret () m ∧ Home m = .ret () m ∧
    SetPosition m line col = .ret none m ∧ ClearLine m line = .ret () m ∧
    Printf m line formatted = .ret (0, none) m ∧
    Centerf m line formatted = .ret (0, none) m ∧
    RightJustifyf m line formatted = .ret (0, none) m := by
  simp [BacklightOn, BacklightOff, Clear, Home, SetPosition, ClearLine, Printf, Centerf,
    RightJustifyf, hoff]

/-- C5, concrete instance: a fresh driver (never enabled, never switched on) with an
out-of-range line and column. -/
theorem powered_off_noop_witness :
    fresh2x16.lcd.on_ = false ∧
    BacklightOn fresh2x16 = .ret () fresh2x16 ∧ BacklightOff fresh2x16 = .ret () fresh2x16 ∧
    Clear fresh2x16 = .ret () fresh2x16 ∧ Home fresh2x16 = .ret () fresh2x16 ∧
    SetPosition fresh2x16 9 99 = .ret none fresh2x16 ∧
    ClearLine fresh2x16 9 = .ret () fresh2x16 ∧
    Printf fresh2x16 9 hello = .ret (0, none) fresh2x16 ∧
    Centerf fresh2x16 9 hello = .ret (0, none) fresh2x16 ∧
    RightJustifyf fresh2x16 9 hello = .ret (0, none) fresh2x16 :=
  ⟨rfl, powered_off_noop fresh2x16 rfl 9 99 hello⟩

/-! ## C6: rejected positions -/

theorem capstring_nonneg (s : List Nat) (l : Int) (h : 0 ≤ l) :
    capstring s l = .ok (s.take l.toNat) := by
  unfold capstring
  by_cases hlen : (s.length : Int) > l
  · have : ¬ l < 0 := by omega
    simp [hlen, this]
  · have : s.length ≤ l.toNat := by omega
    simp [hlen, List.take_of_length_le this]

theorem print_rejected (m : Machine) (line : Nat) (out : List Nat)
    (hrows : 0 ≤ m.lcd.rows ∧ m.lcd.rows ≤ 255) (hcols : 0 ≤ m.lcd.cols)
    (hline : (line : Int) > m.lcd.rows) :
    print m line out = .ret (0, some (.invalidLine line m.lcd.rows)) m := by
  have h1 : line > byteOfInt m.lcd.rows := by
    rw [byteOfInt_of_byte _ hrows.1 hrows.2]
    omega
  simp [print, capstring_nonneg _ _ hcols, getLCDaddress, h1]

/-- C6: for every powered-on machine with geometry in `0..255` and every position the
address check rejects, `SetPosition` (line or column too large) and `Printf`, `Centerf`,
`RightJustifyf` (line too large) return the validation error and `ClearLine` returns, all
with the machine unchanged: no bus write and no change of driver state. -/
theorem rejected_position_no_effect (m : Machine) (hon : m.lcd.on_ = true)
    (hrows : 0 ≤ m.lcd.rows ∧ m.lcd.rows ≤ 255) (hcols : 0 ≤ m.lcd.cols ∧ m.lcd.cols ≤ 255)
    (line col : Nat) (formatted : List Nat) :
    ((line : Int) > m.lcd.rows →
      SetPosition m line col = .ret (some (.invalidLine line m.lcd.rows)) m ∧
      Printf m line formatted = .ret (0, some (.invalidLine line m.lcd.rows)) m ∧
      Centerf m line formatted = .ret (0, some (.invalidLine line m.lcd.rows)) m ∧
      RightJustifyf m line formatted = .ret (0, some (.invalidLine line m.lcd.rows)) m ∧
      ClearLine m line = .ret () m) ∧
    ((line : Int) ≤ m.lcd.rows → (col : Int) > m.lcd.cols →
      SetPosition m line col = .ret (some (.invalidColumn col m.lcd.cols)) m) := by
  constructor
  · intro hline
    have hp := fun out => print_rejected m line out hrows hcols.1 hline
    have h1 : line > byteOfInt m.lcd.rows := by
      rw [byteOfInt_of_byte _ hrows.1 hrows.2]
      omega
    refine ⟨?_, ?_, ?_, ?_, ?_⟩
    · simp [SetPosition, hon, getLCDaddress, h1]
    · simp [Printf, hon, hp]
    · simp [Centerf, hon, hp]
    · simp [RightJustifyf, hon, hp]
    · simp [ClearLine, hon, hp, Res.bind]
  · intro hline hcol
    have h1 : ¬ line > byteOfInt m.lcd.rows := by
      rw [byteOfInt_of_byte _ hrows.1 hrows.2]
      omega
    have h2 : col > byteOfInt m.lcd.cols := by
      rw [byteOfInt_of_byte _ hcols.1 hcols.2]
      omega
    simp [SetPosition, hon, getLCDaddress, h1, h2]

/-- C6, concrete instance from the example program: `RightJustifyf(3, "LCD")` on the 2x16
display returns the line error and leaves the machine as it was. -/
theorem rejected_position_no_effect_witness :
    demo2x16.lcd.on_ = true ∧
    (0 ≤ demo2x16.lcd.rows ∧ demo2x16.lcd.rows ≤ 255) ∧
    (0 ≤ demo2x16.lcd.cols ∧ demo2x16.lcd.cols ≤ 255) ∧
    ((3 : Nat) : Int) > demo2x16.lcd.rows ∧
    RightJustifyf demo2x16 3 lcdText = .ret (0, some (.invalidLine 3 2)) demo2x16 :=
  ⟨rfl, by decide, by decide, by decide,
    ((rejected_position_no_effect demo2x16 rfl (by decide) (by decide) 3 0 lcdText).1
      (by decide)).2.2.2.1⟩

/-! ## Commands, buffers and `print` on an open bus -/

theorem command_open (m : Machine) (fd : Nat) (h : m.lcd.i2c = some fd) (v : Nat) :
    command m v = .ret () (m.emit (writeTrace m.lcd.backlight_state v true)) :=
  write_open m fd h v true

theorem writeBufLoop_open (rest : List Nat) (m : Machine) (fd : Nat)
    (h : m.lcd.i2c = some fd) (len : Nat) :
    writeBufLoop m rest len =
      .ret ((len : Int), none)
        (m.emit (rest.flatMap fun c => writeTrace m.lcd.backlight_state c false)) := by
  induction rest generalizing m with
  | nil => simp [writeBufLoop, emit_nil]
  | cons c cs ih =>
    have h1 : (m.emit (writeTrace m.lcd.backlight_state c false)).lcd.i2c = some fd := h
    simp only [writeBufLoop, write_open m fd h, Res.bind]
    rw [ih _ h1, emit_emit, emit_lcd]
    simp [List.flatMap_cons]

/-- With an open handle `writeBuf` returns `(len(buf), nil)` after the six bus bytes of every
buffer byte, in buffer order, whatever the device reported for the individual writes. -/
theorem writeBuf_open (m : Machine) (fd : Nat) (h : m.lcd.i2c = some fd) (buf : List Nat) :
    writeBuf m buf =
      .ret ((buf.length : Int), none)
        (m.emit (buf.flatMap fun c => writeTrace m.lcd.backlight_state c false)) :=
  writeBufLoop_open buf m fd h buf.length

/-- On an open bus, with a non-negative column count and a line the address check accepts,
`print` sends the set-address command and then the text cut to the column count. -/
theorem print_open (m : Machine) (fd : Nat) (h : m.lcd.i2c = some fd) (hcols : 0 ≤ m.lcd.cols)
    (line addr : Nat) (haddr : getLCDaddress m.lcd line 0 = (addr, none)) (out : List Nat) :
    print m line out =
      writeBuf (m.emit (writeTrace m.lcd.backlight_state ((_CMD_DDRAM_Set + addr) % 256) true))
        (out.take m.lcd.cols.toNat) := by
  simp only [print, capstring_nonneg _ _ hcols, haddr, command_open m fd h, Res.bind]

/-! ## Text helper lemmas -/

theorem padLoop_eq (n : Nat) (s : List Nat) : padLoop s n = s ++ List.replicate n 0x20 := by
  induction n generalizing s with
  | zero => simp [padLoop]
  | succ n ih =>
    rw [padLoop, ih, List.append_assoc]
    rfl

theorem pad_eq (s : List Nat) (l : Int) :
    pad s l = s ++ List.replicate (l.toNat - s.length) 0x20 := by
  unfold pad
  by_cases hlt : (s.length : Int) < l
  · have e : (l - (s.length : Int)).toNat = l.toNat - s.length := by omega
    simp [hlt, padLoop_eq, e]
  · have e : l.toNat - s.length = 0 := by omega
    simp [hlt, e]

theorem shiftLoop_eq (n : Nat) (s : List Nat) : shiftLoop s n = List.replicate n 0x20 ++ s := by
  induction n generalizing s with
  | zero => simp [shiftLoop]
  | succ n ih =>
    rw [shiftLoop, ih, List.replicate_succ' , List.append_assoc]
    rfl

theorem shift_eq (s : List Nat) (l : Int) : shift s l = List.replicate l.toNat 0x20 ++ s :=
  shiftLoop_eq l.toNat s

theorem take_pad (s : List Nat) (c : Nat) :
    (s ++ List.replicate (c - s.length) 0x20).take c
      = s.take (min s.length c) ++ List.replicate (c - min s.length c) 0x20 := by
  by_cases hle : s.length ≤ c
  · have hlen : (s ++ List.replicate (c - s.length) 0x20).length ≤ c := by
      simp only [List.length_append, List.length_replicate]
      omega
    rw [List.take_of_length_le hlen, Nat.min_eq_left hle, List.take_length]
  · have h1 : c - s.length = 0 := by omega
    have h2 : min s.length c = c := by omega
    simp [h1, h2]

/-! ## C7: transport errors -/

/-- C7, the code evaluated at a failing bus: on the 2x16 display whose next device `Write`
fails, the first bus write of `Printf(1, "Hello")` (the byte 0x88) reports a transport error
to `writeI2C`, and `Printf` nevertheless returns `(16, nil)` after all 102 bus writes. -/
theorem Printf_drops_transport_error :
    writeI2C flaky2x16 0x88 = .ret (0, some (.transport 0)) (flaky2x16.emit [0x88]) ∧
    ∃ m1, Printf flaky2x16 1 hello = .ret (16, none) m1 ∧
      m1.bus.writes.take 1 = [0x88] ∧ m1.bus.writes.length = 102 := by
  refine ⟨by decide, _, rfl, by decide, by decide⟩

/-! ## C8, C9, C10: the payload of the three formatting operations -/

/-- C8: for every column count `cols >= 0`, every formatted text `s` (newlines removed by
`sfmt`) and every line the address check accepts, `Printf` on an open bus sends the
set-address command and then, as data, exactly `cols` bytes: the first `min(len(s), cols)`
bytes of `s` followed by `cols - min(len(s), cols)` spaces. -/
theorem Printf_payload (m : Machine) (fd : Nat) (hon : m.lcd.on_ = true)
    (hopen : m.lcd.i2c = some fd) (hcols : 0 ≤ m.lcd.cols) (line addr : Nat)
    (haddr : getLCDaddress m.lcd line 0 = (addr, none)) (formatted : List Nat) :
    ∃ payload : List Nat,
      payload = (sfmt formatted).take (min (sfmt formatted).length m.lcd.cols.toNat)
        ++ List.replicate (m.lcd.cols.toNat - min (sfmt formatted).length m.lcd.cols.toNat) 0x20 ∧
      (payload.length : Int) = m.lcd.cols ∧
      Printf m line formatted =
        writeBuf (m.emit (writeTrace m.lcd.backlight_state ((_CMD_DDRAM_Set + addr) % 256) true))
          payload ∧
      Printf m line formatted =
        .ret (m.lcd.cols, none)
          (m.emit (writeTrace m.lcd.backlight_state ((_CMD_DDRAM_Set + addr) % 256) true
            ++ payload.flatMap fun c => writeTrace m.lcd.backlight_state c false)) := by
  have hP : Printf m line formatted =
      writeBuf (m.emit (writeTrace m.lcd.backlight_state ((_CMD_DDRAM_Set + addr) % 256) true))
        ((sfmt formatted).take (min (sfmt formatted).length m.lcd.cols.toNat)
          ++ List.replicate (m.lcd.cols.toNat - min (sfmt formatted).length m.lcd.cols.toNat)
              0x20) := by
    simp only [Printf, hon, Bool.not_true, Bool.false_eq_true, if_false]
    rw [print_open m fd hopen hcols line addr haddr, pad_eq, take_pad]
  have hlen : (((sfmt formatted).take (min (sfmt formatted).length m.lcd.cols.toNat)
      ++ List.replicate (m.lcd.cols.toNat - min (sfmt formatted).length m.lcd.cols.toNat)
          0x20).length : Int) = m.lcd.cols := by
    simp only [List.length_append, List.length_take, List.length_replicate]
    omega
  refine ⟨_, rfl, hlen, hP, ?_⟩
  rw [hP, writeBuf_open
    (m.emit (writeTrace m.lcd.backlight_state ((_CMD_DDRAM_Set + addr) % 256) true)) fd hopen,
    emit_emit, emit_lcd, hlen]

/-- C8, concrete instance: "Hello" on line 1 of the 16-column display is sent as "Hello"
followed by 11 spaces. -/
theorem Printf_payload_witness :
    demo2x16.lcd.on_ = true ∧ demo2x16.lcd.i2c = some 3 ∧ 0 ≤ demo2x16.lcd.cols ∧
    getLCDaddress demo2x16.lcd 1 0 = (0, none) ∧
    (∃ payload : List Nat,
      payload = (sfmt hello).take (min (sfmt hello).length demo2x16.lcd.cols.toNat)
        ++ List.replicate (demo2x16.lcd.cols.toNat - min (sfmt hello).length
            demo2x16.lcd.cols.toNat) 0x20 ∧
      (payload.length : Int) = demo2x16.lcd.cols ∧
      Printf demo2x16 1 hello =
        writeBuf (demo2x16.emit
          (writeTrace demo2x16.lcd.backlight_state ((_CMD_DDRAM_Set + 0) % 256) true)) payload ∧
      Printf demo2x16 1 hello =
        .ret (demo2x16.lcd.cols, none)
          (demo2x16.emit
            (writeTrace demo2x16.lcd.backlight_state ((_CMD_DDRAM_Set + 0) % 256) true
              ++ payload.flatMap fun c => writeTrace demo2x16.lcd.backlight_state c false))) ∧
    (sfmt hello).take (min (sfmt hello).length demo2x16.lcd.cols.toNat)
        ++ List.replicate (demo2x16.lcd.cols.toNat - min (sfmt hello).length
            demo2x16.lcd.cols.toNat) 0x20
      = hello ++ List.replicate 11 0x20 :=
  ⟨rfl, rfl, by decide, by decide,
    Printf_payload demo2x16 3 rfl rfl (by decide) 1 0 (by decide) hello, by decide⟩

/-- On an open bus a text that already fits the column count is sent whole by `print`. -/
theorem print_fits (m : Machine) (fd : Nat) (h : m.lcd.i2c = some fd) (hcols : 0 ≤ m.lcd.cols)
    (line addr : Nat) (haddr : getLCDaddress m.lcd line 0 = (addr, none)) (out : List Nat)
    (hfit : out.length ≤ m.lcd.cols.toNat) :
    print m line out =
        writeBuf (m.emit (writeTrace m.lcd.backlight_state ((_CMD_DDRAM_Set + addr) % 256) true))
          out ∧
    print m line out =
        .ret ((out.length : Int), none)
          (m.emit (writeTrace m.lcd.backlight_state ((_CMD_DDRAM_Set + addr) % 256) true
            ++ out.flatMap fun c => writeTrace m.lcd.backlight_state c false)) := by
  have hP := print_open m fd h hcols line addr haddr out
  rw [List.take_of_length_le hfit] at hP
  refine ⟨hP, ?_⟩
  rw [hP, writeBuf_open
    (m.emit (writeTrace m.lcd.backlight_state ((_CMD_DDRAM_Set + addr) % 256) true)) fd h,
    emit_emit, emit_lcd]

/-- C9: for every column count `cols` and every formatted text `s` with `len(s) <= cols`,
`Centerf` on an open bus and an accepted line sends the set-address command and then, as
data, exactly `cols` bytes: `floor((cols - len(s)) / 2)` spaces, then `s`, then spaces up to
`cols`; the trailing pad equals the leading pad or is one longer. -/
theorem Centerf_payload (m : Machine) (fd : Nat) (hon : m.lcd.on_ = true)
    (hopen : m.lcd.i2c = some fd) (line addr : Nat)
    (haddr : getLCDaddress m.lcd line 0 = (addr, none)) (formatted : List Nat)
    (hlen : ((sfmt formatted).length : Int) ≤ m.lcd.cols) :
    ∃ (lead trail : Nat) (payload : List Nat),
      (lead : Int) = (m.lcd.cols - (sfmt formatted).length) / 2 ∧
      (lead : Int) + (sfmt formatted).length + trail = m.lcd.cols ∧
      (trail = lead ∨ trail = lead + 1) ∧
      payload = List.replicate lead 0x20 ++ sfmt formatted ++ List.replicate trail 0x20 ∧
      (payload.length : Int) = m.lcd.cols ∧
      Centerf m line formatted =
        writeBuf (m.emit (writeTrace m.lcd.backlight_state ((_CMD_DDRAM_Set + addr) % 256) true))
          payload ∧
      Centerf m line formatted =
        .ret (m.lcd.cols, none)
          (m.emit (writeTrace m.lcd.backlight_state ((_CMD_DDRAM_Set + addr) % 256) true
            ++ payload.flatMap fun c => writeTrace m.lcd.backlight_state c false)) := by
  have hcols : 0 ≤ m.lcd.cols := by omega
  have hdiv : Int.tdiv (m.lcd.cols - (sfmt formatted).length) 2
      = (m.lcd.cols - (sfmt formatted).length) / 2 :=
    Int.tdiv_eq_ediv (by omega) (by decide)
  have hC : Centerf m line formatted =
      print m line
        (List.replicate ((m.lcd.cols - (sfmt formatted).length) / 2).toNat 0x20 ++ sfmt formatted
          ++ List.replicate
              (m.lcd.cols.toNat - (sfmt formatted).length
                - ((m.lcd.cols - (sfmt formatted).length) / 2).toNat) 0x20) := by
    simp only [Centerf, hon, Bool.not_true, Bool.false_eq_true, if_false]
    rw [shift_eq, pad_eq, hdiv]
    congr 3
    simp only [List.length_append, List.length_replicate]
    omega
  have hL : (List.replicate ((m.lcd.cols - (sfmt formatted).length) / 2).toNat 0x20
      ++ sfmt formatted
      ++ List.replicate
          (m.lcd.cols.toNat - (sfmt formatted).length
            - ((m.lcd.cols - (sfmt formatted).length) / 2).toNat) 0x20).length
      = m.lcd.cols.toNat := by
    simp only [List.length_append, List.length_replicate]
    omega
  obtain ⟨h1, h2⟩ := print_fits m fd hopen hcols line addr haddr _ (le_of_eq hL)
  have hLi : ((List.replicate ((m.lcd.cols - (sfmt formatted).length) / 2).toNat 0x20
      ++ sfmt formatted
      ++ List.replicate
          (m.lcd.cols.toNat - (sfmt formatted).length
            - ((m.lcd.cols - (sfmt formatted).length) / 2).toNat) 0x20).length : Int)
      = m.lcd.cols := by
    rw [hL]
    omega
  refine ⟨((m.lcd.cols - (sfmt formatted).length) / 2).toNat,
    m.lcd.cols.toNat - (sfmt formatted).length
      - ((m.lcd.cols - (sfmt formatted).length) / 2).toNat,
    _, by omega, by omega, by omega, rfl, hLi, hC.trans h1, ?_⟩
  rw [hC, h2, hLi]

set_option maxRecDepth 100000 in
/-- C9, concrete instance: "There" on line 2 of the 16-column display is sent as 5 spaces,
"There", 6 spaces. -/
theorem Centerf_payload_witness :
    demo2x16.lcd.on_ = true ∧ demo2x16.lcd.i2c = some 3 ∧
    getLCDaddress demo2x16.lcd 2 0 = (0x40, none) ∧
    ((sfmt there).length : Int) ≤ demo2x16.lcd.cols ∧
    (∃ (lead trail : Nat) (payload : List Nat),
      (lead : Int) = (demo2x16.lcd.cols - (sfmt there).length) / 2 ∧
      (lead : Int) + (sfmt there).length + trail = demo2x16.lcd.cols ∧
      (trail = lead ∨ trail = lead + 1) ∧
      payload = List.replicate lead 0x20 ++ sfmt there ++ List.replicate trail 0x20 ∧
      (payload.length : Int) = demo2x16.lcd.cols ∧
      Centerf demo2x16 2 there =
        writeBuf (demo2x16.emit
          (writeTrace demo2x16.lcd.backlight_state ((_CMD_DDRAM_Set + 0x40) % 256) true))
          payload ∧
      Centerf demo2x16 2 there =
        .ret (demo2x16.lcd.cols, none)
          (demo2x16.emit
            (writeTrace demo2x16.lcd.backlight_state ((_CMD_DDRAM_Set + 0x40) % 256) true
              ++ payload.flatMap fun c => writeTrace demo2x16.lcd.backlight_state c false))) ∧
    Centerf demo2x16 2 there =
      writeBuf (demo2x16.emit
        (writeTrace demo2x16.lcd.backlight_state ((_CMD_DDRAM_Set + 0x40) % 256) true))
        (List.replicate 5 0x20 ++ there ++ List.replicate 6 0x20) :=
  ⟨rfl, rfl, by decide, by decide,
    Centerf_payload demo2x16 3 rfl rfl 2 0x40 (by decide) there (by decide), by decide⟩

/-- C10: for every column count `cols` and every formatted text `s` with `len(s) <= cols`,
`RightJustifyf` on an open bus and an accepted line sends the set-address command and then,
as data, exactly `cols - len(s)` spaces followed by `s` and nothing after it: `cols` bytes
ending with `s`. -/
theorem RightJustifyf_payload (m : Machine) (fd : Nat) (hon : m.lcd.on_ = true)
    (hopen : m.lcd.i2c = some fd) (line addr : Nat)
    (haddr : getLCDaddress m.lcd line 0 = (addr, none)) (formatted : List Nat)
    (hlen : ((sfmt formatted).length : Int) ≤ m.lcd.cols) :
    ∃ (lead : Nat) (payload : List Nat),
      (lead : Int) = m.lcd.cols - (sfmt formatted).length ∧
      payload = List.replicate lead 0x20 ++ sfmt formatted ∧
      payload.drop lead = sfmt formatted ∧
      (payload.length : Int) = m.lcd.cols ∧
      RightJustifyf m line formatted =
        writeBuf (m.emit (writeTrace m.lcd.backlight_state ((_CMD_DDRAM_Set + addr) % 256) true))
          payload ∧
      RightJustifyf m line formatted =
        .ret (m.lcd.cols, none)
          (m.emit (writeTrace m.lcd.backlight_state ((_CMD_DDRAM_Set + addr) % 256) true
            ++ payload.flatMap fun c => writeTrace m.lcd.backlight_state c false)) := by
  have hcols : 0 ≤ m.lcd.cols := by omega
  have hR : RightJustifyf m line formatted =
      print m line
        (List.replicate (m.lcd.cols - (sfmt formatted).length).toNat 0x20 ++ sfmt formatted) := by
    simp only [RightJustifyf, hon, Bool.not_true, Bool.false_eq_true, if_false]
    rw [shift_eq]
  have hL : (List.replicate (m.lcd.cols - (sfmt formatted).length).toNat 0x20
      ++ sfmt formatted).length = m.lcd.cols.toNat := by
    simp only [List.length_append, List.length_replicate]
    omega
  obtain ⟨h1, h2⟩ := print_fits m fd hopen hcols line addr haddr _ (le_of_eq hL)
  have hLi : ((List.replicate (m.lcd.cols - (sfmt formatted).length).toNat 0x20
      ++ sfmt formatted).length : Int) = m.lcd.cols := by
    rw [hL]
    omega
  refine ⟨(m.lcd.cols - (sfmt formatted).length).toNat, _, by omega, rfl, ?_, hLi,
    hR.trans h1, ?_⟩
  · simp
  · rw [hR, h2, hLi]

set_option maxRecDepth 100000 in
/-- C10, concrete instance: "LCD" on an accepted line of the 16-column display is sent as
13 spaces followed by "LCD". -/
theorem RightJustifyf_payload_witness :
    demo2x16.lcd.on_ = true ∧ demo2x16.lcd.i2c = some 3 ∧
    getLCDaddress demo2x16.lcd 2 0 = (0x40, none) ∧
    ((sfmt lcdText).length : Int) ≤ demo2x16.lcd.cols ∧
    (∃ (lead : Nat) (payload : List Nat),
      (lead : Int) = demo2x16.lcd.cols - (sfmt lcdText).length ∧
      payload = List.replicate lead 0x20 ++ sfmt lcdText ∧
      payload.drop lead = sfmt lcdText ∧
      (payload.length : Int) = demo2x16.lcd.cols ∧
      RightJustifyf demo2x16 2 lcdText =
        writeBuf (demo2x16.emit
          (writeTrace demo2x16.lcd.backlight_state ((_CMD_DDRAM_Set + 0x40) % 256) true))
          payload ∧
      RightJustifyf demo2x16 2 lcdText =
        .ret (demo2x16.lcd.cols, none)
          (demo2x16.emit
            (writeTrace demo2x16.lcd.backlight_state ((_CMD_DDRAM_Set + 0x40) % 256) true
              ++ payload.flatMap fun c => writeTrace demo2x16.lcd.backlight_state c false))) ∧
    RightJustifyf demo2x16 2 lcdText =
      writeBuf (demo2x16.emit
        (writeTrace demo2x16.lcd.backlight_state ((_CMD_DDRAM_Set + 0x40) % 256) true))
        (List.replicate 13 0x20 ++ lcdText) :=
  ⟨rfl, rfl, by decide, by decide,
    RightJustifyf_payload demo2x16 3 rfl rfl 2 0x40 (by decide) lcdText (by decide), by decide⟩

/-! ## `EnableHW` -/

theorem writeTrace_length (bl : Bool) (v : Nat) (c : Bool) : (writeTrace bl v c).length = 6 :=
  rfl

/-- When the device opens and binds, `EnableHW` stores the handle and returns nil after three
pulses of the 8-bit signal, one mode-switch pulse and four commands. -/
theorem EnableHW_ok (m : Machine) (hopen : m.bus.openFails = false)
    (hioctl : m.bus.ioctlFails = false) :
    EnableHW m =
      .ret none (m.withHandle.emit
        (pulse (pinInterpret _OFFSET_BACKLIGHT 0x30 m.lcd.backlight_state)
          ++ pulse (pinInterpret _OFFSET_BACKLIGHT 0x30 m.lcd.backlight_state)
          ++ pulse (pinInterpret _OFFSET_BACKLIGHT 0x30 m.lcd.backlight_state)
          ++ pulse (pinInterpret _OFFSET_BACKLIGHT 0x20 m.lcd.backlight_state)
          ++ writeTrace m.lcd.backlight_state 0x28 true
          ++ writeTrace m.lcd.backlight_state 0x0E true
          ++ writeTrace m.lcd.backlight_state 0x01 true
          ++ writeTrace m.lcd.backlight_state 0x0E true)) := by
  have h0 : m.withHandle.lcd.i2c = some m.bus.fd := rfl
  have h1 : ∀ bs, (m.withHandle.emit bs).lcd.i2c = some m.bus.fd := fun _ => rfl
  have hb : ∀ bs, (m.withHandle.emit bs).lcd.backlight_state = m.lcd.backlight_state :=
    fun _ => rfl
  have hb0 : m.withHandle.lcd.backlight_state = m.lcd.backlight_state := rfl
  have e30 : pinInterpret _OFFSET_D5 (pinInterpret _OFFSET_D4 0 true) true = 0x30 := by decide
  have e20 : pinInterpret _OFFSET_D4 0x30 false = 0x20 := by decide
  have c1 : _CMD_Function_Set ||| _OPT_2_Lines = 0x28 := by decide
  have c2 : _CMD_Display_Control ||| _OPT_Enable_Display ||| _OPT_Enable_Cursor = 0x0E := by
    decide
  have c3 : _CMD_Clear_Display = 0x01 := rfl
  have c4 : _CMD_Entry_Mode ||| _OPT_Increment ||| _OPT_Display_Shift = 0x0E := by decide
  unfold EnableHW
  simp only [hopen, hioctl, Bool.false_eq_true, if_false, e30, e20, c1, c2, c3, c4]
  change (enable m.withHandle 0x30).bind _ = _
  rw [enable_open m.withHandle m.bus.fd h0]
  simp only [Res.bind, hb0]
  rw [enable_open _ m.bus.fd (h1 _)]
  simp only [Res.bind, hb, emit_emit]
  rw [enable_open _ m.bus.fd (h1 _)]
  simp only [Res.bind, hb, emit_emit]
  rw [enable_open _ m.bus.fd (h1 _)]
  simp only [Res.bind, hb, emit_emit]
  rw [command_open _ m.bus.fd (h1 _)]
  simp only [Res.bind, hb, emit_emit]
  rw [command_open _ m.bus.fd (h1 _)]
  simp only [Res.bind, hb, emit_emit]
  rw [command_open _ m.bus.fd (h1 _)]
  simp only [Res.bind, hb, emit_emit]
  rw [command_open _ m.bus.fd (h1 _)]
  simp only [Res.bind, hb, emit_emit, List.append_assoc]

/-- C13: on a freshly constructed driver (backlight flag false) whose device open and address
binding succeed, `EnableHW` returns after writing exactly 36 bytes to the bus, the first
twelve being three pulses `[0x30, 0x34, 0x30]` (8-bit signal, D4 and D5 high) and one
mode-switch pulse `[0x20, 0x24, 0x20]` (only D5 high). -/
theorem EnableHW_first_twelve (rows cols : Int) (bus : Bus) (hopen : bus.openFails = false)
    (hioctl : bus.ioctlFails = false) :
    ∃ (rest : List Nat) (m1 : Machine),
      EnableHW { lcd := NewLcd rows cols, bus := bus } = .ret none m1 ∧
      m1.bus.writes = bus.writes
        ++ ([0x30, 0x34, 0x30, 0x30, 0x34, 0x30, 0x30, 0x34, 0x30, 0x20, 0x24, 0x20] ++ rest) ∧
      rest.length = 24 ∧
      m1.bus.writes.length = bus.writes.length + 36 := by
  have e30 : pinInterpret _OFFSET_BACKLIGHT 0x30 false = 0x30 := by decide
  have e20 : pinInterpret _OFFSET_BACKLIGHT 0x20 false = 0x20 := by decide
  have hb : ({ lcd := NewLcd rows cols, bus := bus } : Machine).lcd.backlight_state = false := rfl
  have e := EnableHW_ok { lcd := NewLcd rows cols, bus := bus } hopen hioctl
  rw [hb, e30, e20] at e
  refine ⟨writeTrace false 0x28 true ++ writeTrace false 0x0E true ++ writeTrace false 0x01 true
      ++ writeTrace false 0x0E true, _, e, ?_, rfl, ?_⟩
  · simp [emit_writes, Machine.withHandle, pulse]
  · simp [emit_writes, Machine.withHandle, pulse, writeTrace]

/-- C13, concrete instance: the fresh 2x16 driver of the example program. -/
theorem EnableHW_first_twelve_witness :
    fresh2x16.bus.openFails = false ∧ fresh2x16.bus.ioctlFails = false ∧
    ∃ (rest : List Nat) (m1 : Machine),
      EnableHW { lcd := NewLcd 2 16, bus := fresh2x16.bus } = .ret none m1 ∧
      m1.bus.writes = fresh2x16.bus.writes
        ++ ([0x30, 0x34, 0x30, 0x30, 0x34, 0x30, 0x30, 0x34, 0x30, 0x20, 0x24, 0x20] ++ rest) ∧
      rest.length = 24 ∧
      m1.bus.writes.length = fresh2x16.bus.writes.length + 36 :=
  ⟨rfl, rfl, EnableHW_first_twelve 2 16 fresh2x16.bus rfl rfl⟩

/-- C12, the code evaluated on the fresh 2x16 driver: after the twelve pulse bytes `EnableHW`
sends the commands 0x28, 0x0E, 0x01 and then 0x0E again.  The fourth value is
`_CMD_Entry_Mode | _OPT_Increment | _OPT_Display_Shift`; its highest set bit is 0x08, the
display-control bit, so it is not of the entry-mode form `0b000001xx` and equals the second
command. -/
theorem EnableHW_fourth_command_value :
    (∃ m1, EnableHW fresh2x16 = .ret none m1 ∧
      m1.bus.writes.drop 12 =
        writeTrace false 0x28 true ++ writeTrace false 0x0E true
          ++ writeTrace false 0x01 true ++ writeTrace false 0x0E true) ∧
    _CMD_Entry_Mode ||| _OPT_Increment ||| _OPT_Display_Shift = 0x0E ∧
    _CMD_Display_Control ||| _OPT_Enable_Display ||| _OPT_Enable_Cursor = 0x0E ∧
    (0x0E &&& 0xF8) = _CMD_Display_Control ∧
    ¬ (0x0E &&& 0xFC) = _CMD_Entry_Mode := by
  refine ⟨⟨_, EnableHW_ok fresh2x16 rfl rfl, by decide⟩, by decide, by decide, by decide,
    by decide⟩

/-- C14, the code evaluated where the device cannot be opened and where the address cannot
be bound: in both cases `EnableHW` returns nil, with no handle stored and nothing written. -/
theorem EnableHW_hides_transport_failure :
    noDevice2x16.bus.openFails = true ∧
    EnableHW noDevice2x16 = .ret none noDevice2x16 ∧ noDevice2x16.lcd.i2c = none ∧
    noBind2x16.bus.ioctlFails = true ∧
    EnableHW noBind2x16 = .ret none noBind2x16 ∧ noBind2x16.lcd.i2c = none := by
  decide

/-! ## Bits of the expected bus bytes -/

theorem nibbleByte_bits (n : Nat) (c bl : Bool) :
    (nibbleByte n c bl).testBit 0 = !c ∧ (nibbleByte n c bl).testBit 3 = bl ∧
    (nibbleByte n c bl ||| 0x04).testBit 0 = !c ∧ (nibbleByte n c bl ||| 0x04).testBit 3 = bl := by
  have key : ∀ k, k < 16 → ∀ c bl : Bool,
      (((k <<< 4) ||| (if c then 0 else 1) ||| (if bl then 0x08 else 0)).testBit 0 = !c) ∧
      (((k <<< 4) ||| (if c then 0 else 1) ||| (if bl then 0x08 else 0)).testBit 3 = bl) ∧
      ((((k <<< 4) ||| (if c then 0 else 1) ||| (if bl then 0x08 else 0)) ||| 0x04).testBit 0
        = !c) ∧
      ((((k <<< 4) ||| (if c then 0 else 1) ||| (if bl then 0x08 else 0)) ||| 0x04).testBit 3
        = bl) := by
    decide
  exact key (n % 16) (Nat.mod_lt _ (by decide)) c bl

/-- Every byte of the six-write encoding carries register select on bit 0 (set exactly for
data) and the backlight flag on bit 3. -/
theorem writeTrace_bits (bl : Bool) (v : Nat) (c : Bool) :
    ∀ b ∈ writeTrace bl v c, b.testBit 0 = !c ∧ b.testBit 3 = bl := by
  intro b hb
  obtain ⟨h1, h2, h3, h4⟩ := nibbleByte_bits (v >>> 4) c bl
  obtain ⟨k1, k2, k3, k4⟩ := nibbleByte_bits v c bl
  simp only [writeTrace, pulse, List.cons_append, List.nil_append, List.mem_cons,
    List.mem_singleton, List.not_mem_nil, or_false] at hb
  rcases hb with rfl | rfl | rfl | rfl | rfl | rfl
  · exact ⟨h1, h2⟩
  · exact ⟨h3, h4⟩
  · exact ⟨h1, h2⟩
  · exact ⟨k1, k2⟩
  · exact ⟨k3, k4⟩
  · exact ⟨k1, k2⟩

theorem flatMap_writeTrace_length (bl : Bool) (buf : List Nat) :
    (buf.flatMap fun c => writeTrace bl c false).length = 6 * buf.length := by
  induction buf with
  | nil => rfl
  | cons c cs ih =>
    simp only [List.flatMap_cons, List.length_append, writeTrace_length, ih, List.length_cons]
    omega

theorem flatMap_writeTrace_bits (bl : Bool) (buf : List Nat) :
    ∀ b ∈ (buf.flatMap fun c => writeTrace bl c false), b.testBit 0 = true ∧ b.testBit 3 = bl := by
  intro b hb
  obtain ⟨c, _, hc⟩ := List.mem_flatMap.mp hb
  exact writeTrace_bits bl c false b hc

/-! ## C16: the bus trace of `Printf` -/

/-- The address check accepts column 0 of each of the four tabulated lines that the display
has, and resolves it to the line base. -/
theorem getLCDaddress_line_start (lcd : Lcd) (line : Nat) (hline : 1 ≤ line ∧ line ≤ 4)
    (hrows : (line : Int) ≤ lcd.rows ∧ lcd.rows ≤ 255) :
    getLCDaddress lcd line 0 = (lineBase line, none) := by
  unfold getLCDaddress
  rw [byteOfInt_of_byte _ (by omega) hrows.2]
  have h1 : ¬ line > lcd.rows.toNat := by omega
  simp only [h1, if_false]
  obtain ⟨hl1, hl4⟩ := hline
  interval_cases line <;> simp [lineBase]

/-- On an open bus with a non-negative column count, `Printf` on an accepted line returns
`(cols, nil)` after the set-address command and the padded, cut text. -/
theorem Printf_open (m : Machine) (fd : Nat) (hon : m.lcd.on_ = true)
    (hopen : m.lcd.i2c = some fd) (hcols : 0 ≤ m.lcd.cols) (line addr : Nat)
    (haddr : getLCDaddress m.lcd line 0 = (addr, none)) (formatted : List Nat) :
    ((sfmt formatted).take (min (sfmt formatted).length m.lcd.cols.toNat)
      ++ List.replicate (m.lcd.cols.toNat - min (sfmt formatted).length m.lcd.cols.toNat)
          0x20).length = m.lcd.cols.toNat ∧
    Printf m line formatted =
      .ret (m.lcd.cols, none)
        (m.emit (writeTrace m.lcd.backlight_state ((_CMD_DDRAM_Set + addr) % 256) true
          ++ ((sfmt formatted).take (min (sfmt formatted).length m.lcd.cols.toNat)
              ++ List.replicate
                  (m.lcd.cols.toNat - min (sfmt formatted).length m.lcd.cols.toNat) 0x20).flatMap
                fun c => writeTrace m.lcd.backlight_state c false)) := by
  have hlen : ((sfmt formatted).take (min (sfmt formatted).length m.lcd.cols.toNat)
      ++ List.replicate (m.lcd.cols.toNat - min (sfmt formatted).length m.lcd.cols.toNat)
          0x20).length = m.lcd.cols.toNat := by
    simp only [List.length_append, List.length_take, List.length_replicate]
    omega
  refine ⟨hlen, ?_⟩
  simp only [Printf, hon, Bool.not_true, Bool.false_eq_true, if_false]
  rw [print_open m fd hopen hcols line addr haddr, pad_eq, take_pad, writeBuf_open
    (m.emit (writeTrace m.lcd.backlight_state ((_CMD_DDRAM_Set + addr) % 256) true)) fd hopen,
    emit_emit, emit_lcd, hlen]
  congr 2
  omega

/-- C16: for every powered-on machine with an open handle and `cols >= 0`, every line with
`1 <= line <= 4` and `line <= rows <= 255`, and every formatted text, `Printf` returns
`(cols, nil)` and the bytes it adds to the bus are exactly the six-write encoding of the
command `0x80 + base[line]` (register select low on all six) followed, in text order, by the
six-write encoding of each payload byte as data (register select high): `6 * (cols + 1)` bus
writes, the payload being the `cols` bytes of the padded, cut text. -/
theorem Printf_bus_trace (m : Machine) (fd : Nat) (hon : m.lcd.on_ = true)
    (hopen : m.lcd.i2c = some fd) (hcols : 0 ≤ m.lcd.cols) (line : Nat)
    (hline : 1 ≤ line ∧ line ≤ 4) (hrows : (line : Int) ≤ m.lcd.rows ∧ m.lcd.rows ≤ 255)
    (formatted : List Nat) :
    ∃ payload trace : List Nat,
      payload = (sfmt formatted).take (min (sfmt formatted).length m.lcd.cols.toNat)
        ++ List.replicate (m.lcd.cols.toNat - min (sfmt formatted).length m.lcd.cols.toNat) 0x20 ∧
      (payload.length : Int) = m.lcd.cols ∧
      trace = writeTrace m.lcd.backlight_state (0x80 + lineBase line) true
        ++ payload.flatMap (fun c => writeTrace m.lcd.backlight_state c false) ∧
      Printf m line formatted = .ret (m.lcd.cols, none) (m.emit trace) ∧
      (m.emit trace).bus.writes = m.bus.writes ++ trace ∧
      (trace.length : Int) = 6 * (m.lcd.cols + 1) ∧
      (∀ b ∈ writeTrace m.lcd.backlight_state (0x80 + lineBase line) true, b.testBit 0 = false) ∧
      (∀ b ∈ payload.flatMap (fun c => writeTrace m.lcd.backlight_state c false),
        b.testBit 0 = true) := by
  obtain ⟨hlen, hP⟩ := Printf_open m fd hon hopen hcols line (lineBase line)
    (getLCDaddress_line_start m.lcd line hline hrows) formatted
  have hcmd : (_CMD_DDRAM_Set + lineBase line) % 256 = 0x80 + lineBase line := by
    obtain ⟨hl1, hl4⟩ := hline
    interval_cases line <;> decide
  rw [hcmd] at hP
  refine ⟨_, _, rfl, by omega, rfl, hP, rfl, ?_, ?_, ?_⟩
  · simp only [List.length_append, writeTrace_length, flatMap_writeTrace_length, hlen]
    omega
  · intro b hb
    simpa using (writeTrace_bits _ _ true b hb).1
  · intro b hb
    exact (flatMap_writeTrace_bits _ _ b hb).1

set_option maxRecDepth 100000 in
/-- C16, concrete instance: `Printf(1, "Hello")` on the 2x16 demo display writes 102 bytes,
starting with the encodings of the command 0x80 and of the data byte 0x48. -/
theorem Printf_bus_trace_witness :
    demo2x16.lcd.on_ = true ∧ demo2x16.lcd.i2c = some 3 ∧ 0 ≤ demo2x16.lcd.cols ∧
    (1 ≤ 1 ∧ 1 ≤ 4) ∧ (((1 : Nat) : Int) ≤ demo2x16.lcd.rows ∧ demo2x16.lcd.rows ≤ 255) ∧
    (∃ payload trace : List Nat,
      payload = (sfmt hello).take (min (sfmt hello).length demo2x16.lcd.cols.toNat)
        ++ List.replicate (demo2x16.lcd.cols.toNat - min (sfmt hello).length
            demo2x16.lcd.cols.toNat) 0x20 ∧
      (payload.length : Int) = demo2x16.lcd.cols ∧
      trace = writeTrace demo2x16.lcd.backlight_state (0x80 + lineBase 1) true
        ++ payload.flatMap (fun c => writeTrace demo2x16.lcd.backlight_state c false) ∧
      Printf demo2x16 1 hello = .ret (demo2x16.lcd.cols, none) (demo2x16.emit trace) ∧
      (demo2x16.emit trace).bus.writes = demo2x16.bus.writes ++ trace ∧
      (trace.length : Int) = 6 * (demo2x16.lcd.cols + 1) ∧
      (∀ b ∈ writeTrace demo2x16.lcd.backlight_state (0x80 + lineBase 1) true,
        b.testBit 0 = false) ∧
      (∀ b ∈ payload.flatMap (fun c => writeTrace demo2x16.lcd.backlight_state c false),
        b.testBit 0 = true)) ∧
    (∃ m1, Printf demo2x16 1 hello = .ret (16, none) m1 ∧ m1.bus.writes.length = 102 ∧
      m1.bus.writes.take 12
        = [0x88, 0x8C, 0x88, 0x08, 0x0C, 0x08, 0x49, 0x4D, 0x49, 0x89, 0x8D, 0x89]) :=
  ⟨rfl, rfl, by decide, by decide, by decide,
    Printf_bus_trace demo2x16 3 rfl rfl (by decide) 1 (by decide) (by decide) hello,
    ⟨_, rfl, by decide, by decide⟩⟩

/-! ## C17: the command of `SetPosition` -/

set_option maxRecDepth 100000 in
theorem ddram_or_facts :
    ∀ a, a < 128 →
      (0x80 ||| a) = 0x80 + a ∧ (0x80 ||| a).testBit 7 = true ∧ (0x80 ||| a) &&& 0x7F = a ∧
      (_CMD_DDRAM_Set + a) % 256 = 0x80 ||| a := by
  decide

/-- C17 as stated fails on a driver that is powered on but was never enabled: on the 2x16
driver after `On` alone, the position `(1, 1)` meets every bound of the claim and the address
check accepts it with address 1, yet `SetPosition(1, 1)` does not return nil after one command:
it panics in `writeI2C`, with nothing written to the bus. -/
theorem SetPosition_needs_enable :
    poweredOnly2x16.lcd.on_ = true ∧ poweredOnly2x16.lcd.i2c = none ∧
    poweredOnly2x16.lcd.rows ≤ 4 ∧
    (0 ≤ poweredOnly2x16.lcd.cols ∧ poweredOnly2x16.lcd.cols ≤ 43) ∧
    (1 ≤ 1 ∧ ((1 : Nat) : Int) ≤ poweredOnly2x16.lcd.rows) ∧
    ((1 : Nat) : Int) ≤ poweredOnly2x16.lcd.cols ∧
    getLCDaddress poweredOnly2x16.lcd 1 1 = (lineBase 1 + 1, none) ∧
    SetPosition poweredOnly2x16 1 1 = .panic .writeBeforeEnable poweredOnly2x16 ∧
    poweredOnly2x16.bus.writes = [] ∧
    SetPosition poweredOnly2x16 1 1 ≠
      .ret none (poweredOnly2x16.emit
        (writeTrace poweredOnly2x16.lcd.backlight_state (0x80 ||| (lineBase 1 + 1)) true)) := by
  decide

/-- C17, amended: for every powered-on machine on which `EnableHW` has stored the handle, with
`rows <= 4` and `0 <= cols <= 43`, and every position with `1 <= line <= rows` and
`column <= cols`: `base[line] + column <= 0x7F`, the address check returns that sum (the
column added as passed), and `SetPosition` returns nil after exactly one command (six bus
writes, register select low) of value `0x80 OR (base[line] + column)`, which has bit 7 set and
the address in its low seven bits. -/
theorem SetPosition_command (m : Machine) (fd : Nat) (hon : m.lcd.on_ = true)
    (hopen : m.lcd.i2c = some fd) (hrows : m.lcd.rows ≤ 4)
    (hcols : 0 ≤ m.lcd.cols ∧ m.lcd.cols ≤ 43) (line col : Nat)
    (hline : 1 ≤ line ∧ (line : Int) ≤ m.lcd.rows) (hcol : (col : Int) ≤ m.lcd.cols) :
    lineBase line + col ≤ 0x7F ∧
    getLCDaddress m.lcd line col = (lineBase line + col, none) ∧
    SetPosition m line col =
      .ret none (m.emit (writeTrace m.lcd.backlight_state (0x80 ||| (lineBase line + col)) true)) ∧
    (writeTrace m.lcd.backlight_state (0x80 ||| (lineBase line + col)) true).length = 6 ∧
    (∀ b ∈ writeTrace m.lcd.backlight_state (0x80 ||| (lineBase line + col)) true,
      b.testBit 0 = false) ∧
    (0x80 ||| (lineBase line + col)) = 0x80 + (lineBase line + col) ∧
    (0x80 ||| (lineBase line + col)).testBit 7 = true ∧
    (0x80 ||| (lineBase line + col)) &&& 0x7F = lineBase line + col := by
  obtain ⟨hl1, hlr⟩ := hline
  have hl4 : line ≤ 4 := by omega
  have hc : col ≤ 43 := by omega
  have hb : lineBase line + col ≤ 0x7F := by
    interval_cases line <;> simp only [lineBase] <;> omega
  have hA : getLCDaddress m.lcd line col = (lineBase line + col, none) := by
    unfold getLCDaddress
    rw [byteOfInt_of_byte _ (by omega) (by omega), byteOfInt_of_byte _ hcols.1 (by omega)]
    have h1 : ¬ line > m.lcd.rows.toNat := by omega
    have h2 : ¬ col > m.lcd.cols.toNat := by omega
    simp only [h1, h2, if_false]
    have h3 : col < 256 := by omega
    interval_cases line <;> simp [lineBase] <;> omega
  obtain ⟨e1, e2, e3, e4⟩ := ddram_or_facts (lineBase line + col) (by omega)
  refine ⟨hb, hA, ?_, rfl, ?_, e1, e2, e3⟩
  · simp only [SetPosition, hon, Bool.not_true, Bool.false_eq_true, if_false, hA,
      command_open m fd hopen, Res.bind, e4]
  · intro b hb
    simpa using (writeTrace_bits _ _ true b hb).1

/-- C17, concrete instance from the example program: `SetPosition(1, 1)` on the 2x16 display
sends the command 0x81. -/
theorem SetPosition_command_witness :
    demo2x16.lcd.on_ = true ∧ demo2x16.lcd.i2c = some 3 ∧ demo2x16.lcd.rows ≤ 4 ∧
    (0 ≤ demo2x16.lcd.cols ∧ demo2x16.lcd.cols ≤ 43) ∧
    (1 ≤ 1 ∧ ((1 : Nat) : Int) ≤ demo2x16.lcd.rows) ∧ ((1 : Nat) : Int) ≤ demo2x16.lcd.cols ∧
    (lineBase 1 + 1 ≤ 0x7F ∧
      getLCDaddress demo2x16.lcd 1 1 = (lineBase 1 + 1, none) ∧
      SetPosition demo2x16 1 1 =
        .ret none (demo2x16.emit
          (writeTrace demo2x16.lcd.backlight_state (0x80 ||| (lineBase 1 + 1)) true)) ∧
      (writeTrace demo2x16.lcd.backlight_state (0x80 ||| (lineBase 1 + 1)) true).length = 6 ∧
      (∀ b ∈ writeTrace demo2x16.lcd.backlight_state (0x80 ||| (lineBase 1 + 1)) true,
        b.testBit 0 = false) ∧
      (0x80 ||| (lineBase 1 + 1)) = 0x80 + (lineBase 1 + 1) ∧
      (0x80 ||| (lineBase 1 + 1)).testBit 7 = true ∧
      (0x80 ||| (lineBase 1 + 1)) &&& 0x7F = lineBase 1 + 1) ∧
    0x80 ||| (lineBase 1 + 1) = 0x81 ∧
    SetPosition demo2x16 1 1
      = .ret none (demo2x16.emit [0x88, 0x8C, 0x88, 0x18, 0x1C, 0x18]) :=
  ⟨rfl, rfl, by decide, by decide, by decide, by decide,
    SetPosition_command demo2x16 3 rfl rfl (by decide) (by decide) 1 1 (by decide) (by decide),
    by decide, by decide⟩

/-! ## C18: operations before `EnableHW` -/

theorem writeI2C_unset (m : Machine) (h : m.lcd.i2c = none) (b : Nat) :
    writeI2C m b = .panic .writeBeforeEnable m := by
  unfold writeI2C
  rw [h]

theorem enable_unset (m : Machine) (h : m.lcd.i2c = none) (data : Nat) :
    enable m data = .panic .writeBeforeEnable m := by
  simp only [enable, writeI2C_unset m h, Res.bind]

theorem write_unset (m : Machine) (h : m.lcd.i2c = none) (v : Nat) (c : Bool) :
    write m v c = .panic .writeBeforeEnable m := by
  rw [write_eq_packNibble, enable_unset m h]
  rfl

theorem command_unset (m : Machine) (h : m.lcd.i2c = none) (v : Nat) :
    command m v = .panic .writeBeforeEnable m :=
  write_unset m h v true

theorem print_unset (m : Machine) (h : m.lcd.i2c = none) (line : Nat) (out : List Nat)
    (hacc : (getLCDaddress m.lcd line 0).2 = none) :
    ∃ p, print m line out = .panic p m ∧ (0 ≤ m.lcd.cols → p = .writeBeforeEnable) := by
  unfold print
  by_cases hc : 0 ≤ m.lcd.cols
  · rw [capstring_nonneg _ _ hc]
    refine ⟨.writeBeforeEnable, ?_, fun _ => rfl⟩
    rcases hg : getLCDaddress m.lcd line 0 with ⟨a, e⟩
    rw [hg] at hacc
    simp only at hacc
    subst hacc
    simp only [command_unset m h, Res.bind]
  · have h1 : ((out.length : Int) > m.lcd.cols) := by omega
    have h2 : m.lcd.cols < 0 := by omega
    refine ⟨.sliceBounds, ?_, fun h0 => absurd h0 hc⟩
    simp [capstring, h1, h2]

/-- C18: for every machine whose handle is unset and whose power-on flag is true,
`BacklightOn`, `BacklightOff`, `Clear`, `Home`, `SetPosition` with an accepted position and
`ClearLine`, `Printf`, `Centerf`, `RightJustifyf` with an accepted line all panic, and the
machine at the panic is the machine before the call: nothing was written to the bus and no
flag changed.  The panic is the one of `writeI2C`, except that with a negative column count
the four printing operations already panic in `capstring`. -/
theorem write_before_enable_panics (m : Machine) (hon : m.lcd.on_ = true)
    (hnil : m.lcd.i2c = none) (line col : Nat) (formatted : List Nat) :
    BacklightOn m = .panic .writeBeforeEnable m ∧
    BacklightOff m = .panic .writeBeforeEnable m ∧
    Clear m = .panic .writeBeforeEnable m ∧
    Home m = .panic .writeBeforeEnable m ∧
    ((getLCDaddress m.lcd line col).2 = none →
      SetPosition m line col = .panic .writeBeforeEnable m) ∧
    ((getLCDaddress m.lcd line 0).2 = none →
      (∃ p, ClearLine m line = .panic p m ∧ (0 ≤ m.lcd.cols → p = .writeBeforeEnable)) ∧
      (∃ p, Printf m line formatted = .panic p m ∧ (0 ≤ m.lcd.cols → p = .writeBeforeEnable)) ∧
      (∃ p, Centerf m line formatted = .panic p m ∧ (0 ≤ m.lcd.cols → p = .writeBeforeEnable)) ∧
      (∃ p, RightJustifyf m line formatted = .panic p m ∧
        (0 ≤ m.lcd.cols → p = .writeBeforeEnable))) := by
  refine ⟨?_, ?_, ?_, ?_, ?_, ?_⟩
  · simp only [BacklightOn, hon, Bool.not_true, Bool.false_eq_true, if_false,
      writeI2C_unset m hnil, Res.bind]
  · simp only [BacklightOff, hon, Bool.not_true, Bool.false_eq_true, if_false,
      writeI2C_unset m hnil, Res.bind]
  · simp only [Clear, hon, Bool.not_true, Bool.false_eq_true, if_false, command_unset m hnil]
  · simp only [Home, hon, Bool.not_true, Bool.false_eq_true, if_false, command_unset m hnil]
  · intro hacc
    rcases hg : getLCDaddress m.lcd line col with ⟨a, e⟩
    rw [hg] at hacc
    simp only at hacc
    subst hacc
    simp only [SetPosition, hon, Bool.not_true, Bool.false_eq_true, if_false, hg,
      command_unset m hnil, Res.bind]
  · intro hacc
    refine ⟨?_, ?_, ?_, ?_⟩
    · obtain ⟨p, hp, hq⟩ := print_unset m hnil line (pad [] m.lcd.cols) hacc
      exact ⟨p, by simp only [ClearLine, hon, Bool.not_true, Bool.false_eq_true, if_false, hp,
        Res.bind], hq⟩
    · obtain ⟨p, hp, hq⟩ := print_unset m hnil line (pad (sfmt formatted) m.lcd.cols) hacc
      exact ⟨p, by simp only [Printf, hon, Bool.not_true, Bool.false_eq_true, if_false, hp], hq⟩
    · obtain ⟨p, hp, hq⟩ := print_unset m hnil line
        (pad (shift (sfmt formatted) (Int.tdiv (m.lcd.cols - (sfmt formatted).length) 2))
          m.lcd.cols) hacc
      exact ⟨p, by simp only [Centerf, hon, Bool.not_true, Bool.false_eq_true, if_false, hp], hq⟩
    · obtain ⟨p, hp, hq⟩ := print_unset m hnil line
        (shift (sfmt formatted) (m.lcd.cols - (sfmt formatted).length)) hacc
      exact ⟨p, by simp only [RightJustifyf, hon, Bool.not_true, Bool.false_eq_true, if_false,
        hp], hq⟩

/-- C18, concrete instance from `src/hello/hello.go`: `On` and then `BacklightOn` on a driver
that was never enabled. -/
theorem write_before_enable_panics_witness :
    On fresh2x16 = .ret () poweredOnly2x16 ∧
    poweredOnly2x16.lcd.on_ = true ∧ poweredOnly2x16.lcd.i2c = none ∧
    (getLCDaddress poweredOnly2x16.lcd 1 1).2 = none ∧
    (getLCDaddress poweredOnly2x16.lcd 1 0).2 = none ∧
    BacklightOn poweredOnly2x16 = .panic .writeBeforeEnable poweredOnly2x16 ∧
    SetPosition poweredOnly2x16 1 1 = .panic .writeBeforeEnable poweredOnly2x16 ∧
    (∃ p, Printf poweredOnly2x16 1 hello = .panic p poweredOnly2x16 ∧
      (0 ≤ poweredOnly2x16.lcd.cols → p = .writeBeforeEnable)) ∧
    poweredOnly2x16.bus.writes = [] ∧ poweredOnly2x16.lcd.backlight_state = false :=
  ⟨rfl, rfl, rfl, by decide, by decide,
    (write_before_enable_panics poweredOnly2x16 rfl rfl 1 1 hello).1,
    (write_before_enable_panics poweredOnly2x16 rfl rfl 1 1 hello).2.2.2.2.1 (by decide),
    ((write_before_enable_panics poweredOnly2x16 rfl rfl 1 1 hello).2.2.2.2.2 (by decide)).2.1,
    rfl, rfl⟩

/-! ## C19: lines outside the base table -/

theorem getLCDaddress_zero_line (lcd : Lcd) (hrows : 0 ≤ lcd.rows ∧ lcd.rows ≤ 255) :
    getLCDaddress lcd 0 0 = (0, none) := by
  unfold getLCDaddress
  rw [byteOfInt_of_byte _ hrows.1 hrows.2]
  simp

set_option maxRecDepth 100000 in
/-- C19 as stated fails at `rows = 0`: on the powered-on demo display declared with zero
rows, line 0 resolves to address 0 and `Printf(0, "Hello")` writes 102 bytes starting with the
command 0x80, while `Printf(1, "Hello")` is rejected with the line error and writes nothing. -/
theorem Printf_line_zero_differs :
    (0 ≤ demo0x16.lcd.rows ∧ demo0x16.lcd.rows ≤ 255) ∧
    (0 ≤ demo0x16.lcd.cols ∧ demo0x16.lcd.cols ≤ 255) ∧ demo0x16.lcd.on_ = true ∧
    getLCDaddress demo0x16.lcd 0 0 = (0, none) ∧
    (∃ m1, Printf demo0x16 0 hello = .ret (16, none) m1 ∧ m1.bus.writes.length = 102 ∧
      m1.bus.writes.take 6 = [0x88, 0x8C, 0x88, 0x08, 0x0C, 0x08]) ∧
    Printf demo0x16 1 hello = .ret (0, some (.invalidLine 1 0)) demo0x16 ∧
    demo0x16.bus.writes = [] ∧
    Printf demo0x16 0 hello ≠ Printf demo0x16 1 hello := by
  refine ⟨by decide, by decide, rfl, by decide, ⟨_, rfl, by decide, by decide⟩, by decide, rfl,
    by decide⟩

/-- C19, amended: for every geometry with `0 <= rows, cols <= 255` and every column
`<= cols`, `getLCDaddress` with `line = 0` or `5 <= line <= rows` returns no error and
address 0; and when `rows >= 1`, `Printf(0, text)` is the same run as `Printf(1, text)`, which
on a powered-on machine with an open handle is the command 0x80 followed by the payload. -/
theorem out_of_table_line_address (m : Machine) (hrows : 0 ≤ m.lcd.rows ∧ m.lcd.rows ≤ 255)
    (hcols : 0 ≤ m.lcd.cols ∧ m.lcd.cols ≤ 255) (line col : Nat)
    (hline : line = 0 ∨ (5 ≤ line ∧ (line : Int) ≤ m.lcd.rows)) (hcol : (col : Int) ≤ m.lcd.cols)
    (formatted : List Nat) :
    getLCDaddress m.lcd line col = (0, none) ∧
    (1 ≤ m.lcd.rows →
      Printf m 0 formatted = Printf m 1 formatted ∧
      (m.lcd.on_ = true → ∀ fd, m.lcd.i2c = some fd →
        ∃ payload : List Nat,
          (payload.length : Int) = m.lcd.cols ∧
          Printf m 0 formatted =
            .ret (m.lcd.cols, none)
              (m.emit (writeTrace m.lcd.backlight_state 0x80 true
                ++ payload.flatMap fun c => writeTrace m.lcd.backlight_state c false)))) := by
  constructor
  · unfold getLCDaddress
    rw [byteOfInt_of_byte _ hrows.1 hrows.2, byteOfInt_of_byte _ hcols.1 hcols.2]
    have h1 : ¬ line > m.lcd.rows.toNat := by omega
    have h2 : ¬ col > m.lcd.cols.toNat := by omega
    simp only [h1, h2, if_false]
    rcases hline with rfl | ⟨h5, _⟩
    · rfl
    · match line, h5 with
      | n + 5, _ => rfl
  · intro h1r
    have a0 := getLCDaddress_zero_line m.lcd hrows
    have a1 : getLCDaddress m.lcd 1 0 = (0, none) :=
      getLCDaddress_line_start m.lcd 1 (by decide) ⟨by omega, hrows.2⟩
    constructor
    · simp only [Printf, print, a0, a1]
    · intro hon fd hopen
      obtain ⟨hlen, hP⟩ := Printf_open m fd hon hopen hcols.1 0 0 a0 formatted
      exact ⟨_, by omega, hP⟩

/-- C19, concrete instance: line 0 on the 2x16 demo display. -/
theorem out_of_table_line_address_witness :
    (0 ≤ demo2x16.lcd.rows ∧ demo2x16.lcd.rows ≤ 255) ∧
    (0 ≤ demo2x16.lcd.cols ∧ demo2x16.lcd.cols ≤ 255) ∧
    ((0 : Nat) = 0 ∨ (5 ≤ 0 ∧ ((0 : Nat) : Int) ≤ demo2x16.lcd.rows)) ∧
    ((7 : Nat) : Int) ≤ demo2x16.lcd.cols ∧ 1 ≤ demo2x16.lcd.rows ∧
    getLCDaddress demo2x16.lcd 0 7 = (0, none) ∧
    Printf demo2x16 0 hello = Printf demo2x16 1 hello :=
  ⟨by decide, by decide, by decide, by decide, by decide,
    (out_of_table_line_address demo2x16 (by decide) (by decide) 0 7 (Or.inl rfl) (by decide)
      hello).1,
    ((out_of_table_line_address demo2x16 (by decide) (by decide) 0 7 (Or.inl rfl) (by decide)
      hello).2 (by decide)).1⟩

/-! ## C20: over-long text -/

theorem tdiv_two_toNat_of_neg (a : Int) (h : a < 0) : (Int.tdiv a 2).toNat = 0 := by
  cases a with
  | ofNat n =>
    have : (0 : Int) ≤ Int.ofNat n := Int.ofNat_nonneg n
    omega
  | negSucc n =>
    have e : Int.tdiv (Int.negSucc n) 2 = -(((n + 1) / 2 : Nat) : Int) := rfl
    rw [e]
    omega

/-- C20: for every powered-on machine with an open handle and `cols >= 0`, every accepted
line and every formatted text `s` with `len(s) > cols`, the three operations `Printf`,
`Centerf` and `RightJustifyf` are the same run: they return `(cols, nil)` after the
set-address command and the first `cols` bytes of `s`, with no padding. -/
theorem overlong_text_cut (m : Machine) (fd : Nat) (hon : m.lcd.on_ = true)
    (hopen : m.lcd.i2c = some fd) (hcols : 0 ≤ m.lcd.cols) (line addr : Nat)
    (haddr : getLCDaddress m.lcd line 0 = (addr, none)) (formatted : List Nat)
    (hlong : ((sfmt formatted).length : Int) > m.lcd.cols) :
    ∃ (payload : List Nat) (r : Res (Int × Option GoError)),
      payload = (sfmt formatted).take m.lcd.cols.toNat ∧
      (payload.length : Int) = m.lcd.cols ∧
      r = .ret (m.lcd.cols, none)
            (m.emit (writeTrace m.lcd.backlight_state ((_CMD_DDRAM_Set + addr) % 256) true
              ++ payload.flatMap fun c => writeTrace m.lcd.backlight_state c false)) ∧
      Printf m line formatted = r ∧ Centerf m line formatted = r ∧
      RightJustifyf m line formatted = r := by
  have hP : Printf m line formatted = print m line (sfmt formatted) := by
    simp only [Printf, hon, Bool.not_true, Bool.false_eq_true, if_false]
    have e : m.lcd.cols.toNat - (sfmt formatted).length = 0 := by omega
    rw [pad_eq, e, List.replicate_zero, List.append_nil]
  have hC : Centerf m line formatted = print m line (sfmt formatted) := by
    simp only [Centerf, hon, Bool.not_true, Bool.false_eq_true, if_false]
    have e : m.lcd.cols.toNat - (sfmt formatted).length = 0 := by omega
    rw [shift_eq, tdiv_two_toNat_of_neg _ (by omega), List.replicate_zero, List.nil_append,
      pad_eq, e, List.replicate_zero, List.append_nil]
  have hR : RightJustifyf m line formatted = print m line (sfmt formatted) := by
    simp only [RightJustifyf, hon, Bool.not_true, Bool.false_eq_true, if_false]
    have e : (m.lcd.cols - ((sfmt formatted).length : Int)).toNat = 0 := by omega
    rw [shift_eq, e, List.replicate_zero, List.nil_append]
  have hlen : (((sfmt formatted).take m.lcd.cols.toNat).length : Int) = m.lcd.cols := by
    rw [List.length_take]
    omega
  have hp : print m line (sfmt formatted) =
      .ret (m.lcd.cols, none)
        (m.emit (writeTrace m.lcd.backlight_state ((_CMD_DDRAM_Set + addr) % 256) true
          ++ ((sfmt formatted).take m.lcd.cols.toNat).flatMap
              fun c => writeTrace m.lcd.backlight_state c false)) := by
    rw [print_open m fd hopen hcols line addr haddr, writeBuf_open
      (m.emit (writeTrace m.lcd.backlight_state ((_CMD_DDRAM_Set + addr) % 256) true)) fd hopen,
      emit_emit, emit_lcd, hlen]
  exact ⟨_, _, rfl, hlen, rfl, hP.trans hp, hC.trans hp, hR.trans hp⟩

/-- C20, concrete instance: "Hello" on a four-column display is sent as "Hell" by all three
operations. -/
theorem overlong_text_cut_witness :
    demo2x4.lcd.on_ = true ∧ demo2x4.lcd.i2c = some 3 ∧ 0 ≤ demo2x4.lcd.cols ∧
    getLCDaddress demo2x4.lcd 1 0 = (0, none) ∧ ((sfmt hello).length : Int) > demo2x4.lcd.cols ∧
    (∃ (payload : List Nat) (r : Res (Int × Option GoError)),
      payload = (sfmt hello).take demo2x4.lcd.cols.toNat ∧
      (payload.length : Int) = demo2x4.lcd.cols ∧
      r = .ret (demo2x4.lcd.cols, none)
            (demo2x4.emit
              (writeTrace demo2x4.lcd.backlight_state ((_CMD_DDRAM_Set + 0) % 256) true
                ++ payload.flatMap fun c => writeTrace demo2x4.lcd.backlight_state c false)) ∧
      Printf demo2x4 1 hello = r ∧ Centerf demo2x4 1 hello = r ∧
      RightJustifyf demo2x4 1 hello = r) ∧
    (sfmt hello).take demo2x4.lcd.cols.toNat = [0x48, 0x65, 0x6C, 0x6C] :=
  ⟨rfl, rfl, by decide, by decide, by decide,
    overlong_text_cut demo2x4 3 rfl rfl (by decide) 1 0 (by decide) hello (by decide),
    by decide⟩

/-! ## C11: the backlight bit of every bus byte -/

theorem void_machine {α : Type} (r : Res α) : r.void.machine = r.machine := by
  cases r <;> rfl

theorem bind_ret_machine {α : Type} (r : Res α) :
    (r.bind fun _ m => (.ret () m : Res Unit)).machine = r.machine := by
  cases r <;> rfl

theorem init_pulse_bits :
    ∀ bl : Bool, ∀ b ∈ pulse (pinInterpret _OFFSET_BACKLIGHT 0x30 bl)
        ++ pulse (pinInterpret _OFFSET_BACKLIGHT 0x20 bl), b.testBit 3 = bl := by
  decide

/-- A successful `EnableHW` stores the handle and hands to the bus only bytes that carry the
backlight flag; nothing else changes. -/
theorem EnableHW_carries (m : Machine) (hopen : m.bus.openFails = false)
    (hioctl : m.bus.ioctlFails = false) :
    ∃ bs, EnableHW m = .ret none (m.withHandle.emit bs) ∧
      ∀ b ∈ bs, b.testBit 3 = m.lcd.backlight_state := by
  refine ⟨_, EnableHW_ok m hopen hioctl, ?_⟩
  intro b hb
  have hip := init_pulse_bits m.lcd.backlight_state b
  simp only [List.mem_append] at hb hip
  rcases hb with ((((((hb | hb) | hb) | hb) | hb) | hb) | hb) | hb
  · exact hip (Or.inl hb)
  · exact hip (Or.inl hb)
  · exact hip (Or.inl hb)
  · exact hip (Or.inr hb)
  · exact (writeTrace_bits _ _ _ b hb).2
  · exact (writeTrace_bits _ _ _ b hb).2
  · exact (writeTrace_bits _ _ _ b hb).2
  · exact (writeTrace_bits _ _ _ b hb).2

/-- On an open bus every byte that `print` hands to the bus carries the backlight flag, and
`print` changes nothing but the bus trace. -/
theorem print_carries (m : Machine) (fd : Nat) (h : m.lcd.i2c = some fd) (line : Nat)
    (out : List Nat) :
    ∃ bs, (print m line out).machine = m.emit bs ∧
      ∀ b ∈ bs, b.testBit 3 = m.lcd.backlight_state := by
  unfold print
  cases capstring out m.lcd.cols with
  | error p => exact ⟨[], (emit_nil m).symm, by simp⟩
  | ok o =>
    rcases hg : getLCDaddress m.lcd line 0 with ⟨a, e⟩
    cases e with
    | some err => exact ⟨[], (emit_nil m).symm, by simp⟩
    | none =>
      refine ⟨writeTrace m.lcd.backlight_state ((_CMD_DDRAM_Set + a) % 256) true
        ++ o.flatMap fun c => writeTrace m.lcd.backlight_state c false, ?_, ?_⟩
      · simp only [command_open m fd h, Res.bind]
        rw [writeBuf_open
          (m.emit (writeTrace m.lcd.backlight_state ((_CMD_DDRAM_Set + a) % 256) true)) fd h,
          emit_emit, emit_lcd]
        rfl
      · intro b hb
        rcases List.mem_append.mp hb with hb | hb
        · exact (writeTrace_bits _ _ _ b hb).2
        · exact (flatMap_writeTrace_bits _ _ b hb).2

/-- One public operation on a machine whose handle is set: the bytes it adds to the bus all
carry the backlight flag as it stands afterwards, the handle stays set, and only
`BacklightOn` and `BacklightOff` change the flag. -/
theorem Op_run_carries (m : Machine) (fd : Nat) (h : m.lcd.i2c = some fd) (op : Op) :
    ∃ bs, (op.run m).machine.bus.writes = m.bus.writes ++ bs ∧
      (∀ b ∈ bs, b.testBit 3 = (op.run m).machine.lcd.backlight_state) ∧
      (∃ fd', (op.run m).machine.lcd.i2c = some fd') ∧
      (op = .backlightOn → m.lcd.on_ = true →
        bs = [0x08] ∧ (op.run m).machine.lcd.backlight_state = true) ∧
      (op = .backlightOff → m.lcd.on_ = true →
        bs = [0x00] ∧ (op.run m).machine.lcd.backlight_state = false) ∧
      (op ≠ .backlightOn → op ≠ .backlightOff →
        (op.run m).machine.lcd.backlight_state = m.lcd.backlight_state) := by
  have emitted : ∀ (op : Op) (bs : List Nat), op ≠ .backlightOn → op ≠ .backlightOff →
      (op.run m).machine = m.emit bs → (∀ b ∈ bs, b.testBit 3 = m.lcd.backlight_state) →
      ∃ bs, (op.run m).machine.bus.writes = m.bus.writes ++ bs ∧
        (∀ b ∈ bs, b.testBit 3 = (op.run m).machine.lcd.backlight_state) ∧
        (∃ fd', (op.run m).machine.lcd.i2c = some fd') ∧
        (op = .backlightOn → m.lcd.on_ = true →
          bs = [0x08] ∧ (op.run m).machine.lcd.backlight_state = true) ∧
        (op = .backlightOff → m.lcd.on_ = true →
          bs = [0x00] ∧ (op.run m).machine.lcd.backlight_state = false) ∧
        (op ≠ .backlightOn → op ≠ .backlightOff →
          (op.run m).machine.lcd.backlight_state = m.lcd.backlight_state) := by
    intro op bs h1 h2 he hb
    refine ⟨bs, ?_, ?_, ⟨fd, ?_⟩, fun e => absurd e h1, fun e => absurd e h2, fun _ _ => ?_⟩
    · rw [he]; rfl
    · rw [he]; exact hb
    · rw [he]; exact h
    · rw [he]; rfl
  have e8 : pinInterpret _OFFSET_BACKLIGHT 0x00 true = 0x08 := by decide
  have e0 : pinInterpret _OFFSET_BACKLIGHT 0x00 false = 0x00 := by decide
  match op with
  | .enableHW =>
    by_cases ho : m.bus.openFails = true
    · exact emitted .enableHW [] (by simp) (by simp)
        (by simp [Op.run, void_machine, EnableHW, ho, Res.machine, Res.void, emit_nil]) (by simp)
    · by_cases hi : m.bus.ioctlFails = true
      · exact emitted .enableHW [] (by simp) (by simp)
          (by simp [Op.run, void_machine, EnableHW, ho, hi, Res.machine, Res.void, emit_nil]) (by simp)
      · obtain ⟨bs, e, hbits⟩ := EnableHW_carries m (by simpa using ho) (by simpa using hi)
        have hm : (Op.enableHW.run m).machine = m.withHandle.emit bs := by
          show (EnableHW m).void.machine = _
          rw [void_machine, e]
          rfl
        refine ⟨bs, ?_, ?_, ⟨m.bus.fd, ?_⟩, fun e => by simp at e, fun e => by simp at e,
          fun _ _ => ?_⟩
        · rw [hm]; rfl
        · rw [hm]; exact hbits
        · rw [hm]; rfl
        · rw [hm]; rfl
  | .on =>
    refine ⟨[], ?_, by simp, ⟨fd, h⟩, fun e => by simp at e, fun e => by simp at e,
      fun _ _ => rfl⟩
    simp [Op.run, On, Res.machine]
  | .off =>
    refine ⟨[], ?_, by simp, ⟨fd, h⟩, fun e => by simp at e, fun e => by simp at e,
      fun _ _ => rfl⟩
    simp [Op.run, Off, Res.machine]
  | .backlightOn =>
    by_cases hon : m.lcd.on_ = true
    · have hm : (Op.backlightOn.run m).machine
          = { m.emit [0x08] with lcd := { m.lcd with backlight_state := true } } := by
        simp only [Op.run, BacklightOn, hon, Bool.not_true, Bool.false_eq_true, if_false,
          writeI2C_open m fd h, Res.bind, Res.machine, e8, emit_lcd]
      refine ⟨[0x08], ?_, ?_, ⟨fd, ?_⟩, fun _ _ => ⟨rfl, ?_⟩, fun e => by simp at e,
        fun e => absurd rfl e⟩
      · rw [hm]; rfl
      · intro b hb
        rw [hm, List.mem_singleton.mp hb]
        rfl
      · rw [hm]; exact h
      · rw [hm]
    · refine ⟨[], ?_, by simp, ⟨fd, ?_⟩, fun _ h1 => absurd h1 hon, fun e => by simp at e,
        fun e => absurd rfl e⟩
      · simp [Op.run, BacklightOn, hon, Res.machine]
      · simpa [Op.run, BacklightOn, hon, Res.machine] using h
  | .backlightOff =>
    by_cases hon : m.lcd.on_ = true
    · have hm : (Op.backlightOff.run m).machine
          = { m.emit [0x00] with lcd := { m.lcd with backlight_state := false } } := by
        simp only [Op.run, BacklightOff, hon, Bool.not_true, Bool.false_eq_true, if_false,
          writeI2C_open m fd h, Res.bind, Res.machine, e0, emit_lcd]
      refine ⟨[0x00], ?_, ?_, ⟨fd, ?_⟩, fun e => by simp at e, fun _ _ => ⟨rfl, ?_⟩,
        fun _ e => absurd rfl e⟩
      · rw [hm]; rfl
      · intro b hb
        rw [hm, List.mem_singleton.mp hb]
        rfl
      · rw [hm]; exact h
      · rw [hm]
    · refine ⟨[], ?_, by simp, ⟨fd, ?_⟩, fun e => by simp at e, fun _ h1 => absurd h1 hon,
        fun _ e => absurd rfl e⟩
      · simp [Op.run, BacklightOff, hon, Res.machine]
      · simpa [Op.run, BacklightOff, hon, Res.machine] using h
  | .clear =>
    by_cases hon : m.lcd.on_ = true
    · exact emitted .clear (writeTrace m.lcd.backlight_state _CMD_Clear_Display true)
        (by simp) (by simp)
        (by simp only [Op.run, Clear, hon, Bool.not_true, Bool.false_eq_true, if_false,
          command_open m fd h, Res.machine])
        (fun b hb => (writeTrace_bits _ _ _ b hb).2)
    · exact emitted .clear [] (by simp) (by simp)
        (by simp [Op.run, Clear, hon, Res.machine, Res.void, emit_nil]) (by simp)
  | .home =>
    by_cases hon : m.lcd.on_ = true
    · exact emitted .home (writeTrace m.lcd.backlight_state _CMD_Return_Home true)
        (by simp) (by simp)
        (by simp only [Op.run, Home, hon, Bool.not_true, Bool.false_eq_true, if_false,
          command_open m fd h, Res.machine])
        (fun b hb => (writeTrace_bits _ _ _ b hb).2)
    · exact emitted .home [] (by simp) (by simp)
        (by simp [Op.run, Home, hon, Res.machine, Res.void, emit_nil]) (by simp)
  | .setPosition line col =>
    by_cases hon : m.lcd.on_ = true
    · rcases hg : getLCDaddress m.lcd line col with ⟨a, e⟩
      cases e with
      | some err =>
        exact emitted (.setPosition line col) [] (by simp) (by simp)
          (by simp [Op.run, void_machine, SetPosition, hon, hg, Res.machine, Res.void, emit_nil]) (by simp)
      | none =>
        exact emitted (.setPosition line col)
          (writeTrace m.lcd.backlight_state ((_CMD_DDRAM_Set + a) % 256) true)
          (by simp) (by simp)
          (by simp only [Op.run, void_machine, SetPosition, hon, Bool.not_true,
            Bool.false_eq_true, if_false, hg, command_open m fd h, Res.bind, Res.machine, Res.void])
          (fun b hb => (writeTrace_bits _ _ _ b hb).2)
    · exact emitted (.setPosition line col) [] (by simp) (by simp)
        (by simp [Op.run, void_machine, SetPosition, hon, Res.machine, Res.void, emit_nil]) (by simp)
  | .clearLine line =>
    by_cases hon : m.lcd.on_ = true
    · obtain ⟨bs, hbs, hbits⟩ := print_carries m fd h line (pad [] m.lcd.cols)
      exact emitted (.clearLine line) bs (by simp) (by simp)
        (by simp only [Op.run, ClearLine, hon, Bool.not_true, Bool.false_eq_true, if_false,
          bind_ret_machine, hbs]) hbits
    · exact emitted (.clearLine line) [] (by simp) (by simp)
        (by simp [Op.run, ClearLine, hon, Res.machine, Res.void, emit_nil]) (by simp)
  | .printf line formatted =>
    by_cases hon : m.lcd.on_ = true
    · obtain ⟨bs, hbs, hbits⟩ := print_carries m fd h line (pad (sfmt formatted) m.lcd.cols)
      exact emitted (.printf line formatted) bs (by simp) (by simp)
        (by simp only [Op.run, void_machine, Printf, hon, Bool.not_true, Bool.false_eq_true,
          if_false, hbs]) hbits
    · exact emitted (.printf line formatted) [] (by simp) (by simp)
        (by simp [Op.run, void_machine, Printf, hon, Res.machine, Res.void, emit_nil]) (by simp)
  | .centerf line formatted =>
    by_cases hon : m.lcd.on_ = true
    · obtain ⟨bs, hbs, hbits⟩ := print_carries m fd h line
        (pad (shift (sfmt formatted) (Int.tdiv (m.lcd.cols - (sfmt formatted).length) 2))
          m.lcd.cols)
      exact emitted (.centerf line formatted) bs (by simp) (by simp)
        (by simp only [Op.run, void_machine, Centerf, hon, Bool.not_true, Bool.false_eq_true,
          if_false, hbs]) hbits
    · exact emitted (.centerf line formatted) [] (by simp) (by simp)
        (by simp [Op.run, void_machine, Centerf, hon, Res.machine, Res.void, emit_nil]) (by simp)
  | .rightJustifyf line formatted =>
    by_cases hon : m.lcd.on_ = true
    · obtain ⟨bs, hbs, hbits⟩ := print_carries m fd h line
        (shift (sfmt formatted) (m.lcd.cols - (sfmt formatted).length))
      exact emitted (.rightJustifyf line formatted) bs (by simp) (by simp)
        (by simp only [Op.run, void_machine, RightJustifyf, hon, Bool.not_true,
          Bool.false_eq_true, if_false, hbs]) hbits
    · exact emitted (.rightJustifyf line formatted) [] (by simp) (by simp)
        (by simp [Op.run, void_machine, RightJustifyf, hon, Res.machine, Res.void, emit_nil]) (by simp)

theorem runOps_handle (pre : List Op) (m0 m : Machine) (fd : Nat) (h : m0.lcd.i2c = some fd)
    (hr : runOps m0 pre = .ret () m) : ∃ fd', m.lcd.i2c = some fd' := by
  induction pre generalizing m0 fd with
  | nil =>
    simp only [runOps, Res.ret.injEq, true_and] at hr
    exact ⟨fd, hr ▸ h⟩
  | cons op rest ih =>
    obtain ⟨_, _, _, ⟨fd1, h1⟩, _⟩ := Op_run_carries m0 fd h op
    cases hop : op.run m0 with
    | ret v m1 =>
      rw [hop] at h1
      simp only [runOps, hop, Res.bind] at hr
      exact ih m1 fd1 h1 hr
    | panic p m1 =>
      simp [runOps, hop, Res.bind] at hr

/-- C11: from `NewLcd` followed by an `EnableHW` whose open and bind succeed, every byte that
`EnableHW` and every later public operation (after any sequence of public operations that
returned) hands to the bus has bit 3 equal to the backlight flag as it stands when that
operation ends; `BacklightOn` on a powered-on driver writes the single byte 0x08 and leaves
the flag true, `BacklightOff` writes the single byte 0x00 and leaves the flag false, and every
other operation leaves the flag as it was. -/
theorem backlight_bit_invariant (rows cols : Int) (bus : Bus) (hopen : bus.openFails = false)
    (hioctl : bus.ioctlFails = false) :
    ∃ (m0 : Machine) (bs0 : List Nat),
      EnableHW { lcd := NewLcd rows cols, bus := bus } = .ret none m0 ∧
      m0.bus.writes = bus.writes ++ bs0 ∧
      (∀ b ∈ bs0, b.testBit 3 = m0.lcd.backlight_state) ∧
      ∀ (pre : List Op) (m : Machine), runOps m0 pre = .ret () m → ∀ op : Op,
        ∃ bs, (op.run m).machine.bus.writes = m.bus.writes ++ bs ∧
          (∀ b ∈ bs, b.testBit 3 = (op.run m).machine.lcd.backlight_state) ∧
          (op = .backlightOn → m.lcd.on_ = true →
            bs = [0x08] ∧ (op.run m).machine.lcd.backlight_state = true) ∧
          (op = .backlightOff → m.lcd.on_ = true →
            bs = [0x00] ∧ (op.run m).machine.lcd.backlight_state = false) ∧
          (op ≠ .backlightOn → op ≠ .backlightOff →
            (op.run m).machine.lcd.backlight_state = m.lcd.backlight_state) := by
  obtain ⟨bs0, e, hbits⟩ := EnableHW_carries { lcd := NewLcd rows cols, bus := bus } hopen hioctl
  refine ⟨_, bs0, e, rfl, hbits, ?_⟩
  intro pre m hr op
  obtain ⟨fd, h⟩ := runOps_handle pre _ m bus.fd rfl hr
  obtain ⟨bs, h1, h2, _, h4, h5, h6⟩ := Op_run_carries m fd h op
  exact ⟨bs, h1, h2, h4, h5, h6⟩

set_option maxRecDepth 100000 in
/-- C11, concrete instance: the 2x16 driver of the example program. -/
theorem backlight_bit_invariant_witness :
    fresh2x16.bus.openFails = false ∧ fresh2x16.bus.ioctlFails = false ∧
    (∃ (m0 : Machine) (bs0 : List Nat),
      EnableHW { lcd := NewLcd 2 16, bus := fresh2x16.bus } = .ret none m0 ∧
      m0.bus.writes = fresh2x16.bus.writes ++ bs0 ∧
      (∀ b ∈ bs0, b.testBit 3 = m0.lcd.backlight_state) ∧
      ∀ (pre : List Op) (m : Machine), runOps m0 pre = .ret () m → ∀ op : Op,
        ∃ bs, (op.run m).machine.bus.writes = m.bus.writes ++ bs ∧
          (∀ b ∈ bs, b.testBit 3 = (op.run m).machine.lcd.backlight_state) ∧
          (op = .backlightOn → m.lcd.on_ = true →
            bs = [0x08] ∧ (op.run m).machine.lcd.backlight_state = true) ∧
          (op = .backlightOff → m.lcd.on_ = true →
            bs = [0x00] ∧ (op.run m).machine.lcd.backlight_state = false) ∧
          (op ≠ .backlightOn → op ≠ .backlightOff →
            (op.run m).machine.lcd.backlight_state = m.lcd.backlight_state)) ∧
    (∃ m, runOps fresh2x16 [.enableHW, .on, .backlightOn, .clear] = .ret () m ∧
      m.lcd.backlight_state = true ∧
      m.bus.writes.drop 36 = [0x08, 0x08, 0x0C, 0x08, 0x18, 0x1C, 0x18]) :=
  ⟨rfl, rfl, backlight_bit_invariant 2 16 fresh2x16.bus rfl rfl, ⟨_, rfl, by decide, by decide⟩⟩

/-! ## C15: concurrent callers and the mutex -/

theorem pinInterpret_backlight_bit (d : Nat) (bl : Bool) :
    (pinInterpret _OFFSET_BACKLIGHT d bl).testBit 3 = bl := by
  have h8 : Nat.testBit 8 3 = true := by decide
  have h247 : Nat.testBit 247 3 = false := by decide
  cases bl
  · simp [pinInterpret, _OFFSET_BACKLIGHT, Nat.testBit_land, h247]
  · simp [pinInterpret, _OFFSET_BACKLIGHT, Nat.testBit_lor, h8]

theorem pinInterpret_enable_bit (d : Nat) :
    (pinInterpret _OFFSET_EN d true).testBit 3 = d.testBit 3 := by
  have h4 : Nat.testBit 4 3 = false := by decide
  simp [pinInterpret, _OFFSET_EN, Nat.testBit_lor, h4]

theorem writeI2C_ret (m : Machine) (b : Nat) (v : Int × Option GoError) (m1 : Machine)
    (h : writeI2C m b = .ret v m1) :
    m1.lcd = m.lcd ∧ m1.bus.writes = m.bus.writes ++ [b] := by
  cases hi : m.lcd.i2c with
  | none =>
    rw [writeI2C_unset m hi] at h
    cases h
  | some fd =>
    rw [writeI2C_open m fd hi] at h
    injection h with _ h2
    subst h2
    exact ⟨rfl, rfl⟩

theorem busEvents_append (l1 l2 : List Event) :
    busEvents (l1 ++ l2) = busEvents l1 ++ busEvents l2 :=
  List.filter_append l1 l2

/-! ### The steps of `Conc.step`, one equation per case -/

theorem Conc.step_crashed_eq (s : Conc) (tid : Nat) (p : Panic) (hc : s.crashed = some p) :
    s.step tid = s := by
  simp only [Conc.step, hc]

theorem Conc.step_done_eq (s : Conc) (tid : Nat) (hc : s.crashed = none)
    (hp : (s.threads tid).prog = []) : s.step tid = s := by
  simp only [Conc.step, hc, hp]

theorem Conc.step_guardOn_eq (s : Conc) (tid : Nat) (rest : List Instr) (hc : s.crashed = none)
    (hp : (s.threads tid).prog = .guardOn :: rest) :
    s.step tid =
      if s.m.lcd.on_ then s.advance tid { s.threads tid with prog := rest }
      else s.advance tid { s.threads tid with prog := [] } := by
  simp only [Conc.step, hc, hp]

theorem Conc.step_lock_free_eq (s : Conc) (tid : Nat) (rest : List Instr) (hc : s.crashed = none)
    (hp : (s.threads tid).prog = .lock :: rest) (ho : s.owner = none) :
    s.step tid = { s.advance tid { s.threads tid with prog := rest } with owner := some tid } := by
  simp only [Conc.step, hc, hp, ho]

theorem Conc.step_lock_taken_eq (s : Conc) (tid u : Nat) (rest : List Instr) (hc : s.crashed = none)
    (hp : (s.threads tid).prog = .lock :: rest) (ho : s.owner = some u) :
    s.step tid = s := by
  simp only [Conc.step, hc, hp, ho]

theorem Conc.step_unlock_eq (s : Conc) (tid : Nat) (rest : List Instr) (hc : s.crashed = none)
    (hp : (s.threads tid).prog = .unlock :: rest) :
    s.step tid = { s.advance tid { s.threads tid with prog := rest } with owner := none } := by
  simp only [Conc.step, hc, hp]

theorem Conc.step_setOn_eq (s : Conc) (tid : Nat) (b : Bool) (rest : List Instr) (hc : s.crashed = none)
    (hp : (s.threads tid).prog = .setOn b :: rest) :
    s.step tid =
      { s.advance tid { s.threads tid with prog := rest } with
        m := { s.m with lcd := { s.m.lcd with on_ := b } },
        log := s.log ++ [⟨tid, .power, decide (s.owner = some tid)⟩] } := by
  simp only [Conc.step, hc, hp]

theorem Conc.step_setBacklight_eq (s : Conc) (tid : Nat) (b : Bool) (rest : List Instr)
    (hc : s.crashed = none) (hp : (s.threads tid).prog = .setBacklight b :: rest) :
    s.step tid =
      { s.advance tid { s.threads tid with prog := rest } with
        m := { s.m with lcd := { s.m.lcd with backlight_state := b } },
        log := s.log ++ [⟨tid, .backlight, decide (s.owner = some tid)⟩] } := by
  simp only [Conc.step, hc, hp]

theorem Conc.step_load_eq (s : Conc) (tid : Nat) (d : Nat) (rest : List Instr) (hc : s.crashed = none)
    (hp : (s.threads tid).prog = .load d :: rest) :
    s.step tid =
      s.advance tid
        { prog := rest, data := pinInterpret _OFFSET_BACKLIGHT d s.m.lcd.backlight_state } := by
  simp only [Conc.step, hc, hp]

theorem Conc.step_send_ret_eq (s : Conc) (tid : Nat) (en : Bool) (rest : List Instr)
    (hc : s.crashed = none) (hp : (s.threads tid).prog = .send en :: rest)
    (v : Int × Option GoError) (m1 : Machine)
    (hw : writeI2C s.m (if en then pinInterpret _OFFSET_EN (s.threads tid).data true
      else (s.threads tid).data) = .ret v m1) :
    s.step tid =
      { s.advance tid { s.threads tid with prog := rest } with
        m := m1,
        log := s.log ++ [⟨tid, .bus (if en then pinInterpret _OFFSET_EN (s.threads tid).data true
          else (s.threads tid).data) true, decide (s.owner = some tid)⟩] } := by
  simp only [Conc.step, hc, hp, hw]

theorem Conc.step_send_panic_eq (s : Conc) (tid : Nat) (en : Bool) (rest : List Instr)
    (hc : s.crashed = none) (hp : (s.threads tid).prog = .send en :: rest)
    (p : Panic) (m1 : Machine)
    (hw : writeI2C s.m (if en then pinInterpret _OFFSET_EN (s.threads tid).data true
      else (s.threads tid).data) = .panic p m1) :
    s.step tid = { s with crashed := some p } := by
  simp only [Conc.step, hc, hp, hw]

theorem Conc.step_raw_ret_eq (s : Conc) (tid : Nat) (b : Nat) (rest : List Instr)
    (hc : s.crashed = none) (hp : (s.threads tid).prog = .raw b :: rest)
    (v : Int × Option GoError) (m1 : Machine) (hw : writeI2C s.m b = .ret v m1) :
    s.step tid =
      { s.advance tid { s.threads tid with prog := rest } with
        m := m1, log := s.log ++ [⟨tid, .bus b false, decide (s.owner = some tid)⟩] } := by
  simp only [Conc.step, hc, hp, hw]

theorem Conc.step_raw_panic_eq (s : Conc) (tid : Nat) (b : Nat) (rest : List Instr)
    (hc : s.crashed = none) (hp : (s.threads tid).prog = .raw b :: rest)
    (p : Panic) (m1 : Machine) (hw : writeI2C s.m b = .panic p m1) :
    s.step tid = { s with crashed := some p } := by
  simp only [Conc.step, hc, hp, hw]

theorem Conc.step_fail_eq (s : Conc) (tid : Nat) (p : Panic) (rest : List Instr) (hc : s.crashed = none)
    (hp : (s.threads tid).prog = .fail p :: rest) :
    s.step tid = { s with crashed := some p } := by
  simp only [Conc.step, hc, hp]

/-- A step of thread `tid` keeps what holds of another thread `t`: the step leaves `t` and its
hold on the mutex alone, logs only events of `tid`, and, unless `tid` holds the mutex, changes
neither the backlight flag nor the bus. -/
theorem ThreadInv.frame {s s' : Conc} {tid t : Nat} (h : ThreadInv s t) (hne : t ≠ tid)
    (th' : Thread) (hth : s'.threads = Function.update s.threads tid th')
    (hown : s'.owner = some t ↔ s.owner = some t)
    (evs : List Event) (hlog : s'.log = s.log ++ evs) (hev : ∀ e ∈ evs, e.tid = tid)
    (hquiet : s.owner ≠ some tid →
      s'.m.lcd.backlight_state = s.m.lcd.backlight_state ∧ ∀ e ∈ evs, e.isBus = false) :
    ThreadInv s' t := by
  have hth' : s'.threads t = s.threads t := by
    rw [hth, Function.update_noteq hne]
  have hq : s.owner = some t →
      s'.m.lcd.backlight_state = s.m.lcd.backlight_state ∧ ∀ e ∈ evs, e.isBus = false := by
    intro ho
    apply hquiet
    rw [ho]
    intro x
    exact hne (Option.some.inj x)
  have hev' : ∀ e ∈ evs, e.tid ≠ t := fun e he x => hne (x.symm.trans (hev e he))
  refine ⟨?_, ?_, ?_, ?_, ?_⟩
  · by_cases ho : s.owner = some t
    · have ho' := hown.mpr ho
      have := h.shape
      simp only [ho, if_true] at this
      simp only [ho', if_true, hth', this]
    · have ho' : ¬ s'.owner = some t := fun x => ho (hown.mp x)
      have := h.shape
      simp only [ho, if_false] at this
      simp only [ho', if_false, hth', this]
  · intro hno hnil e he hb
    rw [hth'] at hnil
    rw [hlog] at he
    rcases List.mem_append.mp he with he | he
    · exact h.fresh (fun x => hno (hown.mpr x)) hnil e he hb
    · exact hev' e he
  · intro ho hs
    rw [hth'] at hs ⊢
    rw [(hq (hown.mp ho)).1]
    exact h.register (hown.mp ho) hs
  · obtain ⟨bl, hb1, hb2⟩ := h.bits
    refine ⟨bl, ?_, ?_⟩
    · intro e he ht b hacc
      rw [hlog] at he
      rcases List.mem_append.mp he with he | he
      · exact hb1 e he ht b hacc
      · exact absurd ht (hev' e he)
    · intro ho hs
      rw [hth'] at hs
      rw [(hq (hown.mp ho)).1]
      exact hb2 (hown.mp ho) hs
  · obtain ⟨A, F, B, e1, hF, hA, hB, hlast⟩ := h.block
    refine ⟨A, F, B ++ busEvents evs, ?_, hF, hA, ?_, ?_⟩
    · rw [hlog, busEvents_append, e1]
      simp only [List.append_assoc]
    · intro e he
      rcases List.mem_append.mp he with he | he
      · exact hB e he
      · exact hev' e (List.mem_filter.mp he).1
    · intro ho
      have hq2 := (hq (hown.mp ho)).2
      have : busEvents evs = [] := by
        apply List.filter_eq_nil_iff.mpr
        intro e he
        simp [hq2 e he]
      rw [hlast (hown.mp ho), this]
      rfl

/-- A panic stops every thread and changes nothing else. -/
theorem LockInv.crash {m0 : Machine} {s : Conc} (h : LockInv m0 s) (p : Panic) :
    LockInv m0 { s with crashed := some p } :=
  ⟨h.held, h.trace, fun t =>
    ⟨(h.thread t).shape, (h.thread t).fresh, (h.thread t).register, (h.thread t).bits,
      (h.thread t).block⟩⟩

theorem enableBody_unlock (rest : List Instr) (h : enableBody (.unlock :: rest) = true) :
    rest = [] := by
  cases rest with
  | nil => rfl
  | cons a r => simp [enableBody] at h

theorem toggleBody_unlock (rest : List Instr) (h : toggleBody (.unlock :: rest) = true) :
    rest = [] := by
  cases rest with
  | nil => rfl
  | cons a r => simp [toggleBody] at h

theorem toggleBody_raw (b : Nat) (rest : List Instr) (h : toggleBody (.raw b :: rest) = true) :
    ∃ b', rest = [.setBacklight b', .unlock] := by
  match rest, h with
  | [.setBacklight b', .unlock], _ => exact ⟨b', rfl⟩

theorem toggleBody_setBacklight (b : Bool) (rest : List Instr)
    (h : toggleBody (.setBacklight b :: rest) = true) : rest = [.unlock] := by
  match rest, h with
  | [.unlock], _ => rfl

theorem toggleBody_not_send (p : List Instr) (h : toggleBody p = true) :
    startsWithSend p = false := by
  match p, h with
  | [.raw _, .setBacklight _, .unlock], _ => rfl
  | [.setBacklight _, .unlock], _ => rfl
  | [.unlock], _ => rfl

theorem owner_other {s : Conc} {tid t : Nat} (ho : s.owner = some tid) (ht : t ≠ tid) :
    ¬ s.owner = some t := by
  rw [ho]
  intro x
  exact ht (Option.some.inj x).symm

/-- The thread that holds the mutex releases it. -/
theorem LockInv.step_unlock {m0 : Machine} {s s' : Conc} (h : LockInv m0 s) (tid : Nat)
    (ho : s.owner = some tid) (th' : Thread) (hprog : th'.prog = [])
    (hm : s'.m = s.m) (hown : s'.owner = none)
    (hth : s'.threads = Function.update s.threads tid th') (hlog : s'.log = s.log) :
    LockInv m0 s' := by
  refine ⟨?_, ?_, fun t => ?_⟩
  · rw [hlog]
    exact h.held
  · rw [hlog, hm]
    exact h.trace
  by_cases ht : t = tid
  · subst ht
    have T := h.thread t
    have e1 : s'.threads t = th' := by rw [hth, Function.update_same]
    have hno : ¬ s'.owner = some t := by
      rw [hown]
      intro x
      cases x
    refine ⟨?_, ?_, ?_, ?_, ?_⟩
    · simp only [hno, if_false, e1, hprog]
      rfl
    · intro _ hnil
      rw [e1] at hnil
      exact absurd hprog hnil
    · intro x
      exact absurd x hno
    · obtain ⟨bl, hb1, _⟩ := T.bits
      rw [hlog]
      exact ⟨bl, hb1, fun x => absurd x hno⟩
    · obtain ⟨A, F, B, e2, hF, hA, hB, _⟩ := T.block
      rw [hlog]
      exact ⟨A, F, B, e2, hF, hA, hB, fun x => absurd x hno⟩
  · refine (h.thread t).frame ht th' hth ?_ [] ?_ (by simp) (fun x => absurd ho x)
    · rw [hown]
      exact ⟨fun x => Option.noConfusion x, fun x => absurd x (owner_other ho ht)⟩
    · rw [hlog, List.append_nil]

/-- The thread that holds the mutex runs the first step of `enable`: the read of the
backlight flag. -/
theorem LockInv.step_load {m0 : Machine} {s s' : Conc} (h : LockInv m0 s) (tid : Nat)
    (ho : s.owner = some tid) (d : Nat) (rest : List Instr)
    (hp : (s.threads tid).prog = .load d :: rest) (hbody : enableBody rest = true)
    (hm : s'.m = s.m) (hown : s'.owner = s.owner)
    (hth : s'.threads = Function.update s.threads tid
      { prog := rest, data := pinInterpret _OFFSET_BACKLIGHT d s.m.lcd.backlight_state })
    (hlog : s'.log = s.log) :
    LockInv m0 s' := by
  refine ⟨?_, ?_, fun t => ?_⟩
  · rw [hlog]
    exact h.held
  · rw [hlog, hm]
    exact h.trace
  by_cases ht : t = tid
  · subst ht
    have T := h.thread t
    have e1 : s'.threads t
        = { prog := rest, data := pinInterpret _OFFSET_BACKLIGHT d s.m.lcd.backlight_state } := by
      rw [hth, Function.update_same]
    have ho' : s'.owner = some t := hown.trans ho
    refine ⟨?_, ?_, ?_, ?_, ?_⟩
    · simp only [ho', if_true, e1, hbody, Bool.true_or]
    · intro hno
      exact absurd ho' hno
    · intro _ _
      rw [e1, hm]
      exact pinInterpret_backlight_bit d _
    · obtain ⟨bl, hb1, hb2⟩ := T.bits
      rw [hlog, hm]
      refine ⟨bl, hb1, fun _ _ => hb2 ho ?_⟩
      rw [hp]
      rfl
    · obtain ⟨A, F, B, e2, hF, hA, hB, hlast⟩ := T.block
      rw [hlog]
      exact ⟨A, F, B, e2, hF, hA, hB, fun _ => hlast ho⟩
  · refine (h.thread t).frame ht _ hth ?_ [] ?_ (by simp) (fun x => absurd ho x)
    · rw [hown]
    · rw [hlog, List.append_nil]

/-- The thread that holds the mutex writes one byte to the bus, through `enable` with the
backlight flag folded in, or as the constant byte of a backlight toggle. -/
theorem LockInv.step_write {m0 : Machine} {s s' : Conc} (h : LockInv m0 s) (tid : Nat)
    (ho : s.owner = some tid) (th' : Thread) (hdata : th'.data = (s.threads tid).data)
    (hbody : (enableBody th'.prog || toggleBody th'.prog) = true)
    (byte : Nat) (via : Bool)
    (hvia : via = true →
      byte.testBit 3 = s.m.lcd.backlight_state ∧
      (s.threads tid).data.testBit 3 = s.m.lcd.backlight_state ∧
      startsWithEnable (s.threads tid).prog = true)
    (hraw : via = false → startsWithEnable th'.prog = false)
    (hlcd : s'.m.lcd = s.m.lcd) (hbus : s'.m.bus.writes = s.m.bus.writes ++ [byte])
    (hown : s'.owner = s.owner) (hth : s'.threads = Function.update s.threads tid th')
    (hlog : s'.log = s.log ++ [⟨tid, .bus byte via, decide (s.owner = some tid)⟩]) :
    LockInv m0 s' := by
  have hflag : s'.m.lcd.backlight_state = s.m.lcd.backlight_state := by rw [hlcd]
  refine ⟨?_, ?_, fun t => ?_⟩
  · intro e he hacc
    rw [hlog] at he
    rcases List.mem_append.mp he with he | he
    · exact h.held e he hacc
    · rw [List.mem_singleton.mp he]
      simp [ho]
  · rw [hbus, h.trace, hlog, busEvents_append]
    simp [busEvents, Event.isBus, Event.byte]
  · by_cases ht : t = tid
    · subst ht
      have T := h.thread t
      have e1 : s'.threads t = th' := by rw [hth, Function.update_same]
      have ho' : s'.owner = some t := hown.trans ho
      refine ⟨?_, ?_, ?_, ?_, ?_⟩
      · simp only [ho', if_true, e1, hbody]
      · intro hno
        exact absurd ho' hno
      · intro _ hs
        rw [e1] at hs ⊢
        rw [hdata, hflag]
        cases via with
        | true => exact (hvia rfl).2.1
        | false =>
          have := hraw rfl
          cases hq : th'.prog with
          | nil => rw [hq] at hs; simp [startsWithSend] at hs
          | cons a r =>
            rw [hq] at hs this
            cases a <;> simp [startsWithSend, startsWithEnable] at hs this
      · obtain ⟨bl, hb1, hb2⟩ := T.bits
        rw [hlog, hflag, e1]
        cases via with
        | true =>
          obtain ⟨hbit, _, hen⟩ := hvia rfl
          have hbl := hb2 ho hen
          refine ⟨bl, ?_, fun _ _ => hbl⟩
          intro e he _ b hacc
          rcases List.mem_append.mp he with he | he
          · exact hb1 e he (by assumption) b hacc
          · rw [List.mem_singleton.mp he] at hacc
            injection hacc with hb _
            rw [← hb, hbit, hbl]
        | false =>
          refine ⟨bl, ?_, fun _ hs => ?_⟩
          · intro e he _ b hacc
            rcases List.mem_append.mp he with he | he
            · exact hb1 e he (by assumption) b hacc
            · rw [List.mem_singleton.mp he] at hacc
              injection hacc with _ hv
              cases hv
          · rw [hraw rfl] at hs
            cases hs
      · obtain ⟨A, F, B, e2, hF, hA, hB, hlast⟩ := T.block
        refine ⟨A, F ++ [⟨t, .bus byte via, decide (s.owner = some t)⟩], [], ?_, ?_, hA,
          by simp, fun _ => rfl⟩
        · rw [hlog, busEvents_append, e2, hlast ho]
          simp [busEvents, Event.isBus]
        · intro e he
          rcases List.mem_append.mp he with he | he
          · exact hF e he
          · rw [List.mem_singleton.mp he]
    · refine (h.thread t).frame ht th' hth ?_ _ hlog (by simp) (fun x => absurd ho x)
      rw [hown]

/-- The thread that holds the mutex assigns the backlight flag. -/
theorem LockInv.step_setBacklight {m0 : Machine} {s s' : Conc} (h : LockInv m0 s) (tid : Nat)
    (ho : s.owner = some tid) (th' : Thread) (hprog : th'.prog = [.unlock])
    (hbus : s'.m.bus = s.m.bus) (hown : s'.owner = s.owner)
    (hth : s'.threads = Function.update s.threads tid th')
    (hlog : s'.log = s.log ++ [⟨tid, .backlight, decide (s.owner = some tid)⟩]) :
    LockInv m0 s' := by
  refine ⟨?_, ?_, fun t => ?_⟩
  · intro e he hacc
    rw [hlog] at he
    rcases List.mem_append.mp he with he | he
    · exact h.held e he hacc
    · rw [List.mem_singleton.mp he]
      simp [ho]
  · rw [hbus, h.trace, hlog, busEvents_append]
    simp [busEvents, Event.isBus]
  · by_cases ht : t = tid
    · subst ht
      have T := h.thread t
      have e1 : s'.threads t = th' := by rw [hth, Function.update_same]
      have ho' : s'.owner = some t := hown.trans ho
      refine ⟨?_, ?_, ?_, ?_, ?_⟩
      · simp only [ho', if_true, e1, hprog]
        rfl
      · intro hno
        exact absurd ho' hno
      · intro _ hs
        rw [e1, hprog] at hs
        cases hs
      · obtain ⟨bl, hb1, _⟩ := T.bits
        rw [hlog, e1, hprog]
        refine ⟨bl, ?_, fun _ hs => by cases hs⟩
        intro e he _ b' hacc
        rcases List.mem_append.mp he with he | he
        · exact hb1 e he (by assumption) b' hacc
        · rw [List.mem_singleton.mp he] at hacc
          cases hacc
      · obtain ⟨A, F, B, e2, hF, hA, hB, hlast⟩ := T.block
        refine ⟨A, F, B, ?_, hF, hA, hB, fun _ => hlast ho⟩
        rw [hlog, busEvents_append, e2]
        simp [busEvents, Event.isBus]
    · refine (h.thread t).frame ht th' hth ?_ _ hlog (by simp) (fun x => absurd ho x)
      rw [hown]

/-- A thread that does not hold the mutex runs a check or writes the power flag. -/
theorem LockInv.step_outside {m0 : Machine} {s s' : Conc} (h : LockInv m0 s) (tid : Nat)
    (ho : s.owner ≠ some tid) (th' : Thread) (hnonempty : (s.threads tid).prog ≠ [])
    (hshape : outsideShape th'.prog = true)
    (evs : List Event) (hevs : ∀ e ∈ evs, e.tid = tid ∧ e.access = .power)
    (hbus : s'.m.bus = s.m.bus)
    (hflag : s'.m.lcd.backlight_state = s.m.lcd.backlight_state)
    (hown : s'.owner = s.owner) (hth : s'.threads = Function.update s.threads tid th')
    (hlog : s'.log = s.log ++ evs) :
    LockInv m0 s' := by
  have hnobus : ∀ e ∈ evs, e.isBus = false := by
    intro e he
    simp [Event.isBus, (hevs e he).2]
  have hbe : busEvents evs = [] := by
    apply List.filter_eq_nil_iff.mpr
    intro e he
    simp [hnobus e he]
  refine ⟨?_, ?_, fun t => ?_⟩
  · intro e he hacc
    rw [hlog] at he
    rcases List.mem_append.mp he with he | he
    · exact h.held e he hacc
    · exact absurd (hevs e he).2 hacc
  · rw [hbus, h.trace, hlog, busEvents_append, hbe, List.append_nil]
  · by_cases ht : t = tid
    · subst ht
      have T := h.thread t
      have e1 : s'.threads t = th' := by rw [hth, Function.update_same]
      have ho' : ¬ s'.owner = some t := by rw [hown]; exact ho
      refine ⟨?_, ?_, ?_, ?_, ?_⟩
      · simp only [ho', if_false, e1, hshape]
      · intro _ _ e he hb
        rw [hlog] at he
        rcases List.mem_append.mp he with he | he
        · exact T.fresh ho hnonempty e he hb
        · rw [hnobus e he] at hb
          cases hb
      · intro x
        exact absurd x ho'
      · obtain ⟨bl, hb1, _⟩ := T.bits
        refine ⟨bl, ?_, fun x => absurd x ho'⟩
        intro e he _ b hacc
        rw [hlog] at he
        rcases List.mem_append.mp he with he | he
        · exact hb1 e he (by assumption) b hacc
        · rw [(hevs e he).2] at hacc
          cases hacc
      · obtain ⟨A, F, B, e2, hF, hA, hB, _⟩ := T.block
        refine ⟨A, F, B, ?_, hF, hA, hB, fun x => absurd x ho'⟩
        rw [hlog, busEvents_append, hbe, List.append_nil, e2]
    · refine (h.thread t).frame ht th' hth ?_ evs hlog (fun e he => (hevs e he).1)
        (fun _ => ⟨hflag, hnobus⟩)
      rw [hown]

/-- A thread takes the free mutex. -/
theorem LockInv.step_lock {m0 : Machine} {s s' : Conc} (h : LockInv m0 s) (tid : Nat)
    (ho : s.owner = none) (th' : Thread) (hnonempty : (s.threads tid).prog ≠ [])
    (hbody : ((enableBody th'.prog && !startsWithSend th'.prog) || toggleBody th'.prog) = true)
    (hm : s'.m = s.m) (hown : s'.owner = some tid)
    (hth : s'.threads = Function.update s.threads tid th') (hlog : s'.log = s.log) :
    LockInv m0 s' := by
  have hno : s.owner ≠ some tid := by
    rw [ho]
    intro x
    cases x
  refine ⟨?_, ?_, fun t => ?_⟩
  · rw [hlog]
    exact h.held
  · rw [hlog, hm]
    exact h.trace
  by_cases ht : t = tid
  · subst ht
    have T := h.thread t
    have e1 : s'.threads t = th' := by rw [hth, Function.update_same]
    have habsent := T.fresh hno hnonempty
    refine ⟨?_, ?_, ?_, ?_, ?_⟩
    · simp only [hown, if_true, e1]
      rcases (Bool.or_eq_true _ _).mp hbody with hb | hb
      · rw [(Bool.and_eq_true _ _).mp hb |>.1]
        rfl
      · rw [hb]
        simp
    · intro x
      exact absurd hown x
    · intro _ hs
      rw [e1] at hs
      rcases (Bool.or_eq_true _ _).mp hbody with hb | hb
      · have := ((Bool.and_eq_true _ _).mp hb).2
        rw [hs] at this
        cases this
      · rw [toggleBody_not_send _ hb] at hs
        cases hs
    · rw [hlog, hm]
      refine ⟨s.m.lcd.backlight_state, ?_, fun _ _ => rfl⟩
      intro e he htid b hacc
      have : e.isBus = true := by simp [Event.isBus, hacc]
      exact absurd htid (habsent e he this)
    · refine ⟨busEvents s.log, [], [], ?_, by simp, ?_, by simp, fun _ => rfl⟩
      · rw [hlog]
        simp
      · intro e he
        exact habsent e (List.mem_filter.mp he).1 (List.mem_filter.mp he).2
  · refine (h.thread t).frame ht th' hth ?_ [] ?_ (by simp) (fun _ => ⟨by rw [hm], by simp⟩)
    · rw [hown, ho]
      exact ⟨fun x => absurd (Option.some.inj x).symm ht, fun x => Option.noConfusion x⟩
    · rw [hlog, List.append_nil]

/-- Every step keeps the invariant. -/
theorem LockInv.step_preserves {m0 : Machine} {s : Conc} (h : LockInv m0 s) (tid : Nat) :
    LockInv m0 (s.step tid) := by
  cases hc : s.crashed with
  | some p =>
    rw [Conc.step_crashed_eq s tid p hc]
    exact h
  | none =>
    cases hp : (s.threads tid).prog with
    | nil =>
      rw [Conc.step_done_eq s tid hc hp]
      exact h
    | cons i rest =>
      have T := h.thread tid
      have hnonempty : (s.threads tid).prog ≠ [] := by
        rw [hp]
        exact List.cons_ne_nil _ _
      by_cases ho : s.owner = some tid
      · have hshape := T.shape
        simp only [ho, if_true, hp] at hshape
        match i, hp, hshape with
        | .unlock, hp, hshape =>
          have hr : rest = [] := by
            rcases (Bool.or_eq_true _ _).mp hshape with hb | hb
            · exact enableBody_unlock rest hb
            · exact toggleBody_unlock rest hb
          rw [Conc.step_unlock_eq s tid rest hc hp]
          exact h.step_unlock tid ho _ hr rfl rfl rfl rfl
        | .load d, hp, hshape =>
          have hb : enableBody rest = true := by
            simpa [enableBody, toggleBody] using hshape
          rw [Conc.step_load_eq s tid d rest hc hp]
          exact h.step_load tid ho d rest hp hb rfl rfl rfl rfl
        | .send en, hp, hshape =>
          have hb : enableBody rest = true := by
            simpa [enableBody, toggleBody] using hshape
          have hreg := T.register ho (by rw [hp]; rfl)
          cases hw : writeI2C s.m (if en then pinInterpret _OFFSET_EN (s.threads tid).data true
              else (s.threads tid).data) with
          | ret v m1 =>
            obtain ⟨w1, w2⟩ := writeI2C_ret _ _ _ _ hw
            rw [Conc.step_send_ret_eq s tid en rest hc hp v m1 hw]
            refine h.step_write tid ho { s.threads tid with prog := rest } rfl
              (by simp [hb]) _ true (fun _ => ⟨?_, hreg, by rw [hp]; rfl⟩)
              (fun x => by cases x) w1 w2 rfl rfl rfl
            cases en
            · simpa using hreg
            · simp only [if_true]
              rw [pinInterpret_enable_bit]
              exact hreg
          | panic p m1 =>
            rw [Conc.step_send_panic_eq s tid en rest hc hp p m1 hw]
            exact h.crash p
        | .raw b, hp, hshape =>
          have hb : toggleBody (.raw b :: rest) = true := by
            simpa [enableBody] using hshape
          obtain ⟨b', hr⟩ := toggleBody_raw b rest hb
          cases hw : writeI2C s.m b with
          | ret v m1 =>
            obtain ⟨w1, w2⟩ := writeI2C_ret _ _ _ _ hw
            rw [Conc.step_raw_ret_eq s tid b rest hc hp v m1 hw]
            refine h.step_write tid ho { s.threads tid with prog := rest } rfl
              (by simp [hr, toggleBody]) _ false (fun x => by cases x)
              (fun _ => by simp [hr, startsWithEnable]) w1 w2 rfl rfl rfl
          | panic p m1 =>
            rw [Conc.step_raw_panic_eq s tid b rest hc hp p m1 hw]
            exact h.crash p
        | .setBacklight b, hp, hshape =>
          have hb : toggleBody (.setBacklight b :: rest) = true := by
            simpa [enableBody] using hshape
          have hr := toggleBody_setBacklight b rest hb
          rw [Conc.step_setBacklight_eq s tid b rest hc hp]
          exact h.step_setBacklight tid ho { s.threads tid with prog := rest } hr rfl rfl rfl rfl
        | .guardOn, _, hshape => simp [enableBody, toggleBody] at hshape
        | .lock, _, hshape => simp [enableBody, toggleBody] at hshape
        | .setOn _, _, hshape => simp [enableBody, toggleBody] at hshape
        | .storeHandle, _, hshape => simp [enableBody, toggleBody] at hshape
        | .fail _, _, hshape => simp [enableBody, toggleBody] at hshape
      · have hshape := T.shape
        simp only [ho, if_false, hp] at hshape
        match i, hp, hshape with
        | .fail p, hp, _ =>
          rw [Conc.step_fail_eq s tid p rest hc hp]
          exact h.crash p
        | .setOn b, hp, hshape =>
          rw [Conc.step_setOn_eq s tid b rest hc hp]
          exact h.step_outside tid ho { s.threads tid with prog := rest } hnonempty
            (by simpa [outsideShape] using hshape) _ (by simp) rfl rfl rfl rfl rfl
        | .guardOn, hp, hshape =>
          rw [Conc.step_guardOn_eq s tid rest hc hp]
          by_cases hon : s.m.lcd.on_ = true
          · simp only [hon, if_true]
            exact h.step_outside tid ho { s.threads tid with prog := rest } hnonempty
              (by simpa [outsideShape] using hshape) [] (by simp) rfl rfl rfl rfl
              (List.append_nil _).symm
          · simp only [hon, if_false]
            exact h.step_outside tid ho { s.threads tid with prog := [] } hnonempty
              rfl [] (by simp) rfl rfl rfl rfl (List.append_nil _).symm
        | .lock, hp, hshape =>
          cases hown : s.owner with
          | none =>
            rw [Conc.step_lock_free_eq s tid rest hc hp hown]
            exact h.step_lock tid hown { s.threads tid with prog := rest } hnonempty
              (by simpa [outsideShape] using hshape) rfl rfl rfl rfl
          | some u =>
            rw [Conc.step_lock_taken_eq s tid u rest hc hp hown]
            exact h
        | .unlock, _, hshape => simp [outsideShape] at hshape
        | .setBacklight _, _, hshape => simp [outsideShape] at hshape
        | .storeHandle, _, hshape => simp [outsideShape] at hshape
        | .load _, _, hshape => simp [outsideShape] at hshape
        | .send _, _, hshape => simp [outsideShape] at hshape
        | .raw _, _, hshape => simp [outsideShape] at hshape

/-- Every schedule keeps the invariant. -/
theorem LockInv.run_preserves {m0 : Machine} (sched : List Nat) {s : Conc} (h : LockInv m0 s) :
    LockInv m0 (s.run sched) := by
  induction sched generalizing s with
  | nil => exact h
  | cons t rest ih => exact ih (h.step_preserves t)

/-! ### The operations that take the mutex have the shape the invariant asks for -/

theorem enableBody_writeProg (v : Nat) (c : Bool) (r : List Instr) :
    enableBody (writeProg v c ++ r) = enableBody r := by
  simp [writeProg, enableProg, enableBody]

theorem startsWithSend_writeProg (v : Nat) (c : Bool) (r : List Instr) :
    startsWithSend (writeProg v c ++ r) = false := by
  simp [writeProg, enableProg, startsWithSend]

theorem enableBody_writeBufProg (buf : List Nat) :
    enableBody (writeBufProg buf ++ [.unlock]) = true := by
  induction buf with
  | nil => rfl
  | cons c cs ih =>
    have e : writeBufProg (c :: cs) = writeProg c false ++ writeBufProg cs := by
      simp [writeBufProg, List.flatMap_cons]
    rw [e, List.append_assoc, enableBody_writeProg]
    exact ih

theorem commandSection_shape (v : Nat) (r : List Instr) (hr : enableBody r = true) :
    outsideShape (.lock :: (commandProg v ++ r)) = true := by
  simp [outsideShape, commandProg, enableBody_writeProg, startsWithSend_writeProg, hr]

theorem printProg_shape (lcd : Lcd) (line : Nat) (out : List Nat) :
    outsideShape (printProg lcd line out) = true := by
  unfold printProg
  cases capstring out lcd.cols with
  | error p => rfl
  | ok o =>
    rcases hg : getLCDaddress lcd line 0 with ⟨a, e⟩
    cases e with
    | some err => rfl
    | none =>
      simp only [List.singleton_append, List.append_assoc]
      exact commandSection_shape _ _ (enableBody_writeBufProg o)

theorem Op.prog_shape (m : Machine) (op : Op) (h : op ≠ .enableHW) :
    outsideShape (op.prog m) = true := by
  match op, h with
  | .enableHW, h => exact absurd rfl h
  | .on, _ => rfl
  | .off, _ => rfl
  | .backlightOn, _ => rfl
  | .backlightOff, _ => rfl
  | .clear, _ =>
    show outsideShape (.guardOn :: .lock :: (commandProg _ ++ [.unlock])) = true
    exact commandSection_shape _ _ rfl
  | .home, _ =>
    show outsideShape (.guardOn :: .lock :: (commandProg _ ++ [.unlock])) = true
    exact commandSection_shape _ _ rfl
  | .setPosition line col, _ =>
    simp only [Op.prog]
    rcases hg : getLCDaddress m.lcd line col with ⟨a, e⟩
    cases e with
    | some err => rfl
    | none =>
      show outsideShape (.lock :: (commandProg _ ++ [.unlock])) = true
      exact commandSection_shape _ _ rfl
  | .clearLine line, _ => exact printProg_shape _ _ _
  | .printf line formatted, _ => exact printProg_shape _ _ _
  | .centerf line formatted, _ => exact printProg_shape _ _ _
  | .rightJustifyf line formatted, _ => exact printProg_shape _ _ _

/-- Before the first step the invariant holds, when no thread is to run `EnableHW`. -/
theorem LockInv.initially (m : Machine) (ops : List Op) (hno : Op.enableHW ∉ ops) :
    LockInv m (Conc.init m ops) := by
  have hlog : ∀ e, e ∈ (Conc.init m ops).log → False := fun e he => by cases he
  refine ⟨fun e he => (hlog e he).elim, (List.append_nil _).symm, fun t => ?_⟩
  have hown : ¬ (Conc.init m ops).owner = some t := fun x => Option.noConfusion x
  refine ⟨?_, fun _ _ e he => (hlog e he).elim, fun x => absurd x hown,
    ⟨false, fun e he => (hlog e he).elim, fun x => absurd x hown⟩,
    ⟨[], [], [], rfl, (by simp), (by simp), (by simp), fun _ => rfl⟩⟩
  simp only [hown, if_false]
  show outsideShape (match ops[t]? with
    | some op => ({ prog := op.prog m, data := 0 } : Thread)
    | none => { prog := [], data := 0 }).prog = true
  cases hop : ops[t]? with
  | none => rfl
  | some op =>
    have hmem : op ∈ ops := List.getElem?_mem hop
    exact Op.prog_shape m op (fun x => hno (x ▸ hmem))

/-- C15, amended: for any number of threads, each running one public operation other than
`EnableHW` on the same driver, and for every schedule: every bus write and every write of the
backlight flag is made by a thread that holds the mutex (only the power flag, written by `On`
and `Off`, is written without it); the bus trace of the machine is the logged writes in
order; all bytes one operation sends through `enable` carry the same backlight bit, so the
six bytes of each single `write` do; and the bus writes of one operation are contiguous in
the trace, so no other thread writes between a set-address command and its payload. -/
theorem locked_operations_atomic (m : Machine) (ops : List Op) (hno : Op.enableHW ∉ ops)
    (sched : List Nat) :
    (∀ e ∈ ((Conc.init m ops).run sched).log, e.access ≠ .power → e.held = true) ∧
    ((Conc.init m ops).run sched).m.bus.writes
      = m.bus.writes ++ (busEvents ((Conc.init m ops).run sched).log).map Event.byte ∧
    (∀ t, ∃ bl : Bool, ∀ e ∈ ((Conc.init m ops).run sched).log, e.tid = t →
      ∀ b, e.access = .bus b true → b.testBit 3 = bl) ∧
    (∀ t, ∃ A F B : List Event,
      busEvents ((Conc.init m ops).run sched).log = A ++ F ++ B ∧
      (∀ e ∈ F, e.tid = t) ∧ (∀ e ∈ A, e.tid ≠ t) ∧ (∀ e ∈ B, e.tid ≠ t)) := by
  have h := (LockInv.initially m ops hno).run_preserves sched
  refine ⟨h.held, h.trace, fun t => ?_, fun t => ?_⟩
  · obtain ⟨bl, hb, _⟩ := (h.thread t).bits
    exact ⟨bl, hb⟩
  · obtain ⟨A, F, B, e, hF, hA, hB, _⟩ := (h.thread t).block
    exact ⟨A, F, B, e, hF, hA, hB⟩

set_option maxRecDepth 1000000 in
/-- C15 as stated fails for `On`, `Off` and `EnableHW`, which never take the mutex.  `On`
writes the power flag without holding it, and `EnableHW` stores the handle and makes its 36
bus writes without holding it.  When `BacklightOn` runs between the two `enable` calls of the
`write(0x28, true)` of `EnableHW`, the six bytes of that single write are 0x20, 0x24, 0x20 and
then 0x88, 0x8C, 0x88: the backlight bit differs.  When `EnableHW` runs during
`Printf(1, "Hello")`, its pulse 0x30, 0x34, 0x30 lands between the set-address command and the
payload of `Printf`. -/
theorem EnableHW_breaks_atomicity :
    ((Conc.init fresh2x16 [.on]).run [0]).log = [⟨0, .power, false⟩] ∧
    (((Conc.init fresh2x16 [.enableHW]).run (List.replicate 49 0)).log.length = 37 ∧
      ∀ e ∈ ((Conc.init fresh2x16 [.enableHW]).run (List.replicate 49 0)).log, e.held = false) ∧
    ((Op.prog poweredOnly2x16 .enableHW).drop 17).take 8
        = writeProg (_CMD_Function_Set ||| _OPT_2_Lines) true ∧
    (((Conc.init poweredOnly2x16 [.enableHW, .backlightOn]).run midWriteSchedule).log.drop 13
        = [⟨0, .bus 0x20 true, false⟩, ⟨0, .bus 0x24 true, false⟩, ⟨0, .bus 0x20 true, false⟩,
           ⟨1, .bus 0x08 false, true⟩, ⟨1, .backlight, true⟩,
           ⟨0, .bus 0x88 true, false⟩, ⟨0, .bus 0x8C true, false⟩, ⟨0, .bus 0x88 true, false⟩]) ∧
    ((busEvents ((Conc.init poweredOnly2x16 [.enableHW, .printf 1 hello]).run
          midPrintSchedule).log).map (fun e => (e.tid, e.byte))
        = [(1, 0x80), (1, 0x84), (1, 0x80), (1, 0x00), (1, 0x04), (1, 0x00),
           (0, 0x30), (0, 0x34), (0, 0x30),
           (1, 0x41), (1, 0x45), (1, 0x41), (1, 0x81), (1, 0x85), (1, 0x81)]) := by
  refine ⟨by decide, ⟨by decide, by decide⟩, by decide, by decide, by decide⟩

set_option maxRecDepth 1000000 in
/-- C15, concrete instance: `Printf(1, "Hello")`, `BacklightOff` and `Off` called from three
threads on the 2x16 demo display.  `BacklightOff` asks for the mutex while `Printf` holds it
and has to wait: the 102 bytes of `Printf` come first, all with the backlight bit set, then
the byte 0x00 of `BacklightOff`. -/
theorem locked_operations_atomic_witness :
    Op.enableHW ∉ [Op.printf 1 hello, Op.backlightOff, Op.off] ∧
    ((∀ e ∈ ((Conc.init demo2x16 [.printf 1 hello, .backlightOff, .off]).run mixedSchedule).log,
        e.access ≠ .power → e.held = true) ∧
      ((Conc.init demo2x16 [.printf 1 hello, .backlightOff, .off]).run mixedSchedule).m.bus.writes
        = demo2x16.bus.writes ++ (busEvents ((Conc.init demo2x16
            [.printf 1 hello, .backlightOff, .off]).run mixedSchedule).log).map Event.byte ∧
      (∀ t, ∃ bl : Bool,
        ∀ e ∈ ((Conc.init demo2x16 [.printf 1 hello, .backlightOff, .off]).run mixedSchedule).log,
          e.tid = t → ∀ b, e.access = .bus b true → b.testBit 3 = bl) ∧
      (∀ t, ∃ A F B : List Event,
        busEvents ((Conc.init demo2x16 [.printf 1 hello, .backlightOff, .off]).run
          mixedSchedule).log = A ++ F ++ B ∧
        (∀ e ∈ F, e.tid = t) ∧ (∀ e ∈ A, e.tid ≠ t) ∧ (∀ e ∈ B, e.tid ≠ t))) ∧
    (busEvents ((Conc.init demo2x16 [.printf 1 hello, .backlightOff, .off]).run
        mixedSchedule).log).map (fun e => e.tid) = List.replicate 102 0 ++ [1] ∧
    ((Conc.init demo2x16 [.printf 1 hello, .backlightOff, .off]).run mixedSchedule).log.take 1
      = [⟨2, .power, false⟩] ∧
    ((Conc.init demo2x16 [.printf 1 hello, .backlightOff, .off]).run mixedSchedule).m.bus.writes.drop 96
      = [0x29, 0x2D, 0x29, 0x09, 0x0D, 0x09, 0x00] :=
  ⟨by decide, locked_operations_atomic demo2x16 _ (by decide) mixedSchedule, by decide, by decide,
    by decide⟩

/-! ### One thread alone runs its operation as the sequential embedding does -/

theorem Conc.run_append (s : Conc) (a b : List Nat) : s.run (a ++ b) = (s.run a).run b :=
  List.foldl_append _ _ _ _

theorem Conc.run_replicate_add (s : Conc) (tid a b : Nat) :
    s.run (List.replicate (a + b) tid)
      = (s.run (List.replicate a tid)).run (List.replicate b tid) := by
  rw [List.replicate_add, Conc.run_append]

theorem Conc.run_idle (n : Nat) (s : Conc) (tid : Nat)
    (h : s.crashed ≠ none ∨ (s.threads tid).prog = []) :
    s.run (List.replicate n tid) = s := by
  induction n with
  | zero => rfl
  | succ n ih =>
    have e : s.step tid = s := by
      rcases h with h | h
      · cases hc : s.crashed with
        | none => exact absurd hc h
        | some p => exact Conc.step_crashed_eq s tid p hc
      · cases hc : s.crashed with
        | none => exact Conc.step_done_eq s tid hc h
        | some p => exact Conc.step_crashed_eq s tid p hc
    show (s.step tid).run (List.replicate n tid) = s
    rw [e, ih]

theorem view_eq {s : Conc} {tid : Nat} {m : Machine} {c : Option Panic} {o : Option Nat}
    {p : List Instr} (h : s.view tid = (m, c, o, p)) :
    s.m = m ∧ s.crashed = c ∧ s.owner = o ∧ (s.threads tid).prog = p := by
  simp only [Conc.view, Prod.mk.injEq] at h
  exact h

/-- Alone and with the handle set, the four steps of `enable` add one pulse to the bus. -/
theorem solo_enable (s : Conc) (tid fd d : Nat) (m : Machine) (o : Option Nat)
    (r : List Instr) (hv : s.view tid = (m, none, o, enableProg d ++ r))
    (hi : m.lcd.i2c = some fd) :
    (s.run (List.replicate 4 tid)).view tid
      = (m.emit (pulse (pinInterpret _OFFSET_BACKLIGHT d m.lcd.backlight_state)), none, o, r) := by
  obtain ⟨rfl, hc, rfl, hp⟩ := view_eq hv
  have h1 : ∀ bs, (s.m.emit bs).lcd.i2c = some fd := fun _ => hi
  simp [Conc.view, Conc.run, Conc.step, Conc.advance, hc, hp, enableProg,
    writeI2C_open s.m fd hi, writeI2C_open _ fd (h1 _), emit_emit, pulse, pinInterpret_EN]

/-- Alone and with the handle set, the eight steps of `write` add its six bytes to the bus. -/
theorem solo_write (s : Conc) (tid fd v : Nat) (c : Bool) (m : Machine) (o : Option Nat)
    (r : List Instr) (hv : s.view tid = (m, none, o, writeProg v c ++ r))
    (hi : m.lcd.i2c = some fd) :
    (s.run (List.replicate 8 tid)).view tid
      = (m.emit (writeTrace m.lcd.backlight_state v c), none, o, r) := by
  have hv1 : s.view tid = (m, none, o,
      enableProg (packNibble (v >>> 4) c) ++ (enableProg (packNibble (v &&& 0x0F) c) ++ r)) := by
    rw [hv, writeProg, List.append_assoc]
  have e1 := solo_enable s tid fd _ m o _ hv1 hi
  have e2 := solo_enable _ tid fd _ _ o r e1 hi
  rw [Conc.run_replicate_add s tid 4 4, e2, emit_emit, emit_lcd, nibble_out, nibble_out,
    low_nibble_eq]
  simp [writeTrace, nibbleByte]

/-- Alone and with the handle set, the steps of `writeBuf` add the six bytes of every buffer
byte to the bus. -/
theorem solo_writeBuf (buf : List Nat) (s : Conc) (tid fd : Nat) (m : Machine) (o : Option Nat)
    (r : List Instr) (hv : s.view tid = (m, none, o, writeBufProg buf ++ r))
    (hi : m.lcd.i2c = some fd) :
    (s.run (List.replicate (8 * buf.length) tid)).view tid
      = (m.emit (buf.flatMap fun c => writeTrace m.lcd.backlight_state c false), none, o, r) := by
  induction buf generalizing s m with
  | nil =>
    simpa [writeBufProg, emit_nil, Conc.run] using hv
  | cons c cs ih =>
    have hv1 : s.view tid = (m, none, o, writeProg c false ++ (writeBufProg cs ++ r)) := by
      rw [hv]
      simp [writeBufProg, List.flatMap_cons, List.append_assoc]
    have e1 := solo_write s tid fd c false m o _ hv1 hi
    have e2 := ih _ _ e1 hi
    have hn : 8 * (c :: cs).length = 8 + 8 * cs.length := by
      simp only [List.length_cons]
      omega
    rw [hn, Conc.run_replicate_add, e2, emit_emit, emit_lcd]
    simp [List.flatMap_cons]

theorem solo_guardOn (s : Conc) (tid : Nat) (m : Machine) (o : Option Nat) (r : List Instr)
    (hv : s.view tid = (m, none, o, .guardOn :: r)) :
    (s.run (List.replicate 1 tid)).view tid = (m, none, o, if m.lcd.on_ then r else []) := by
  obtain ⟨rfl, hc, rfl, hp⟩ := view_eq hv
  by_cases hon : s.m.lcd.on_ = true <;>
    simp [Conc.view, Conc.run, Conc.step, Conc.advance, hc, hp, hon]

theorem solo_lock (s : Conc) (tid : Nat) (m : Machine) (r : List Instr)
    (hv : s.view tid = (m, none, none, .lock :: r)) :
    (s.run (List.replicate 1 tid)).view tid = (m, none, some tid, r) := by
  obtain ⟨rfl, hc, ho, hp⟩ := view_eq hv
  simp [Conc.view, Conc.run, Conc.step, Conc.advance, hc, hp, ho]

theorem solo_unlock (s : Conc) (tid : Nat) (m : Machine) (o : Option Nat) (r : List Instr)
    (hv : s.view tid = (m, none, o, .unlock :: r)) :
    (s.run (List.replicate 1 tid)).view tid = (m, none, none, r) := by
  obtain ⟨rfl, hc, rfl, hp⟩ := view_eq hv
  simp [Conc.view, Conc.run, Conc.step, Conc.advance, hc, hp]

theorem solo_setOn (s : Conc) (tid : Nat) (b : Bool) (m : Machine) (o : Option Nat)
    (r : List Instr) (hv : s.view tid = (m, none, o, .setOn b :: r)) :
    (s.run (List.replicate 1 tid)).view tid
      = ({ m with lcd := { m.lcd with on_ := b } }, none, o, r) := by
  obtain ⟨rfl, hc, rfl, hp⟩ := view_eq hv
  simp [Conc.view, Conc.run, Conc.step, Conc.advance, hc, hp]

theorem solo_setBacklight (s : Conc) (tid : Nat) (b : Bool) (m : Machine) (o : Option Nat)
    (r : List Instr) (hv : s.view tid = (m, none, o, .setBacklight b :: r)) :
    (s.run (List.replicate 1 tid)).view tid
      = ({ m with lcd := { m.lcd with backlight_state := b } }, none, o, r) := by
  obtain ⟨rfl, hc, rfl, hp⟩ := view_eq hv
  simp [Conc.view, Conc.run, Conc.step, Conc.advance, hc, hp]

theorem solo_storeHandle (s : Conc) (tid : Nat) (m : Machine) (o : Option Nat)
    (r : List Instr) (hv : s.view tid = (m, none, o, .storeHandle :: r)) :
    (s.run (List.replicate 1 tid)).view tid = (m.withHandle, none, o, r) := by
  obtain ⟨rfl, hc, rfl, hp⟩ := view_eq hv
  simp [Conc.view, Conc.run, Conc.step, Conc.advance, hc, hp]

theorem solo_raw (s : Conc) (tid fd b : Nat) (m : Machine) (o : Option Nat)
    (r : List Instr) (hv : s.view tid = (m, none, o, .raw b :: r)) (hi : m.lcd.i2c = some fd) :
    (s.run (List.replicate 1 tid)).view tid = (m.emit [b], none, o, r) := by
  obtain ⟨rfl, hc, rfl, hp⟩ := view_eq hv
  simp [Conc.view, Conc.run, Conc.step, Conc.advance, hc, hp, writeI2C_open s.m fd hi]

theorem solo_fail (s : Conc) (tid : Nat) (p : Panic) (m : Machine) (o : Option Nat)
    (r : List Instr) (hv : s.view tid = (m, none, o, .fail p :: r)) :
    (s.run (List.replicate 1 tid)).view tid = (m, some p, o, .fail p :: r) := by
  obtain ⟨rfl, hc, rfl, hp⟩ := view_eq hv
  simp [Conc.view, Conc.run, Conc.step, hc, hp]

/-- Once the thread has finished or the program has panicked, further steps change nothing. -/
theorem solo_finish (s : Conc) (tid k n : Nat) (hk : k ≤ n) (m : Machine) (c : Option Panic)
    (o : Option Nat) (p : List Instr)
    (hv : (s.run (List.replicate k tid)).view tid = (m, c, o, p))
    (hend : c ≠ none ∨ p = []) :
    (s.run (List.replicate n tid)).view tid = (m, c, o, p) := by
  obtain ⟨_, hc, _, hp⟩ := view_eq hv
  have e : n = k + (n - k) := by omega
  rw [e, Conc.run_replicate_add, Conc.run_idle _ _ _ ?_]
  · exact hv
  · rcases hend with h | h
    · exact Or.inl (hc ▸ h)
    · exact Or.inr (hp.trans h)

theorem writeProg_length (v : Nat) (c : Bool) : (writeProg v c).length = 8 := rfl

theorem writeBufProg_length (buf : List Nat) : (writeBufProg buf).length = 8 * buf.length := by
  induction buf with
  | nil => rfl
  | cons c cs ih =>
    have e : writeBufProg (c :: cs) = writeProg c false ++ writeBufProg cs := by
      simp [writeBufProg, List.flatMap_cons]
    rw [e, List.length_append, writeProg_length, ih, List.length_cons]
    omega

/-- Alone and with the handle set, a critical section made of one command. -/
theorem solo_commandSection (s : Conc) (tid fd v : Nat) (m : Machine)
    (hv : s.view tid = (m, none, none, [.lock] ++ commandProg v ++ [.unlock]))
    (hi : m.lcd.i2c = some fd) :
    (s.run (List.replicate 10 tid)).view tid
      = (m.emit (writeTrace m.lcd.backlight_state v true), none, none, []) := by
  have e1 := solo_lock s tid m (commandProg v ++ [.unlock]) (by rw [hv]; rfl)
  have e2 := solo_write _ tid fd v true m _ _ e1 hi
  have e3 := solo_unlock _ tid _ _ [] e2
  rw [Conc.run_replicate_add s tid 1 9, Conc.run_replicate_add _ tid 8 1, e3]

/-- Alone and with the handle set, `print` runs as in the sequential embedding. -/
theorem solo_print (s : Conc) (tid fd : Nat) (m : Machine) (line : Nat) (out : List Nat)
    (hv : s.view tid = (m, none, none, printProg m.lcd line out)) (hi : m.lcd.i2c = some fd) :
    ∃ (k : Nat) (o : Option Nat) (r : List Instr), k ≤ (printProg m.lcd line out).length ∧
      (s.run (List.replicate k tid)).view tid
        = ((print m line out).machine, (print m line out).panicked, o, r) ∧
      ((print m line out).panicked ≠ none ∨ r = []) := by
  unfold printProg print at *
  cases hcap : capstring out m.lcd.cols with
  | error p =>
    rw [hcap] at hv
    exact ⟨1, none, [.fail p], le_refl _, solo_fail s tid p m none [] hv, Or.inl (by simp [Res.panicked])⟩
  | ok o =>
    rw [hcap] at hv
    rcases hg : getLCDaddress m.lcd line 0 with ⟨a, e⟩
    rw [hg] at hv
    cases e with
    | some err => exact ⟨0, none, [], Nat.zero_le _, hv, Or.inr rfl⟩
    | none =>
      simp only at hv ⊢
      have hv1 : s.view tid = (m, none, none,
          .lock :: (writeProg ((_CMD_DDRAM_Set + a) % 256) true
            ++ (writeBufProg o ++ [.unlock]))) := by
        rw [hv]
        simp [commandProg]
      have e1 := solo_lock s tid m _ hv1
      have e2 := solo_write _ tid fd _ true m _ _ e1 hi
      have e3 := solo_writeBuf o _ tid fd _ _ _ e2 hi
      have e4 := solo_unlock _ tid _ _ [] e3
      refine ⟨1 + (8 + (8 * o.length + 1)), none, [], ?_, ?_, Or.inr rfl⟩
      · simp only [List.length_append, List.length_singleton, writeBufProg_length, commandProg,
          writeProg_length]
        omega
      · rw [Conc.run_replicate_add s tid 1, Conc.run_replicate_add _ tid 8,
          Conc.run_replicate_add _ tid (8 * o.length) 1, e4, command_open m fd hi]
        simp only [Res.bind]
        rw [writeBuf_open
          (m.emit (writeTrace m.lcd.backlight_state ((_CMD_DDRAM_Set + a) % 256) true)) fd hi]
        rfl

theorem void_panicked {α : Type} (r : Res α) : r.void.panicked = r.panicked := by
  cases r <;> rfl

theorem bind_ret_panicked {α : Type} (r : Res α) :
    (r.bind fun _ m => (.ret () m : Res Unit)).panicked = r.panicked := by
  cases r <;> rfl

/-- Alone and with the handle set, an operation that checks the power flag and then prints. -/
theorem solo_printOp (s : Conc) (fd : Nat) (m : Machine) (line : Nat) (out : List Nat)
    (hv : s.view 0 = (m, none, none, .guardOn :: printProg m.lcd line out))
    (hi : m.lcd.i2c = some fd) (n : Nat) (hn : (printProg m.lcd line out).length + 1 ≤ n) :
    ∃ (o : Option Nat) (r : List Instr),
      (s.run (List.replicate n 0)).view 0
        = (if m.lcd.on_ then (print m line out).machine else m,
           if m.lcd.on_ then (print m line out).panicked else none, o, r) := by
  have e1 := solo_guardOn s 0 m none _ hv
  by_cases hon : m.lcd.on_ = true
  · simp only [hon, if_true] at e1 ⊢
    obtain ⟨k, o, r, hk, e2, hend⟩ := solo_print _ 0 fd m line out e1 hi
    refine ⟨o, r, solo_finish s 0 (1 + k) n (by omega) _ _ _ _ ?_ hend⟩
    rw [Conc.run_replicate_add, e2]
  · simp only [hon, if_false] at e1 ⊢
    exact ⟨none, [], solo_finish s 0 1 n (by omega) _ _ _ _ e1 (Or.inr rfl)⟩

/-- One thread alone, given at least as many steps as its operation has, ends with the machine
and the panic of the sequential run of that operation. -/
theorem solo_agrees (m : Machine) (op : Op) (h : op = .enableHW ∨ ∃ fd, m.lcd.i2c = some fd)
    (n : Nat) (hn : (op.prog m).length ≤ n) :
    ∃ (o : Option Nat) (r : List Instr),
      ((Conc.init m [op]).run (List.replicate n 0)).view 0
        = ((op.run m).machine, (op.run m).panicked, o, r) := by
  have hv0 : (Conc.init m [op]).view 0 = (m, none, none, op.prog m) := rfl
  match op, h, hn, hv0 with
  | .on, _, hn, hv0 =>
    exact ⟨none, [], solo_finish _ 0 1 n hn _ _ _ _ (solo_setOn _ 0 true m none [] hv0)
      (Or.inr rfl)⟩
  | .off, _, hn, hv0 =>
    exact ⟨none, [], solo_finish _ 0 1 n hn _ _ _ _ (solo_setOn _ 0 false m none [] hv0)
      (Or.inr rfl)⟩
  | .backlightOn, h, hn, hv0 =>
    obtain ⟨fd, hi⟩ := h.resolve_left (by simp)
    have e1 := solo_guardOn _ 0 m none _ hv0
    by_cases hon : m.lcd.on_ = true
    · simp only [hon, if_true] at e1
      have e2 := solo_lock _ 0 m _ e1
      have e3 := solo_raw _ 0 fd _ m _ _ e2 hi
      have e4 := solo_setBacklight _ 0 true _ _ _ e3
      have e5 := solo_unlock _ 0 _ _ [] e4
      refine ⟨none, [], solo_finish _ 0 (1 + (1 + (1 + (1 + 1)))) n hn _ _ _ _ ?_ (Or.inr rfl)⟩
      rw [Conc.run_replicate_add, Conc.run_replicate_add, Conc.run_replicate_add,
        Conc.run_replicate_add, e5]
      simp [Op.run, BacklightOn, hon, writeI2C_open m fd hi, Res.bind, Res.machine, Res.panicked]
    · simp only [hon, if_false] at e1
      refine ⟨none, [], solo_finish _ 0 1 n (by simp [Op.prog] at hn; omega) _ _ _ _ ?_
        (Or.inr rfl)⟩
      rw [e1]
      simp [Op.run, BacklightOn, hon, Res.machine, Res.panicked]
  | .backlightOff, h, hn, hv0 =>
    obtain ⟨fd, hi⟩ := h.resolve_left (by simp)
    have e1 := solo_guardOn _ 0 m none _ hv0
    by_cases hon : m.lcd.on_ = true
    · simp only [hon, if_true] at e1
      have e2 := solo_lock _ 0 m _ e1
      have e3 := solo_raw _ 0 fd _ m _ _ e2 hi
      have e4 := solo_setBacklight _ 0 false _ _ _ e3
      have e5 := solo_unlock _ 0 _ _ [] e4
      refine ⟨none, [], solo_finish _ 0 (1 + (1 + (1 + (1 + 1)))) n hn _ _ _ _ ?_ (Or.inr rfl)⟩
      rw [Conc.run_replicate_add, Conc.run_replicate_add, Conc.run_replicate_add,
        Conc.run_replicate_add, e5]
      simp [Op.run, BacklightOff, hon, writeI2C_open m fd hi, Res.bind, Res.machine, Res.panicked]
    · simp only [hon, if_false] at e1
      refine ⟨none, [], solo_finish _ 0 1 n (by simp [Op.prog] at hn; omega) _ _ _ _ ?_
        (Or.inr rfl)⟩
      rw [e1]
      simp [Op.run, BacklightOff, hon, Res.machine, Res.panicked]
  | .clear, h, hn, hv0 =>
    obtain ⟨fd, hi⟩ := h.resolve_left (by simp)
    have hlen : (Op.prog m .clear).length = 11 := rfl
    have e1 := solo_guardOn _ 0 m none ([Instr.lock] ++ commandProg _CMD_Clear_Display ++ [Instr.unlock])
      (hv0 : _ = (m, none, none,
        Instr.guardOn :: ([Instr.lock] ++ commandProg _CMD_Clear_Display ++ [Instr.unlock])))
    by_cases hon : m.lcd.on_ = true
    · simp only [hon, if_true] at e1
      have e2 := solo_commandSection _ 0 fd _ m e1 hi
      refine ⟨none, [], solo_finish _ 0 (1 + 10) n (by omega) _ _ _ _ ?_ (Or.inr rfl)⟩
      rw [Conc.run_replicate_add, e2]
      simp [Op.run, Clear, hon, command_open m fd hi, Res.machine, Res.panicked]
    · simp only [hon, if_false] at e1
      refine ⟨none, [], solo_finish _ 0 1 n (by omega) _ _ _ _ ?_ (Or.inr rfl)⟩
      rw [e1]
      simp [Op.run, Clear, hon, Res.machine, Res.panicked]
  | .home, h, hn, hv0 =>
    obtain ⟨fd, hi⟩ := h.resolve_left (by simp)
    have hlen : (Op.prog m .home).length = 11 := rfl
    have e1 := solo_guardOn _ 0 m none ([Instr.lock] ++ commandProg _CMD_Return_Home ++ [Instr.unlock])
      (hv0 : _ = (m, none, none,
        Instr.guardOn :: ([Instr.lock] ++ commandProg _CMD_Return_Home ++ [Instr.unlock])))
    by_cases hon : m.lcd.on_ = true
    · simp only [hon, if_true] at e1
      have e2 := solo_commandSection _ 0 fd _ m e1 hi
      refine ⟨none, [], solo_finish _ 0 (1 + 10) n (by omega) _ _ _ _ ?_ (Or.inr rfl)⟩
      rw [Conc.run_replicate_add, e2]
      simp [Op.run, Home, hon, command_open m fd hi, Res.machine, Res.panicked]
    · simp only [hon, if_false] at e1
      refine ⟨none, [], solo_finish _ 0 1 n (by omega) _ _ _ _ ?_ (Or.inr rfl)⟩
      rw [e1]
      simp [Op.run, Home, hon, Res.machine, Res.panicked]
  | .setPosition line col, h, hn, hv0 =>
    obtain ⟨fd, hi⟩ := h.resolve_left (by simp)
    simp only [Op.prog] at hv0 hn
    rcases hg : getLCDaddress m.lcd line col with ⟨a, e⟩
    rw [hg] at hv0 hn
    cases e with
    | some err =>
      have e1 := solo_guardOn _ 0 m none [] hv0
      refine ⟨none, [], solo_finish _ 0 1 n (by simpa using hn) _ _ _ _ ?_ (Or.inr rfl)⟩
      rw [e1]
      by_cases hon : m.lcd.on_ = true <;>
        simp [Op.run, SetPosition, hon, hg, Res.machine, Res.panicked, Res.void]
    | none =>
      simp only at hv0 hn
      have hlen : 11 ≤ n := by simpa [commandProg, writeProg_length] using hn
      have e1 := solo_guardOn _ 0 m none _ hv0
      by_cases hon : m.lcd.on_ = true
      · simp only [hon, if_true] at e1
        have e2 := solo_commandSection _ 0 fd _ m e1 hi
        refine ⟨none, [], solo_finish _ 0 (1 + 10) n (by omega) _ _ _ _ ?_ (Or.inr rfl)⟩
        rw [Conc.run_replicate_add, e2]
        simp [Op.run, SetPosition, hon, hg, command_open m fd hi, Res.machine, Res.panicked,
          Res.void, Res.bind]
      · simp only [hon, if_false] at e1
        refine ⟨none, [], solo_finish _ 0 1 n (by omega) _ _ _ _ ?_ (Or.inr rfl)⟩
        rw [e1]
        simp [Op.run, SetPosition, hon, Res.machine, Res.panicked, Res.void]
  | .clearLine line, h, hn, hv0 =>
    obtain ⟨fd, hi⟩ := h.resolve_left (by simp)
    obtain ⟨o, r, e⟩ := solo_printOp _ fd m line _ hv0 hi n (by simpa [Op.prog] using hn)
    refine ⟨o, r, ?_⟩
    rw [e]
    cases hon : m.lcd.on_ with
    | true =>
      simp only [Op.run, ClearLine, hon, Bool.not_true, Bool.false_eq_true, if_false, if_true,
        bind_ret_machine, bind_ret_panicked]
    | false =>
      simp only [Op.run, ClearLine, hon, Bool.not_false, if_true, Bool.false_eq_true, if_false]
      rfl
  | .printf line formatted, h, hn, hv0 =>
    obtain ⟨fd, hi⟩ := h.resolve_left (by simp)
    obtain ⟨o, r, e⟩ := solo_printOp _ fd m line _ hv0 hi n (by simpa [Op.prog] using hn)
    refine ⟨o, r, ?_⟩
    rw [e]
    cases hon : m.lcd.on_ with
    | true =>
      simp only [Op.run, Printf, hon, Bool.not_true, Bool.false_eq_true, if_false, if_true,
        void_machine, void_panicked]
    | false =>
      simp only [Op.run, Printf, hon, Bool.not_false, if_true, Bool.false_eq_true, if_false]
      rfl
  | .centerf line formatted, h, hn, hv0 =>
    obtain ⟨fd, hi⟩ := h.resolve_left (by simp)
    obtain ⟨o, r, e⟩ := solo_printOp _ fd m line _ hv0 hi n (by simpa [Op.prog] using hn)
    refine ⟨o, r, ?_⟩
    rw [e]
    cases hon : m.lcd.on_ with
    | true =>
      simp only [Op.run, Centerf, hon, Bool.not_true, Bool.false_eq_true, if_false, if_true,
        void_machine, void_panicked]
    | false =>
      simp only [Op.run, Centerf, hon, Bool.not_false, if_true, Bool.false_eq_true, if_false]
      rfl
  | .rightJustifyf line formatted, h, hn, hv0 =>
    obtain ⟨fd, hi⟩ := h.resolve_left (by simp)
    obtain ⟨o, r, e⟩ := solo_printOp _ fd m line _ hv0 hi n (by simpa [Op.prog] using hn)
    refine ⟨o, r, ?_⟩
    rw [e]
    cases hon : m.lcd.on_ with
    | true =>
      simp only [Op.run, RightJustifyf, hon, Bool.not_true, Bool.false_eq_true, if_false, if_true,
        void_machine, void_panicked]
    | false =>
      simp only [Op.run, RightJustifyf, hon, Bool.not_false, if_true, Bool.false_eq_true, if_false]
      rfl
  | .enableHW, _, hn, hv0 =>
    by_cases hopen : m.bus.openFails = true
    · have hp : Op.prog m .enableHW = [] := by simp [Op.prog, hopen]
      rw [hp] at hv0
      refine ⟨none, [], solo_finish _ 0 0 n (Nat.zero_le _) _ _ _ _ ?_ (Or.inr rfl)⟩
      rw [show (Conc.init m [Op.enableHW]).run (List.replicate 0 0) = Conc.init m [Op.enableHW]
        from rfl, hv0]
      simp [Op.run, EnableHW, hopen, Res.void, Res.machine, Res.panicked]
    · by_cases hioctl : m.bus.ioctlFails = true
      · have hp : Op.prog m .enableHW = [] := by simp [Op.prog, hopen, hioctl]
        rw [hp] at hv0
        refine ⟨none, [], solo_finish _ 0 0 n (Nat.zero_le _) _ _ _ _ ?_ (Or.inr rfl)⟩
        rw [show (Conc.init m [Op.enableHW]).run (List.replicate 0 0) = Conc.init m [Op.enableHW]
          from rfl, hv0]
        simp [Op.run, EnableHW, hopen, hioctl, Res.void, Res.machine, Res.panicked]
      · have ho : m.bus.openFails = false := by simpa using hopen
        have hi : m.bus.ioctlFails = false := by simpa using hioctl
        have e30 : pinInterpret _OFFSET_D5 (pinInterpret _OFFSET_D4 0 true) true = 0x30 := by
          decide
        have e20 : pinInterpret _OFFSET_D4 0x30 false = 0x20 := by decide
        have c1 : _CMD_Function_Set ||| _OPT_2_Lines = 0x28 := by decide
        have c2 : _CMD_Display_Control ||| _OPT_Enable_Display ||| _OPT_Enable_Cursor = 0x0E := by
          decide
        have c3 : _CMD_Clear_Display = 0x01 := rfl
        have c4 : _CMD_Entry_Mode ||| _OPT_Increment ||| _OPT_Display_Shift = 0x0E := by decide
        have hp : Op.prog m .enableHW = .storeHandle :: (enableProg 0x30 ++ (enableProg 0x30
            ++ (enableProg 0x30 ++ (enableProg 0x20 ++ (writeProg 0x28 true
            ++ (writeProg 0x0E true ++ (writeProg 0x01 true ++ (writeProg 0x0E true ++ [])))))))) := by
          simp only [Op.prog, ho, hi, Bool.false_eq_true, if_false, e30, e20, c1, c2, c3, c4,
            commandProg, List.append_assoc, List.singleton_append, List.append_nil, List.cons_append,
            List.nil_append]
        rw [hp] at hv0 hn
        have hlen : 49 ≤ n := hn
        have e1 := solo_storeHandle _ 0 m none _ hv0
        have e2 := solo_enable _ 0 m.bus.fd 0x30 _ none _ e1 rfl
        have e3 := solo_enable _ 0 m.bus.fd 0x30 _ none _ e2 rfl
        have e4 := solo_enable _ 0 m.bus.fd 0x30 _ none _ e3 rfl
        have e5 := solo_enable _ 0 m.bus.fd 0x20 _ none _ e4 rfl
        have e6 := solo_write _ 0 m.bus.fd 0x28 true _ none _ e5 rfl
        have e7 := solo_write _ 0 m.bus.fd 0x0E true _ none _ e6 rfl
        have e8 := solo_write _ 0 m.bus.fd 0x01 true _ none _ e7 rfl
        have e9 := solo_write _ 0 m.bus.fd 0x0E true _ none _ e8 rfl
        refine ⟨none, [], solo_finish _ 0 (1 + (4 + (4 + (4 + (4 + (8 + (8 + (8 + 8)))))))) n
          hlen _ _ _ _ ?_ (Or.inr rfl)⟩
        rw [Conc.run_replicate_add, Conc.run_replicate_add, Conc.run_replicate_add,
          Conc.run_replicate_add, Conc.run_replicate_add, Conc.run_replicate_add,
          Conc.run_replicate_add, Conc.run_replicate_add, e9]
        simp only [Op.run, void_machine, void_panicked, EnableHW_ok m ho hi, emit_emit, emit_lcd,
          Res.machine, Res.panicked, List.append_assoc]
        rfl

end LcdDriver
